import Mathlib

/-!
# XMODEM / XMODEM-1K engine (`xmodem.c`): shallow embedding

Conventions of the embedding.

* A C `unsigned char` is a `Nat` below 256; every store of a wider value into an
  `unsigned char` is written with an explicit `% 256`.  `unsigned short` is a `Nat`
  below 65536 with an explicit `% 65536` at every assignment.  `int` is `Int`.
* Memory regions (`xbuff`, the source buffer, the sink) are `List Nat`.
* `_inbyte` results are `Int`: a value `>= 0` is a received byte, a negative value is a
  timeout.  `_outbyte` arguments are collected in a `List Nat`.
* `xmodemReceive` and `xmodemTransmit` block only inside `_inbyte`.  Each is embedded as
  a step function whose states are the program points that are blocked in `_inbyte`:
  one step takes the value returned by `_inbyte`, runs the C code up to the next call of
  `_inbyte` (or up to `return`), and reports the bytes written with `_outbyte` on the way.
-/

namespace Xmodem

/-! ## Configuration and control bytes (xmodem.c lines 49-67) -/

def DLY_1S : Nat := 1000
def MAXRETRANS : Int := 25
def SOH : Nat := 0x01
def STX : Nat := 0x02
def EOT : Nat := 0x04
def ACK : Nat := 0x06
def NAK : Nat := 0x15
def CAN : Nat := 0x18
def CTRLZ : Nat := 0x1A
/-- The character constant written as a capital letter C in the source (0x43). -/
def CHR_C : Nat := 0x43
def XBUF_SIZE : Nat := 1024 + 3 + 2

/-! ## Integrity layer (xmodem.c lines 73-113) -/

/-- Line 81: `crc16 = (unsigned char)(crc16 >> 8) | (crc16 << 8);` -/
def crc16_l81 (crc16 : Nat) : Nat :=
  (((crc16 >>> 8) % 256) ||| (crc16 <<< 8)) % 65536

/-- Line 82: `crc16 ^= *buffer;` -/
def crc16_l82 (crc16 : Nat) (b : Nat) : Nat :=
  (crc16 ^^^ b) % 65536

/-- Line 83: `crc16 ^= (unsigned char)(crc16 & 0xff) >> 4;` -/
def crc16_l83 (crc16 : Nat) : Nat :=
  (crc16 ^^^ (((crc16 &&& 0xff) % 256) >>> 4)) % 65536

/-- Line 84: `crc16 ^= (crc16 << 8) << 4;` -/
def crc16_l84 (crc16 : Nat) : Nat :=
  (crc16 ^^^ ((crc16 <<< 8) <<< 4)) % 65536

/-- Line 85: `crc16 ^= ((crc16 & 0xff) << 4) << 1;` -/
def crc16_l85 (crc16 : Nat) : Nat :=
  (crc16 ^^^ (((crc16 &&& 0xff) <<< 4) <<< 1)) % 65536

/-- One iteration of the `while` loop of `crc16_ccitt` (lines 81-85); `b` is `*buffer`. -/
def crc16_step (crc16 : Nat) (b : Nat) : Nat :=
  crc16_l85 (crc16_l84 (crc16_l83 (crc16_l82 (crc16_l81 crc16) b)))

/-- The `while (length != 0)` loop of `crc16_ccitt`, with the running `crc16`. -/
def crc16_loop : List Nat → Nat → Nat → Nat
  | _, 0, crc16 => crc16
  | buffer, length + 1, crc16 =>
      crc16_loop buffer.tail length (crc16_step crc16 (buffer.headD 0))

/-- Function `crc16_ccitt(buffer, length)` (lines 73-91). -/
def crc16_ccitt (buffer : List Nat) (length : Nat) : Nat :=
  crc16_loop buffer length 0

/-- The checksum loop of `check` (lines 104-107): `cks += buf[i]` for `i < sz`,
in `unsigned char` arithmetic. -/
def cks_loop : List Nat → Nat → Nat → Nat
  | _, 0, cks => cks
  | buf, sz + 1, cks => cks_loop buf.tail sz ((cks + buf.headD 0) % 256)

/-- Function `check(crc, buf, sz)` (lines 94-113); returns 1 or 0. -/
def check (crc : Int) (buf : List Nat) (sz : Nat) : Nat :=
  if crc ≠ 0 then
    let crc := crc16_ccitt buf sz
    let tcrc := ((buf.getD sz 0 <<< 8) + buf.getD (sz + 1) 0) % 65536
    if crc = tcrc then 1 else 0
  else
    let cks := cks_loop buf sz 0
    if cks = buf.getD sz 0 then 1 else 0

/-! ## Reference CRC (the words of the specification) -/

/-- One bit of the reference CRC: shift left by one, and when the bit shifted out of
the 16-bit register was set, xor with the polynomial 0x1021. -/
def crc16_ref_bit (crc : Nat) : Nat :=
  if crc.testBit 15 then ((crc <<< 1) ^^^ 0x1021) % 65536 else (crc <<< 1) % 65536

/-- One byte of the reference CRC: the byte enters at the most significant end,
then eight single-bit steps. -/
def crc16_ref_byte (crc : Nat) (b : Nat) : Nat :=
  crc16_ref_bit^[8] (crc ^^^ (b <<< 8))

/-- Reference bit-by-bit CCITT CRC-16 as the specification words it: initial value 0,
polynomial 0x1021, most significant bit first, no reflection, no final xor. -/
def crc16_ref (bytes : List Nat) : Nat :=
  bytes.foldl crc16_ref_byte 0

/-! ## Small-step presentation of blocking code -/

/-- The code run between one return of `_inbyte` and the next call of `_inbyte`
(or the `return` of the function). -/
inductive Step (σ : Type) where
  /-- The code wrote `out` with `_outbyte` and is blocked in `_inbyte` again, in state `s`. -/
  | more (s : σ) (out : List Nat)
  /-- The code wrote `out` with `_outbyte` and returned `ret`; `s` holds the final values
  of the variables. -/
  | done (s : σ) (out : List Nat) (ret : Int)
  deriving DecidableEq

/-- Bytes written by a step. -/
def Step.out {σ : Type} : Step σ → List Nat
  | .more _ out => out
  | .done _ out _ => out

/-- Variables after a step. -/
def Step.state {σ : Type} : Step σ → σ
  | .more s _ => s
  | .done s _ _ => s

/-- Return value of a step that returned. -/
def Step.ret {σ : Type} : Step σ → Option Int
  | .more _ _ => none
  | .done _ _ r => some r

/-- Run a function from a step on: `reads` are the results of the successive calls of
`_inbyte`.  The result is the final state, all bytes written, and the return value;
`none` when `reads` ends while the function is still blocked in `_inbyte`. -/
def driveList {σ : Type} (step : σ → Int → Step σ) :
    Step σ → List Int → Option (σ × List Nat × Int)
  | .done s out r, _ => some (s, out, r)
  | .more _ _, [] => none
  | .more s out, c :: cs =>
      (driveList step (step s c) cs).map (fun x => (x.1, out ++ x.2.1, x.2.2))

/-- The state in which a function is blocked after exactly the reads `reads`; `none` when
it has returned by then. -/
def stepsTo {σ : Type} (step : σ → Int → Step σ) : Step σ → List Int → Option σ
  | .more s _, [] => some s
  | .done _ _ _, _ => none
  | .more s _, c :: cs => stepsTo step (step s c) cs

/-- Put `o`, written earlier, in front of what a step wrote. -/
def Step.prepend {σ : Type} (o : List Nat) : Step σ → Step σ
  | .more s out => .more s (o ++ out)
  | .done s out r => .done s (o ++ out) r

/-- Run a function from a step on over the reads `reads`: the result is where it is after
them (blocked, or returned, in which case the remaining reads never happen), with all the
bytes written. -/
def feed {σ : Type} (step : σ → Int → Step σ) : Step σ → List Int → Step σ
  | .done s o r, _ => .done s o r
  | .more s o, [] => .more s o
  | .more s o, c :: cs => (feed step (step s c) cs).prepend o

/-- The C expression `(unsigned char)(~x)` for an `unsigned char` x (promoted to `int`,
complemented, truncated). -/
def bnot8 (x : Nat) : Nat := ((-1 - (x : Int)) % 256).toNat

/-! ## Receiver (xmodem.c lines 124-229) -/

/-- Program points of `xmodemReceive` that are blocked in `_inbyte`. -/
inductive RxPc where
  /-- line 151, `_inbyte((DLY_1S)<<1)`, in iteration `retry` of the `for` loop of line 149 -/
  | sync (retry : Nat)
  /-- line 165, `_inbyte(DLY_1S)` after a first CAN, in iteration `retry` -/
  | syncCan (retry : Nat)
  /-- line 188, `_inbyte(DLY_1S)` in iteration `i` of the loop of line 187 -/
  | recv (i : Nat)
  /-- line 166, inside `flushinput()` -/
  | flushCancel
  /-- line 177, inside `flushinput()` -/
  | flushSync
  /-- line 211, inside `flushinput()` -/
  | flushRetrans
  /-- line 226, inside `flushinput()` -/
  | flushReject
  deriving DecidableEq

/-- Variables of `xmodemReceive`.  `xbuff` holds `xbuff[0 .. p - xbuff)`, the bytes written
through `p` since `p = xbuff` (line 185); no other part of `xbuff` is ever read.  `sink`
is the sequence of bytes handed to `storeChunk` or copied to `ctx` so far (the copy of
line 203 goes to offset `len`, which is the number of bytes copied before). -/
structure RxState where
  destsz : Int
  crc : Int
  trychar : Nat
  packetno : Nat
  len : Int
  retrans : Int
  bufsz : Nat
  xbuff : List Nat
  sink : List Nat
  pc : RxPc
  deriving DecidableEq

/-- Lines 150-151: `if (trychar) _outbyte(trychar);` and the call of `_inbyte`, in
iteration `retry`; `out` is what was written before on the way here. -/
def rxSyncEnter (s : RxState) (retry : Nat) (out : List Nat) : Step RxState :=
  .more { s with pc := .sync retry } (out ++ (if s.trychar ≠ 0 then [s.trychar] else []))

/-- End of iteration `retry` of the loop of line 149: `++retry`, the test `retry < 16`,
and after the loop lines 176-177. -/
def rxSyncNext (s : RxState) (retry : Nat) : Step RxState :=
  if retry + 1 < 16 then rxSyncEnter s (retry + 1) []
  else if s.trychar = CHR_C then
    -- trychar = NAK; crc = 0; continue;
    rxSyncEnter { s with trychar := NAK, crc := 0 } 0 []
  else
    -- flushinput();
    .more { s with pc := .flushSync } []

/-- Lines 154-155 / 158-159 and 183-188: `bufsz = ...; goto start_recv;`, then
`trychar = 0; p = xbuff; *p++ = c;` and the first call of `_inbyte` in the loop of
line 187 (its test `0 < bufsz+(crc?1:0)+3` holds). -/
def rxStartRecv (s : RxState) (c : Int) (bufsz : Nat) : Step RxState :=
  .more { s with bufsz := bufsz, trychar := 0, xbuff := [(c % 256).toNat], pc := .recv 0 } []

/-- Lines 192-194: the acceptance test of a fully received packet. -/
def rxAccept (s : RxState) : Bool :=
  decide (s.xbuff.getD 1 0 = bnot8 (s.xbuff.getD 2 0)) &&
  (decide ((s.xbuff.getD 1 0 : Int) = (s.packetno : Int)) ||
    decide ((s.xbuff.getD 1 0 : Int) = (s.packetno : Int) - 1)) &&
  decide (check s.crc (s.xbuff.drop 3) s.bufsz ≠ 0)

/-- Lines 196-197: `count = (destsz ? destsz : bufsz) - len; if (count > bufsz) count = bufsz;` -/
def rxCount (s : RxState) : Int :=
  let count : Int := (if s.destsz ≠ 0 then s.destsz else (s.bufsz : Int)) - s.len
  if count > (s.bufsz : Int) then (s.bufsz : Int) else count

/-- Lines 196-208: the body of `if (xbuff[1] == packetno)`. -/
def rxDeliver (s : RxState) : RxState :=
  -- if (count > 0) { storeChunk / memcpy of count bytes from &xbuff[3]; len += count; }
  let s1 : RxState :=
    if rxCount s > 0 then
      { s with sink := s.sink ++ (s.xbuff.drop 3).take (rxCount s).toNat,
               len := s.len + rxCount s }
    else s
  -- ++packetno; retrans = MAXRETRANS+1;
  { s1 with packetno := (s1.packetno + 1) % 256, retrans := MAXRETRANS + 1 }

/-- Lines 192-227: what happens once the loop of line 187 has stored the whole packet. -/
def rxPacket (s : RxState) : Step RxState :=
  if rxAccept s then
    let s1 := if s.xbuff.getD 1 0 = s.packetno then rxDeliver s else s
    -- if (--retrans <= 0)
    let s2 := { s1 with retrans := s1.retrans - 1 }
    if s2.retrans ≤ 0 then
      -- flushinput();
      .more { s2 with pc := .flushRetrans } []
    else if s2.destsz ≠ 0 then
      -- _outbyte(ACK); continue;
      rxSyncEnter s2 0 [ACK]
    else
      -- _outbyte(ACK); return len;
      .done s2 [ACK] s2.len
  else
    -- reject: flushinput();
    .more { s with pc := .flushReject } []

/-- One step of `xmodemReceive`: `c` is the value just returned by `_inbyte`. -/
def rxStep (s : RxState) (c : Int) : Step RxState :=
  match s.pc with
  | .sync retry =>
      if c ≥ 0 then
        if c = SOH then rxStartRecv s c 128
        else if c = STX then rxStartRecv s c 1024
        else if c = EOT then .done s [ACK] s.len
        else if c = CAN then .more { s with pc := .syncCan retry } []
        else rxSyncNext s retry
      else rxSyncNext s retry
  | .syncCan retry =>
      if c = CAN then .more { s with pc := .flushCancel } []
      else rxSyncNext s retry
  | .recv i =>
      -- if ((c = _inbyte(DLY_1S)) < 0) goto reject;
      if c < 0 then .more { s with pc := .flushReject } []
      else
        -- *p++ = c;
        let s1 := { s with xbuff := s.xbuff ++ [(c % 256).toNat] }
        -- ++i; i < (bufsz+(crc?1:0)+3)
        if i + 1 < s.bufsz + (if s.crc ≠ 0 then 1 else 0) + 3 then
          .more { s1 with pc := .recv (i + 1) } []
        else rxPacket s1
  | .flushCancel =>
      if c ≥ 0 then .more s [] else .done s [ACK] (-1)
  | .flushSync =>
      if c ≥ 0 then .more s [] else .done s [CAN, CAN, CAN] (-2)
  | .flushRetrans =>
      if c ≥ 0 then .more s [] else .done s [CAN, CAN, CAN] (-3)
  | .flushReject =>
      -- _outbyte(NAK); next iteration of for(;;)
      if c ≥ 0 then .more s [] else rxSyncEnter s 0 [NAK]

/-- Lines 140-146: the initial values of the variables of `xmodemReceive`. -/
def rxInit (destsz crc : Int) : RxState :=
  { destsz := destsz
    crc := crc
    trychar := if crc ≠ 0 then CHR_C else NAK
    packetno := if destsz ≠ 0 then 1 else 0
    len := 0
    retrans := MAXRETRANS
    bufsz := 0
    xbuff := []
    sink := []
    pc := .sync 0 }

/-- Entry of `xmodemReceive` up to its first call of `_inbyte`. -/
def rxStart (destsz crc : Int) : Step RxState :=
  rxSyncEnter (rxInit destsz crc) 0 []

/-- Function `xmodemReceive(storeChunk, ctx, destsz, crc)` on a transport whose reads return
`reads` and after that time out `timeouts` times. -/
def xmodemReceive (destsz crc : Int) (reads : List Int) (timeouts : Nat) :
    Option (RxState × List Nat × Int) :=
  driveList rxStep (rxStart destsz crc) (reads ++ List.replicate timeouts (-1))

/-! ## Transmitter (xmodem.c lines 234-374) -/

/-- Program points of `xmodemTransmit` that are blocked in `_inbyte`. -/
inductive TxPc where
  /-- line 260, `_inbyte((DLY_1S)<<1)`, in iteration `retry` of the loop of line 259 -/
  | sync (retry : Nat)
  /-- line 269, `_inbyte(DLY_1S)` after a first CAN -/
  | syncCan (retry : Nat)
  /-- line 331, `_inbyte(DLY_1S)`, in iteration `retry` of the loop of line 327 -/
  | reply (retry : Nat)
  /-- line 338, `_inbyte(DLY_1S)` after a first CAN -/
  | replyCan (retry : Nat)
  /-- line 359, `_inbyte((DLY_1S)<<1)`, in iteration `retry` of the loop of line 357 -/
  | eot (retry : Nat)
  /-- inside `flushinput()` at line 271, 283, 340, 353 or 365; `ret` is returned after it -/
  | flush (ret : Int)
  deriving DecidableEq

/-- Variables of `xmodemTransmit`.  `src` is the memory at `ctx` (or what `fetchChunk`
delivers, in order); `xbuff` holds `xbuff[0 .. bufsz+4+(crc?1:0))`.  The `int` variables are
integers: the function computes `srcsz - len` (lines 290, 299) and `len + bufsz` (line 335)
on them, and `TxRange` is the range in which these stay when
`0 < srcsz <= INT_MAX - 1024`. -/
structure TxState where
  src : List Nat
  srcsz : Int
  onek : Int
  binary : Int
  crc : Int
  packetno : Nat
  len : Int
  bufsz : Nat
  xbuff : List Nat
  pc : TxPc
  deriving DecidableEq

/-- The `c` bytes at `&ctx[len]` (line 311), or the `c` bytes `fetchChunk` stores. -/
def txFetch (src : List Nat) (len : Int) (c : Nat) : List Nat :=
  (List.range c).map (fun i => src.getD (len.toNat + i) 0)

/-- Lines 302-314: the data region `xbuff[3 .. 3+bufsz)`. -/
def txData (src : List Nat) (len : Int) (bufsz : Nat) (binary : Int) (c : Int) : List Nat :=
  -- memset (&xbuff[3], 0, bufsz);
  let region := List.replicate bufsz 0
  if binary = 0 ∧ c = 0 then
    -- xbuff[3] = CTRLZ;
    region.set 0 CTRLZ
  else
    -- memcpy (&xbuff[3], &((unsigned char *)ctx)[len], c);
    let region := txFetch src len c.toNat ++ region.drop c.toNat
    -- if (!binary && (c < bufsz)) xbuff[3+c] = CTRLZ;
    if binary = 0 ∧ c < (bufsz : Int) then region.set c.toNat CTRLZ else region

/-- Lines 315-326: the trailer `xbuff[bufsz+3 ..]` computed over the data region. -/
def txTrailer (crc : Int) (data : List Nat) (bufsz : Nat) : List Nat :=
  if crc ≠ 0 then
    let ccrc := crc16_ccitt data bufsz
    [((ccrc >>> 8) &&& 0xFF) % 256, (ccrc &&& 0xFF) % 256]
  else
    [cks_loop data bufsz 0]

/-- Lines 328-331: write `xbuff[0 .. bufsz+4+(crc?1:0))` and call `_inbyte`, in
iteration `retry` of the loop of line 327. -/
def txSend (s : TxState) (retry : Nat) : Step TxState :=
  .more { s with pc := .reply retry }
    (s.xbuff.take (s.bufsz + 4 + (if s.crc ≠ 0 then 1 else 0)))

/-- Lines 297-326: the packet `xbuff[0 .. bufsz+4+(crc?1:0))` with leader `leader`, block
size `bufsz`, number `packetno` and `c` payload bytes taken at `&ctx[len]`. -/
def txPacket (src : List Nat) (len : Int) (leader bufsz packetno : Nat)
    (binary crc c : Int) : List Nat :=
  let data := txData src len bufsz binary c
  -- xbuff[0] = leader; xbuff[1] = packetno; xbuff[2] = ~packetno;
  [leader, packetno, bnot8 packetno] ++ data ++ txTrailer crc data bufsz

/-- Lines 289-296: `onek && ((srcsz - len) > 128)`, the test that selects STX and 1024. -/
def txBig (s : TxState) : Bool :=
  decide (s.onek ≠ 0 ∧ s.srcsz - s.len > 128)

/-- Lines 289-296: the block size `bufsz`. -/
def txBufsz (s : TxState) : Nat := if txBig s then 1024 else 128

/-- Lines 289-296: the leader `xbuff[0]`. -/
def txLeader (s : TxState) : Nat := if txBig s then STX else SOH

/-- Lines 299-300: `c = (srcsz ? srcsz : bufsz) - len; if (c > bufsz) c = bufsz;` -/
def txCount (s : TxState) : Int :=
  let c : Int := (if s.srcsz ≠ 0 then s.srcsz else (txBufsz s : Int)) - s.len
  if c > (txBufsz s : Int) then (txBufsz s : Int) else c

/-- Label `start_trans`, lines 288-371, up to the next call of `_inbyte`. -/
def txStartTrans (s : TxState) : Step TxState :=
  let bufsz := txBufsz s
  let c := txCount s
  if c > 0 ∨ (s.binary = 0 ∧ c = 0) then
    txSend { s with bufsz := bufsz,
                    xbuff := txPacket s.src s.len (txLeader s) bufsz s.packetno s.binary s.crc c } 0
  else if s.srcsz ≠ 0 then
    -- retry = 0: _outbyte(EOT); _inbyte((DLY_1S)<<1)
    .more { s with bufsz := bufsz, pc := .eot 0 } [EOT]
  else
    -- return len;
    .done { s with bufsz := bufsz } [] s.len

/-- End of iteration `retry` of the loop of line 259, and lines 280-283 after it. -/
def txSyncNext (s : TxState) (retry : Nat) : Step TxState :=
  if retry + 1 < 16 then .more { s with pc := .sync (retry + 1) } []
  else .more { s with pc := .flush (-2) } [CAN, CAN, CAN]

/-- End of iteration `retry` of the loop of line 327, and lines 350-353 after it. -/
def txReplyNext (s : TxState) (retry : Nat) : Step TxState :=
  if ((retry : Int) + 1) < MAXRETRANS then txSend s (retry + 1)
  else .more { s with pc := .flush (-4) } [CAN, CAN, CAN]

/-- End of iteration `retry` of the loop of line 357 when the reply was not ACK, and
lines 364-365 after it. -/
def txEotNext (s : TxState) (retry : Nat) : Step TxState :=
  if retry + 1 < 10 then .more { s with pc := .eot (retry + 1) } [EOT]
  else .more { s with pc := .flush (-5) } []

/-- One step of `xmodemTransmit`: `c` is the value just returned by `_inbyte`. -/
def txStep (s : TxState) (c : Int) : Step TxState :=
  match s.pc with
  | .sync retry =>
      if c ≥ 0 then
        if c = CHR_C then txStartTrans { s with crc := 1 }
        else if c = NAK then txStartTrans { s with crc := 0 }
        else if c = CAN then .more { s with pc := .syncCan retry } []
        else txSyncNext s retry
      else txSyncNext s retry
  | .syncCan retry =>
      -- _outbyte(ACK); flushinput();
      if c = CAN then .more { s with pc := .flush (-1) } [ACK]
      else txSyncNext s retry
  | .reply retry =>
      if c ≥ 0 then
        if c = ACK then
          -- ++packetno; len += bufsz; goto start_trans;
          txStartTrans { s with packetno := (s.packetno + 1) % 256, len := s.len + s.bufsz }
        else if c = CAN then .more { s with pc := .replyCan retry } []
        else txReplyNext s retry
      else txReplyNext s retry
  | .replyCan retry =>
      if c = CAN then .more { s with pc := .flush (-1) } [ACK]
      else txReplyNext s retry
  | .eot retry =>
      -- if ((c = _inbyte((DLY_1S)<<1)) == ACK) break;  ...  if (c == ACK) return len;
      if c = ACK then .done s [] s.len
      else txEotNext s retry
  | .flush r =>
      if c ≥ 0 then .more s [] else .done s [] r

/-- Lines 252-256: the initial values of the variables of `xmodemTransmit`. -/
def txInit (src : List Nat) (srcsz onek binary : Int) : TxState :=
  { src := src
    srcsz := srcsz
    onek := onek
    binary := binary
    crc := -1
    packetno := if srcsz ≠ 0 then 1 else 0
    len := 0
    bufsz := 0
    xbuff := []
    pc := .sync 0 }

/-- Entry of `xmodemTransmit` up to its first call of `_inbyte`. -/
def txStart (src : List Nat) (srcsz onek binary : Int) : Step TxState :=
  .more (txInit src srcsz onek binary) []

/-- Function `xmodemTransmit(fetchChunk, ctx, srcsz, onek, binary)` on a transport whose reads
return `reads` and after that time out `timeouts` times. -/
def xmodemTransmit (src : List Nat) (srcsz onek binary : Int) (reads : List Int)
    (timeouts : Nat) : Option (TxState × List Nat × Int) :=
  driveList txStep (txStart src srcsz onek binary) (reads ++ List.replicate timeouts (-1))

/-- Whether the transmitter is blocked at line 260. -/
def TxPc.isSync : TxPc → Bool
  | .sync _ => true
  | _ => false

/-- Whether the transmitter is blocked at line 331. -/
def TxPc.isReply : TxPc → Bool
  | .reply _ => true
  | _ => false

/-- Number of blocks ACKed while `reads` are read: the reads at line 331 that return ACK
(the branch of lines 333-336). -/
def txAcked : Step TxState → List Int → Nat
  | .more s _, c :: cs =>
      (if s.pc.isReply ∧ c = ACK then 1 else 0) + txAcked (txStep s c) cs
  | _, _ => 0

/-- The character the peer synchronised with: the first read at line 260 that returns the
letter C or NAK (the branches of lines 262-267). -/
def txSyncChar : Step TxState → List Int → Option Int
  | .more s _, c :: cs =>
      if s.pc.isSync ∧ (c = CHR_C ∨ c = NAK) then some c else txSyncChar (txStep s c) cs
  | _, _ => none

/-- What holds of the variables of `xmodemTransmit` when it is blocked in `_inbyte`, after
`acks` blocks were ACKed and the peer synchronised with `sync`: the parameters are
unchanged, `packetno` is the initial number plus `acks` modulo 256, and while a reply is
awaited `crc` records the sync character and `xbuff` holds the packet built for the
current `len`. -/
def TxInv (src : List Nat) (srcsz onek binary : Int) (acks : Nat) (sync : Option Int)
    (s : TxState) : Prop :=
  s.src = src ∧ s.srcsz = srcsz ∧ s.onek = onek ∧ s.binary = binary ∧
  s.packetno = ((if srcsz ≠ 0 then 1 else 0) + acks) % 256 ∧
  match s.pc with
  | .sync _ => sync = none ∧ acks = 0
  | .syncCan _ => sync = none ∧ acks = 0
  | .reply _ =>
      ((sync = some (CHR_C : Int) ∧ s.crc = 1) ∨ (sync = some (NAK : Int) ∧ s.crc = 0)) ∧
      s.bufsz = txBufsz s ∧
      s.xbuff = txPacket s.src s.len (txLeader s) (txBufsz s) s.packetno s.binary s.crc
        (txCount s)
  | .replyCan _ =>
      ((sync = some (CHR_C : Int) ∧ s.crc = 1) ∨ (sync = some (NAK : Int) ∧ s.crc = 0)) ∧
      s.bufsz = txBufsz s ∧
      s.xbuff = txPacket s.src s.len (txLeader s) (txBufsz s) s.packetno s.binary s.crc
        (txCount s)
  | .eot _ => sync ≠ none
  | .flush _ => True

/-- The contribution of one read to `txAcked`. -/
def txAckedStep (s : TxState) (c : Int) : Nat :=
  if s.pc.isReply ∧ c = ACK then 1 else 0

/-- The contribution of one read to `txSyncChar`. -/
def txSyncStep (s : TxState) (c : Int) : Option Int :=
  if s.pc.isSync ∧ (c = CHR_C ∨ c = NAK) then some c else none

/-- The block size selected by a leader byte (lines 153-159). -/
def rxBufszOf (leader : Nat) : Nat := if leader = STX then 1024 else 128

/-- The number of bytes of a packet for the receiver: leader, two sequence bytes, the data
and one or two trailer bytes (lines 186-190: one store and `bufsz+(crc?1:0)+3` more). -/
def rxPacketLen (crc : Int) (bufsz : Nat) : Nat := bufsz + (if crc ≠ 0 then 1 else 0) + 4

/-- The variables of `xmodemReceive` when the loop of line 187 has stored the packet `pkt`
that arrived while the receiver was blocked at line 151 in state `s`. -/
def rxHolding (s : RxState) (pkt : List Nat) : RxState :=
  { s with bufsz := rxBufszOf (pkt.headD 0), trychar := 0, xbuff := pkt,
           pc := .recv (rxBufszOf (pkt.headD 0) + (if s.crc ≠ 0 then 1 else 0) + 2) }

/-- A list of bytes as a list of successful `_inbyte` results. -/
def asReads (bytes : List Nat) : List Int := bytes.map (fun b => (b : Int))

/-- Inside the loop of line 187, in iteration `i`, at least `i + 1` bytes are stored. -/
def RxPcInv (s : RxState) : Prop :=
  match s.pc with
  | .recv i => i + 1 ≤ s.xbuff.length
  | _ => True

/-- What holds of the variables of `xmodemReceive(.., destsz, ..)` at every call of
`_inbyte` and at `return`: `destsz` is unchanged, `len` is the number of bytes delivered and
is not negative, `len` does not exceed a positive `destsz`, `xbuff` holds bytes, and inside
the loop of line 187 at least `i + 1` bytes are stored. -/
def RxInv (destsz : Int) (s : RxState) : Prop :=
  s.destsz = destsz ∧ 0 ≤ s.len ∧ (s.sink.length : Int) = s.len ∧
  (0 < destsz → s.len ≤ destsz) ∧ (∀ b ∈ s.xbuff, b < 256) ∧ RxPcInv s

/-! ## Receiver and transmitter connected back to back -/

/-- One end of the loop-back: blocked in `_inbyte`, or returned. -/
inductive Side (σ : Type) where
  | blocked (s : σ)
  | returned (s : σ) (ret : Int)
  deriving DecidableEq

/-- The end after a step. -/
def Step.side {σ : Type} : Step σ → Side σ
  | .more s _ => .blocked s
  | .done s _ r => .returned s r

/-- The two calls and the bytes in flight.  `toTx` holds what the receiver wrote and the
transmitter has not read yet, oldest first; `toRx` likewise for the other direction.
Nothing is lost, altered, reordered or inserted. -/
structure Loop where
  tx : Side TxState
  rx : Side RxState
  toTx : List Nat
  toRx : List Nat
  deriving DecidableEq

/-- The transmitter's `_inbyte` returns `c`; `rest` is what stays in flight towards it. -/
def Loop.txAct (l : Loop) (t : TxState) (c : Int) (rest : List Nat) : Loop :=
  { l with tx := (txStep t c).side, toTx := rest, toRx := l.toRx ++ (txStep t c).out }

/-- The receiver's `_inbyte` returns `c`; `rest` is what stays in flight towards it. -/
def Loop.rxAct (l : Loop) (r : RxState) (c : Int) (rest : List Nat) : Loop :=
  { l with rx := (rxStep r c).side, toRx := rest, toTx := l.toTx ++ (rxStep r c).out }

/-- One read of the loop-back.  A blocked end whose byte is in flight reads it (the
transmitter first when both can).  A read times out only when no blocked end has a byte in
flight (again the transmitter first).  When both calls have returned nothing changes. -/
def loopStep (l : Loop) : Loop :=
  match l.tx, l.toTx with
  | .blocked t, b :: bs => l.txAct t b bs
  | _, _ =>
    match l.rx, l.toRx with
    | .blocked r, b :: bs => l.rxAct r b bs
    | _, _ =>
      match l.tx with
      | .blocked t => l.txAct t (-1) []
      | .returned _ _ =>
        match l.rx with
        | .blocked r => l.rxAct r (-1) []
        | .returned _ _ => l

/-- Both calls at their first `_inbyte`. -/
def loopInit (src : List Nat) (srcsz onek binary destsz crc : Int) : Loop :=
  { tx := (txStart src srcsz onek binary).side
    rx := (rxStart destsz crc).side
    toTx := (rxStart destsz crc).out
    toRx := (txStart src srcsz onek binary).out }

/-- The loop-back of `xmodemTransmit(ctx = src, srcsz, onek, binary)` and
`xmodemReceive(destsz, crc)` after `n` reads. -/
def loopRun (n : Nat) (src : List Nat) (srcsz onek binary destsz crc : Int) : Loop :=
  loopStep^[n] (loopInit src srcsz onek binary destsz crc)

/-! ## Sample data -/

/-- A source of 2500 bytes. -/
def sampleSource : List Nat := (List.range 2500).map (fun i => (7 * i + 3) % 256)

/-- The five ASCII bytes of the word hello. -/
def sampleHello : List Nat := [104, 101, 108, 108, 111]

/-- A block of 128 data bytes. -/
def sampleBlock : List Nat := List.replicate 128 7

/-- The packet number 1 that carries `sampleBlock` with a checksum trailer. -/
def samplePacket : List Nat := txPacket sampleBlock 0 SOH 128 1 1 0 128

/-- A block of 1024 data bytes. -/
def sampleBlock1k : List Nat := (List.range 1024).map (fun i => i % 256)

/-- The packet number 1 that carries `sampleBlock1k` with a CRC trailer. -/
def samplePacket1k : List Nat := txPacket sampleBlock1k 0 STX 1024 1 1 1 1024

/-- A packet with sequence byte 255, complement 0, 128 zero data bytes and their checksum. -/
def samplePacket255 : List Nat := [SOH, 255, 0] ++ List.replicate 128 0 ++ [0]

/-- A packet whose complement byte does not match its sequence byte. -/
def samplePacketBad : List Nat := [SOH, 1, 0] ++ List.replicate 128 0 ++ [0]

/-- The receiver of a data session of 256 bytes, checksum mode, after block 1
(`samplePacket`) was accepted. -/
def sampleRxAfterBlock1 : RxState :=
  { destsz := 256, crc := 0, trychar := 0, packetno := 2, len := 128, retrans := 25,
    bufsz := 128, xbuff := samplePacket, sink := sampleBlock, pc := .sync 0 }

/-! ## Ghost quantities, invariants and measures for the error paths -/

/-- What holds of `xmodemTransmit` together with the bytes written so far: `len` is not
negative; inside the loop of line 357 the last bytes written are the EOTs of its iterations;
inside the `flushinput()` of lines 283 and 353 the last three bytes written are CAN CAN CAN,
and inside the one of line 365 the last ten are EOT; and the same at `return`. -/
def TxTail (st : Step TxState) : Prop :=
  match st with
  | .more s o =>
      0 ≤ s.len ∧
      match s.pc with
      | .flush r =>
          ((r = -2 ∨ r = -4) → ∃ pre, o = pre ++ [CAN, CAN, CAN]) ∧
          (r = -5 → ∃ pre, o = pre ++ List.replicate 10 EOT)
      | .eot k => ∃ pre, o = pre ++ List.replicate (k + 1) EOT
      | _ => True
  | .done _ o r =>
      ((r = -2 ∨ r = -4) → ∃ pre, o = pre ++ [CAN, CAN, CAN]) ∧
      (r = -5 → ∃ pre, o = pre ++ List.replicate 10 EOT)

/-- What holds of `xmodemReceive` together with the bytes written so far: `len` is not
negative, and at a `return` of -2 or -3 the last three bytes written are CAN CAN CAN. -/
def RxTail (destsz : Int) (st : Step RxState) : Prop :=
  match st with
  | .more s _ => RxInv destsz s
  | .done _ o r => (r = -2 ∨ r = -3) → ∃ pre, o = pre ++ [CAN, CAN, CAN]

/-- The value an end of the loop-back returned, if it has returned. -/
def Side.ret {σ : Type} : Side σ → Option Int
  | .blocked _ => none
  | .returned _ r => some r

/-- What one read adds to `len`: the block size `bufsz`, at line 335, when the read at
line 331 returns ACK. -/
def txAckedBytesStep (s : TxState) (c : Int) : Int :=
  if s.pc.isReply ∧ c = ACK then (s.bufsz : Int) else 0

/-- The sum of the block sizes of the packets ACKed while `reads` are read. -/
def txAckedBytes : Step TxState → List Int → Int
  | .more s _, c :: cs => txAckedBytesStep s c + txAckedBytes (txStep s c) cs
  | _, _ => 0

/-- What holds of the variables of `xmodemTransmit(.., n, 0, binary)` with `n > 0` at every
call of `_inbyte`: `len` is a multiple of 128; while a reply is awaited the block size is 128
and the packet was built because source bytes were left (or, in text mode, none were left
for the first time); once EOT is sent the source is used up and the last block was started
inside it; and `flushinput()` is only entered on the way to a negative return value. -/
def TxLenInv (n binary : Int) (s : TxState) : Prop :=
  s.srcsz = n ∧ s.onek = 0 ∧ s.binary = binary ∧ 0 ≤ s.len ∧ s.len % 128 = 0 ∧
  match s.pc with
  | .sync _ => s.len = 0
  | .syncCan _ => s.len = 0
  | .reply _ => s.bufsz = 128 ∧ (binary ≠ 0 → s.len < n) ∧ (binary = 0 → s.len ≤ n)
  | .replyCan _ => s.bufsz = 128 ∧ (binary ≠ 0 → s.len < n) ∧ (binary = 0 → s.len ≤ n)
  | .eot _ =>
      (binary ≠ 0 → n ≤ s.len ∧ s.len - 128 < n) ∧ (binary = 0 → n < s.len ∧ s.len - 128 ≤ n)
  | .flush r => r < 0

/-- The value handed to `return` after a `flushinput()` of `xmodemTransmit` is negative. -/
def TxFlushNeg (s : TxState) : Prop :=
  match s.pc with
  | .flush r => r < 0
  | _ => True

/-- What a piece of `xmodemTransmit` that starts from the variables `s` with `len` grown by
`d` does: `len` stays, a `flushinput()` is entered only before a negative `return`, and what
is returned otherwise is `len`. -/
def TxAcct (s : TxState) (d : Int) (st : Step TxState) : Prop :=
  st.state.len = s.len + d ∧ (∀ s' o, st = .more s' o → TxFlushNeg s') ∧
  (∀ s' o r, st = .done s' o r → r = s'.len ∨ r < 0)

/-- The packet that carries `sampleBlock` as block `seq`, with a checksum trailer. -/
def samplePacketNo (seq : Nat) : List Nat := txPacket sampleBlock 0 SOH 128 seq 1 0 128

/-- The packets of `k` consecutive blocks numbered from `p` (modulo 256), one after the
other. -/
def sampleBlocks : Nat → Nat → List Nat
  | _, 0 => []
  | p, k + 1 => samplePacketNo (p % 256) ++ sampleBlocks (p + 1) k

/-- The indices of `xbuff` that `check(crc, &xbuff[3], sz)` reads (lines 94-113): `buf[0 .. sz)`
for the CRC or the sum, then `buf[sz]`, and in CRC mode `buf[sz+1]`; `buf[i]` is
`xbuff[3+i]`. -/
def checkTouched (crc : Int) (sz : Nat) : List Nat :=
  (List.range sz).map (fun i => 3 + i) ++ (if crc ≠ 0 then [3 + sz, 3 + (sz + 1)] else [3 + sz])

/-- The indices of `xbuff` read by lines 192-206 once the packet is stored: `xbuff[1]` and
`xbuff[2]` for the complement test, `xbuff[1]` for the sequence test when the complement test
holds, the reads of `check` when both hold, and for an accepted new block with `count > 0`
the `count` bytes copied from `&xbuff[3]`. -/
def rxPacketTouched (s : RxState) : List Nat :=
  [1, 2] ++
  (if s.xbuff.getD 1 0 = bnot8 (s.xbuff.getD 2 0) then
    [1] ++
    (if (s.xbuff.getD 1 0 : Int) = (s.packetno : Int) ∨
        (s.xbuff.getD 1 0 : Int) = (s.packetno : Int) - 1 then
      checkTouched s.crc s.bufsz
    else [])
  else []) ++
  (if rxAccept s = true ∧ s.xbuff.getD 1 0 = s.packetno ∧ rxCount s > 0 then
    (List.range (rxCount s).toNat).map (fun i => 3 + i)
  else [])

/-- The indices of `xbuff` read or written by the code of `xmodemReceive` that runs in the
step `rxStep s c`.  The store `*p++ = c` goes to index `p - xbuff`, the number of bytes
stored since `p = xbuff`. -/
def rxTouched (s : RxState) (c : Int) : List Nat :=
  match s.pc with
  | .sync _ =>
      -- lines 185-186: p = xbuff; *p++ = c;
      if c = SOH ∨ c = STX then [0] else []
  | .recv i =>
      if c < 0 then []
      else
        -- line 189: *p++ = c;
        [s.xbuff.length] ++
        (if i + 1 < s.bufsz + (if s.crc ≠ 0 then 1 else 0) + 3 then []
        else rxPacketTouched { s with xbuff := s.xbuff ++ [(c % 256).toNat] })
  | _ => []

/-- The indices of `xbuff` read or written from label `start_trans` up to the call of
`_inbyte` at line 331 (lines 289-330). -/
def txBuildTouched (T : TxState) : List Nat :=
  let bufsz := txBufsz T
  let c := txCount T
  -- lines 290-298: xbuff[0], xbuff[1], xbuff[2]
  [0, 1, 2] ++
  (if c > 0 ∨ (T.binary = 0 ∧ c = 0) then
    -- line 302: memset (&xbuff[3], 0, bufsz);
    (List.range bufsz).map (fun i => 3 + i) ++
    -- lines 303-314: xbuff[3] = CTRLZ, or the copy of c bytes to &xbuff[3] and xbuff[3+c]
    (if T.binary = 0 ∧ c = 0 then [3]
    else
      (List.range c.toNat).map (fun i => 3 + i) ++
      (if T.binary = 0 ∧ c < (bufsz : Int) then [3 + c.toNat] else [])) ++
    -- lines 315-326: the CRC or the sum over xbuff[3 .. bufsz+3), and the trailer
    (List.range bufsz).map (fun i => 3 + i) ++
    (if T.crc ≠ 0 then [bufsz + 3, bufsz + 4] else [bufsz + 3]) ++
    -- lines 328-330: _outbyte(xbuff[i]) for i < bufsz+4+(crc?1:0)
    List.range (bufsz + 4 + (if T.crc ≠ 0 then 1 else 0))
  else [])

/-- The indices of `xbuff` read by lines 328-330 when the packet is written again. -/
def txSendTouched (s : TxState) : List Nat :=
  List.range (s.bufsz + 4 + (if s.crc ≠ 0 then 1 else 0))

/-- The indices of `xbuff` read or written at the end of iteration `retry` of the loop of
line 327: the packet is written again unless the loop ends. -/
def txReplyTouched (s : TxState) (retry : Nat) : List Nat :=
  if ((retry : Int) + 1) < MAXRETRANS then txSendTouched s else []

/-- The indices of `xbuff` read or written by the code of `xmodemTransmit` that runs in the
step `txStep s c`. -/
def txTouched (s : TxState) (c : Int) : List Nat :=
  match s.pc with
  | .sync _ =>
      if c ≥ 0 then
        if c = CHR_C then txBuildTouched { s with crc := 1 }
        else if c = NAK then txBuildTouched { s with crc := 0 }
        else []
      else []
  | .reply retry =>
      if c ≥ 0 then
        if c = ACK then
          txBuildTouched { s with packetno := (s.packetno + 1) % 256, len := s.len + s.bufsz }
        else if c = CAN then []
        else txReplyTouched s retry
      else txReplyTouched s retry
  | .replyCan retry => if c = CAN then [] else txReplyTouched s retry
  | _ => []

/-- What holds of the variables of `xmodemReceive` inside the loop of line 187, in iteration
`i`: `i + 1` bytes are stored, the block size is 128 or 1024, and the loop test holds. -/
def RxBufInv (s : RxState) : Prop :=
  match s.pc with
  | .recv i =>
      s.xbuff.length = i + 1 ∧ (s.bufsz = 128 ∨ s.bufsz = 1024) ∧
      i < s.bufsz + (if s.crc ≠ 0 then 1 else 0) + 3
  | _ => True

/-- An upper bound on the number of reads `xmodemReceive` still makes when every read from
now on times out: the rest of the loop of line 149, once more through it after the downgrade
of line 176, the `flushinput()` calls on the way, and the one before `return`. -/
def rxTimeoutsLeft (s : RxState) : Nat :=
  match s.pc with
  | .sync r => (15 - r) + 1 + (if s.trychar = CHR_C then 16 else 0) + 1
  | .syncCan r => (15 - r) + 1 + (if s.trychar = CHR_C then 16 else 0) + 1
  | .recv _ => 2 + (16 + (if s.trychar = CHR_C then 16 else 0) + 1)
  | .flushReject => 1 + (16 + (if s.trychar = CHR_C then 16 else 0) + 1)
  | .flushCancel => 1
  | .flushSync => 1
  | .flushRetrans => 1

/-- An upper bound on the number of reads `xmodemTransmit` still makes when every read from
now on times out: the rest of the loop of line 259, 327 or 357 and the `flushinput()` after
it. -/
def txTimeoutsLeft (s : TxState) : Nat :=
  match s.pc with
  | .sync r => (15 - r) + 1 + 1
  | .syncCan r => (15 - r) + 1 + 1
  | .reply r => (24 - r) + 1 + 1
  | .replyCan r => (24 - r) + 1 + 1
  | .eot r => (9 - r) + 1 + 1
  | .flush _ => 1

/-- What holds of the variables of `xmodemTransmit(.., n, ..)` with `n > 0` at every call of
`_inbyte`: `len` lies in `0 .. n + 1024`; while a reply is awaited `len <= n` and the block
size is 128 or 1024, so that `len += bufsz` (line 335) stays at most `n + 1024`; and
`flushinput()` is only entered on the way to a negative return value. -/
def TxRange (n : Int) (s : TxState) : Prop :=
  s.srcsz = n ∧ 0 ≤ s.len ∧ s.len ≤ n + 1024 ∧
  match s.pc with
  | .sync _ => s.len = 0
  | .syncCan _ => s.len = 0
  | .reply _ => s.len ≤ n ∧ (s.bufsz = 128 ∨ s.bufsz = 1024)
  | .replyCan _ => s.len ≤ n ∧ (s.bufsz = 128 ∨ s.bufsz = 1024)
  | .eot _ => True
  | .flush r => r < 0

/-! ## Bit-level facts used for the CRC -/

theorem xor_shiftRight (a b k : Nat) : (a ^^^ b) >>> k = (a >>> k) ^^^ (b >>> k) := by
  apply Nat.eq_of_testBit_eq; intro i; simp

theorem xor_shiftLeft (a b k : Nat) : (a ^^^ b) <<< k = (a <<< k) ^^^ (b <<< k) := by
  apply Nat.eq_of_testBit_eq; intro i; simp [Bool.and_xor_distrib_left]

theorem xor_mod_pow (a b k : Nat) : (a ^^^ b) % 2 ^ k = (a % 2 ^ k) ^^^ (b % 2 ^ k) := by
  apply Nat.eq_of_testBit_eq; intro i; simp [Bool.and_xor_distrib_left]

theorem or_eq_xor_lo_hi (a c : Nat) :
    (a % 2 ^ 8) ||| (c <<< 8) = (a % 2 ^ 8) ^^^ (c <<< 8) := by
  apply Nat.eq_of_testBit_eq; intro i
  simp only [Nat.testBit_or, Nat.testBit_xor, Nat.testBit_mod_two_pow, Nat.testBit_shiftLeft]
  by_cases hi : i < 8
  · have : ¬ (i ≥ 8) := by omega
    simp [hi, this]
  · simp [hi]

theorem xor_cancel_mid (a b k : Nat) : (a ^^^ k) ^^^ (b ^^^ k) = a ^^^ b := by
  apply Nat.eq_of_testBit_eq; intro i
  simp only [Nat.testBit_xor]
  cases a.testBit i <;> cases b.testBit i <;> cases k.testBit i <;> rfl

theorem split_lo_hi (s : Nat) : s = (s % 2 ^ 8) ^^^ ((s >>> 8) <<< 8) := by
  apply Nat.eq_of_testBit_eq; intro i
  simp only [Nat.testBit_xor, Nat.testBit_mod_two_pow, Nat.testBit_shiftLeft,
    Nat.testBit_shiftRight]
  by_cases hi : i < 8
  · have : ¬ (i ≥ 8) := by omega
    simp [hi, this]
  · have h8 : 8 + (i - 8) = i := by omega
    simp [hi, h8]
    omega

/-! ## The CRC routine is xor-linear and agrees with the reference -/

theorem crc16_step_lt (s b : Nat) : crc16_step s b < 65536 := by
  unfold crc16_step crc16_l85
  exact Nat.mod_lt _ (by norm_num)

theorem crc16_l81_lin (s t : Nat) : crc16_l81 (s ^^^ t) = crc16_l81 s ^^^ crc16_l81 t := by
  have h256 : (256 : Nat) = 2 ^ 8 := by norm_num
  have h65536 : (65536 : Nat) = 2 ^ 16 := by norm_num
  simp only [crc16_l81, h256, h65536, or_eq_xor_lo_hi]
  simp only [xor_shiftRight, xor_shiftLeft, xor_mod_pow]
  ac_rfl

theorem crc16_l82_lin (s t b d : Nat) :
    crc16_l82 (s ^^^ t) (b ^^^ d) = crc16_l82 s b ^^^ crc16_l82 t d := by
  have h65536 : (65536 : Nat) = 2 ^ 16 := by norm_num
  simp only [crc16_l82, h65536, xor_mod_pow]
  ac_rfl

theorem crc16_l83_lin (s t : Nat) : crc16_l83 (s ^^^ t) = crc16_l83 s ^^^ crc16_l83 t := by
  have h256 : (256 : Nat) = 2 ^ 8 := by norm_num
  have h65536 : (65536 : Nat) = 2 ^ 16 := by norm_num
  have hff : (0xff : Nat) = 2 ^ 8 - 1 := by norm_num
  simp only [crc16_l83, h256, h65536, hff, Nat.and_pow_two_sub_one_eq_mod, xor_shiftRight,
    xor_mod_pow]
  ac_rfl

theorem crc16_l84_lin (s t : Nat) : crc16_l84 (s ^^^ t) = crc16_l84 s ^^^ crc16_l84 t := by
  have h65536 : (65536 : Nat) = 2 ^ 16 := by norm_num
  simp only [crc16_l84, h65536, xor_shiftLeft, xor_mod_pow]
  ac_rfl

theorem crc16_l85_lin (s t : Nat) : crc16_l85 (s ^^^ t) = crc16_l85 s ^^^ crc16_l85 t := by
  have h65536 : (65536 : Nat) = 2 ^ 16 := by norm_num
  have hff : (0xff : Nat) = 2 ^ 8 - 1 := by norm_num
  simp only [crc16_l85, h65536, hff, Nat.and_pow_two_sub_one_eq_mod, xor_shiftLeft,
    xor_mod_pow]
  ac_rfl

theorem crc16_step_lin (s t b d : Nat) :
    crc16_step (s ^^^ t) (b ^^^ d) = crc16_step s b ^^^ crc16_step t d := by
  simp only [crc16_step, crc16_l81_lin, crc16_l82_lin, crc16_l83_lin, crc16_l84_lin,
    crc16_l85_lin]

theorem crc16_ref_bit_lt (s : Nat) : crc16_ref_bit s < 65536 := by
  unfold crc16_ref_bit
  split <;> exact Nat.mod_lt _ (by norm_num)

theorem crc16_ref_bit_lin (s t : Nat) :
    crc16_ref_bit (s ^^^ t) = crc16_ref_bit s ^^^ crc16_ref_bit t := by
  have h65536 : (65536 : Nat) = 2 ^ 16 := by norm_num
  simp only [crc16_ref_bit, Nat.testBit_xor, h65536, xor_shiftLeft, xor_mod_pow]
  cases s.testBit 15 <;> cases t.testBit 15
  · simp only [Bool.xor_false, Bool.false_eq_true, if_false]
  · simp only [Bool.false_xor, Bool.false_eq_true, if_false, if_true]
    ac_rfl
  · simp only [Bool.xor_false, Bool.false_eq_true, if_false, if_true]
    ac_rfl
  · simp only [Bool.xor_self, Bool.false_eq_true, if_false, if_true]
    exact (xor_cancel_mid _ _ _).symm

theorem crc16_ref_iter_lin (n s t : Nat) :
    crc16_ref_bit^[n] (s ^^^ t) = crc16_ref_bit^[n] s ^^^ crc16_ref_bit^[n] t := by
  induction n generalizing s t with
  | zero => rfl
  | succ n ih => simp only [Function.iterate_succ, Function.comp, crc16_ref_bit_lin, ih]

theorem crc16_ref_byte_lin (s t b d : Nat) :
    crc16_ref_byte (s ^^^ t) (b ^^^ d) = crc16_ref_byte s b ^^^ crc16_ref_byte t d := by
  unfold crc16_ref_byte
  rw [← crc16_ref_iter_lin, xor_shiftLeft]
  congr 1
  ac_rfl

set_option maxRecDepth 100000 in
theorem crc16_table_lo : ∀ x < 256, crc16_step x 0 = crc16_ref_byte x 0 := by decide

set_option maxRecDepth 100000 in
theorem crc16_table_hi : ∀ x < 256, crc16_step (x <<< 8) 0 = crc16_ref_byte (x <<< 8) 0 := by
  decide

set_option maxRecDepth 100000 in
theorem crc16_table_in : ∀ x < 256, crc16_step 0 x = crc16_ref_byte 0 x := by decide

theorem crc16_step_eq_ref (s b : Nat) (hs : s < 65536) (hb : b < 256) :
    crc16_step s b = crc16_ref_byte s b := by
  have hsplit := split_lo_hi s
  have hlo : s % 2 ^ 8 < 256 := Nat.mod_lt _ (by norm_num)
  have hhi : s >>> 8 < 256 := by
    rw [Nat.shiftRight_eq_div_pow]
    omega
  have e1 : crc16_step s b
      = crc16_step (s % 2 ^ 8) 0 ^^^ (crc16_step ((s >>> 8) <<< 8) 0 ^^^ crc16_step 0 b) := by
    rw [← crc16_step_lin, ← crc16_step_lin]
    simp only [Nat.zero_xor, Nat.xor_zero]
    rw [← hsplit]
  have e2 : crc16_ref_byte s b
      = crc16_ref_byte (s % 2 ^ 8) 0
        ^^^ (crc16_ref_byte ((s >>> 8) <<< 8) 0 ^^^ crc16_ref_byte 0 b) := by
    rw [← crc16_ref_byte_lin, ← crc16_ref_byte_lin]
    simp only [Nat.zero_xor, Nat.xor_zero]
    rw [← hsplit]
  rw [e1, e2, crc16_table_lo _ hlo, crc16_table_hi _ hhi, crc16_table_in _ hb]

/-! ## Loops over a buffer -/

theorem crc16_loop_append (data rest : List Nat) (c : Nat) :
    crc16_loop (data ++ rest) data.length c = data.foldl crc16_step c := by
  induction data generalizing c with
  | nil => rfl
  | cons b bs ih => simp [crc16_loop, ih]

theorem crc16_ccitt_append (data rest : List Nat) :
    crc16_ccitt (data ++ rest) data.length = data.foldl crc16_step 0 :=
  crc16_loop_append data rest 0

theorem crc16_ccitt_self (data : List Nat) :
    crc16_ccitt data data.length = data.foldl crc16_step 0 := by
  have h := crc16_ccitt_append data []
  simpa using h

theorem cks_loop_append (data rest : List Nat) (c : Nat) :
    cks_loop (data ++ rest) data.length c = data.foldl (fun a b => (a + b) % 256) c := by
  induction data generalizing c with
  | nil => rfl
  | cons b bs ih => simp [cks_loop, ih]

theorem cks_loop_self (data : List Nat) (c : Nat) :
    cks_loop data data.length c = data.foldl (fun a b => (a + b) % 256) c := by
  have h := cks_loop_append data [] c
  simpa using h

theorem foldl_crc16_lt (data : List Nat) (c : Nat) (hc : c < 65536) :
    data.foldl crc16_step c < 65536 := by
  induction data generalizing c with
  | nil => exact hc
  | cons b bs ih => exact ih _ (crc16_step_lt _ _)

theorem foldl_cks_lt (data : List Nat) (c : Nat) (hc : c < 256) :
    data.foldl (fun a b => (a + b) % 256) c < 256 := by
  induction data generalizing c with
  | nil => exact hc
  | cons b bs ih => exact ih _ (Nat.mod_lt _ (by norm_num))

theorem foldl_crc16_eq_ref (data : List Nat) (c : Nat) (hc : c < 65536)
    (hb : ∀ b ∈ data, b < 256) :
    data.foldl crc16_step c = data.foldl crc16_ref_byte c := by
  induction data generalizing c with
  | nil => rfl
  | cons b bs ih =>
    have hb0 : b < 256 := hb b (List.mem_cons_self _ _)
    have hbs : ∀ x ∈ bs, x < 256 := fun x hx => hb x (List.mem_cons_of_mem _ hx)
    simp only [List.foldl_cons]
    rw [← crc16_step_eq_ref c b hc hb0]
    exact ih _ (crc16_step_lt _ _) hbs

/-! ## C3: the CRC routine against the reference -/

/-- C3. For every byte sequence `crc16_ccitt` over the whole buffer returns the value of the
reference bit-by-bit CCITT CRC-16 (initial value 0, polynomial 0x1021, most significant bit
first, no reflection, no final xor); and on the nine ASCII bytes of "123456789" it returns
0x31C3. -/
theorem crc16_ccitt_refines_reference (buffer : List Nat) (hb : ∀ b ∈ buffer, b < 256) :
    crc16_ccitt buffer buffer.length = crc16_ref buffer ∧
    crc16_ccitt [0x31, 0x32, 0x33, 0x34, 0x35, 0x36, 0x37, 0x38, 0x39] 9 = 0x31C3 := by
  refine ⟨?_, by decide⟩
  rw [crc16_ccitt_self, crc16_ref]
  exact foldl_crc16_eq_ref buffer 0 (by norm_num) hb

/-- C3, an instance: the routine and the reference agree on the bytes `de ad be ef`. -/
theorem crc16_ccitt_refines_reference_witness :
    (∀ b ∈ [0xde, 0xad, 0xbe, 0xef], b < 256) ∧
    crc16_ccitt [0xde, 0xad, 0xbe, 0xef] [0xde, 0xad, 0xbe, 0xef].length
      = crc16_ref [0xde, 0xad, 0xbe, 0xef] ∧
    crc16_ccitt [0x31, 0x32, 0x33, 0x34, 0x35, 0x36, 0x37, 0x38, 0x39] 9 = 0x31C3 :=
  ⟨by decide, crc16_ccitt_refines_reference [0xde, 0xad, 0xbe, 0xef] (by decide)⟩

/-! ## Framing -/

theorem bnot8_eq (p : Nat) (hp : p < 256) : bnot8 p = 255 - p := by
  unfold bnot8
  omega

theorem bnot8_bnot8 (p : Nat) (hp : p < 256) : bnot8 (bnot8 p) = p := by
  rw [bnot8_eq p hp, bnot8_eq _ (by omega)]
  omega

theorem txFetch_length (src : List Nat) (len : Int) (c : Nat) :
    (txFetch src len c).length = c := by
  simp [txFetch]

theorem txFetch_eq (src : List Nat) (len : Int) (c : Nat) (h : len.toNat + c ≤ src.length) :
    txFetch src len c = (src.drop len.toNat).take c := by
  apply List.ext_getElem
  · simp [txFetch]; omega
  · intro i h1 h2
    simp only [txFetch, List.length_map, List.length_range] at h1
    simp [txFetch, List.getD_eq_getElem?_getD]
    rw [List.getElem?_eq_getElem (by omega)]
    rfl

theorem txFetch_all (src : List Nat) : txFetch src 0 src.length = src := by
  rw [txFetch_eq src 0 src.length (by simp)]
  simp

theorem txData_length (src : List Nat) (len : Int) (bufsz : Nat) (binary c : Int)
    (hc : c ≤ (bufsz : Int)) : (txData src len bufsz binary c).length = bufsz := by
  unfold txData
  have h1 : c.toNat ≤ bufsz := by omega
  split
  · simp
  · split <;> simp [txFetch_length] <;> omega

theorem txData_take (src : List Nat) (len : Int) (bufsz : Nat) (binary c : Int) :
    (txData src len bufsz binary c).take c.toNat = txFetch src len c.toNat := by
  unfold txData
  split
  · rename_i h
    simp [h.2, txFetch]
  · have hl : (txFetch src len c.toNat).length = c.toNat := txFetch_length _ _ _
    split
    · simp only []
      rw [List.set_take, List.take_append_of_le_length (by omega),
        List.take_of_length_le (by omega), List.set_eq_of_length_le (by omega)]
    · rw [List.take_append_of_le_length (by omega)]
      rw [List.take_of_length_le (by omega)]

theorem crc_hi_lo (x : Nat) (hx : x < 65536) :
    (((((x >>> 8) &&& 0xFF) % 256) <<< 8) + ((x &&& 0xFF) % 256)) % 65536 = x := by
  have hff : (0xFF : Nat) = 2 ^ 8 - 1 := by norm_num
  rw [hff, Nat.and_pow_two_sub_one_eq_mod, Nat.and_pow_two_sub_one_eq_mod,
    Nat.shiftRight_eq_div_pow, Nat.shiftLeft_eq]
  omega

theorem getD_append_two_fst (data : List Nat) (a b : Nat) :
    (data ++ [a, b]).getD data.length 0 = a := by
  induction data with
  | nil => rfl
  | cons x xs ih => simpa using ih

theorem getD_append_two_snd (data : List Nat) (a b : Nat) :
    (data ++ [a, b]).getD (data.length + 1) 0 = b := by
  induction data with
  | nil => rfl
  | cons x xs ih => simpa using ih

theorem check_txTrailer (crcR crcT : Int) (data : List Nat) (hmode : crcR ≠ 0 ↔ crcT ≠ 0) :
    check crcR (data ++ txTrailer crcT data data.length) data.length = 1 := by
  unfold check txTrailer
  by_cases hR : crcR ≠ 0
  · have hT : crcT ≠ 0 := hmode.mp hR
    simp only [hR, hT, if_true, ne_eq, not_false_eq_true]
    rw [crc16_ccitt_append, crc16_ccitt_self]
    have hx := foldl_crc16_lt data 0 (by norm_num)
    rw [getD_append_two_fst, getD_append_two_snd, crc_hi_lo _ hx]
    simp
  · have hT : ¬ crcT ≠ 0 := fun h => hR (hmode.mpr h)
    simp only [hR, hT, if_false]
    rw [cks_loop_append, cks_loop_self]
    simp [List.getD_eq_getElem?_getD]

theorem txPacket_drop (src : List Nat) (len : Int) (leader bufsz packetno : Nat)
    (binary crc c : Int) :
    (txPacket src len leader bufsz packetno binary crc c).drop 3
      = txData src len bufsz binary c
        ++ txTrailer crc (txData src len bufsz binary c) bufsz := by
  simp [txPacket]

theorem txPacket_accept (src : List Nat) (len : Int) (leader bufsz packetno : Nat)
    (binary crcT c : Int) (r : RxState) (hp : packetno < 256) (hc : c ≤ (bufsz : Int))
    (hmode : r.crc ≠ 0 ↔ crcT ≠ 0) (hexp : r.packetno = packetno) (hsz : r.bufsz = bufsz)
    (hx : r.xbuff = txPacket src len leader bufsz packetno binary crcT c) :
    r.xbuff.getD 1 0 = bnot8 (r.xbuff.getD 2 0) ∧ r.xbuff.getD 1 0 = r.packetno ∧
    check r.crc (r.xbuff.drop 3) r.bufsz = 1 ∧ rxAccept r = true ∧
    (r.xbuff.drop 3).take c.toNat = txFetch src len c.toNat := by
  have h1 : r.xbuff.getD 1 0 = packetno := by rw [hx]; simp [txPacket]
  have h2 : r.xbuff.getD 2 0 = bnot8 packetno := by rw [hx]; simp [txPacket]
  have hd := txPacket_drop src len leader bufsz packetno binary crcT c
  have hl := txData_length src len bufsz binary c hc
  have hck : check r.crc (r.xbuff.drop 3) r.bufsz = 1 := by
    rw [hx, hd, hsz]
    have := check_txTrailer r.crc crcT (txData src len bufsz binary c) hmode
    rw [hl] at this
    exact this
  refine ⟨?_, ?_, hck, ?_, ?_⟩
  · rw [h1, h2, bnot8_bnot8 _ hp]
  · rw [h1, hexp]
  · unfold rxAccept
    rw [hck, h1, h2, bnot8_bnot8 _ hp, hexp]
    simp
  · rw [hx, hd, List.take_append_of_le_length (by rw [hl]; omega), txData_take]

/-! ## C2: framing round trip -/

/-- C2. For every packet number below 256, every block size (128 and 1024 among them),
integrity mode, text or binary mode and payload of at most the block size: when the receiver holds the packet the
transmitter builds (lines 297-326) and expects that number in the same integrity mode, then
the complement test holds, `seq` is the expected number, `check` returns 1, the acceptance
test of lines 192-194 passes, and the data region starts with the payload. -/
theorem framing_round_trip (payload : List Nat) (packetno leader bufsz : Nat)
    (binary crcT : Int) (r : RxState) (hp : packetno < 256) (hlen : payload.length ≤ bufsz)
    (hmode : r.crc ≠ 0 ↔ crcT ≠ 0) (hexp : r.packetno = packetno) (hsz : r.bufsz = bufsz)
    (hx : r.xbuff = txPacket payload 0 leader bufsz packetno binary crcT payload.length) :
    r.xbuff.getD 1 0 = bnot8 (r.xbuff.getD 2 0) ∧ r.xbuff.getD 1 0 = r.packetno ∧
    check r.crc (r.xbuff.drop 3) r.bufsz = 1 ∧ rxAccept r = true ∧
    (r.xbuff.drop 3).take payload.length = payload := by
  have h := txPacket_accept payload 0 leader bufsz packetno binary crcT payload.length r hp
    (by exact_mod_cast hlen) hmode hexp hsz hx
  refine ⟨h.1, h.2.1, h.2.2.1, h.2.2.2.1, ?_⟩
  have h5 := h.2.2.2.2
  simp only [Int.toNat_ofNat] at h5
  rw [h5, txFetch_all]

/-! ## Runs -/

theorem stepsTo_inv {σ : Type} (step : σ → Int → Step σ) (P : σ → Prop)
    (hstep : ∀ s c, P s → P (step s c).state) :
    ∀ (reads : List Int) (st : Step σ) (s : σ),
      P st.state → stepsTo step st reads = some s → P s := by
  intro reads
  induction reads with
  | nil =>
    intro st s hP h
    cases st with
    | more s0 out => simp only [stepsTo, Option.some.injEq] at h; subst h; exact hP
    | done s0 out r => simp [stepsTo] at h
  | cons c cs ih =>
    intro st s hP h
    cases st with
    | more s0 out =>
      simp only [stepsTo] at h
      exact ih (step s0 c) s (hstep s0 c hP) h
    | done s0 out r => simp [stepsTo] at h

theorem driveList_inv {σ : Type} (step : σ → Int → Step σ) (P : σ → Prop)
    (hstep : ∀ s c, P s → P (step s c).state) :
    ∀ (reads : List Int) (st : Step σ) (x : σ × List Nat × Int),
      P st.state → driveList step st reads = some x → P x.1 := by
  intro reads
  induction reads with
  | nil =>
    intro st x hP h
    cases st with
    | more s0 out => simp [driveList] at h
    | done s0 out r => simp only [driveList, Option.some.injEq] at h; subst h; exact hP
  | cons c cs ih =>
    intro st x hP h
    cases st with
    | more s0 out =>
      simp only [driveList, Option.map_eq_some'] at h
      obtain ⟨y, hy, hxy⟩ := h
      subst hxy
      exact ih (step s0 c) y (hstep s0 c hP) hy
    | done s0 out r => simp only [driveList, Option.some.injEq] at h; subst h; exact hP

theorem stepsTo_snoc {σ : Type} (step : σ → Int → Step σ) :
    ∀ (reads : List Int) (st : Step σ) (s : σ) (c : Int),
      stepsTo step st reads = some s →
      stepsTo step st (reads ++ [c]) = stepsTo step (step s c) [] := by
  intro reads
  induction reads with
  | nil =>
    intro st s c h
    cases st with
    | more s0 out =>
      simp only [stepsTo, Option.some.injEq] at h
      subst h
      simp [stepsTo]
    | done s0 out r => simp [stepsTo] at h
  | cons d ds ih =>
    intro st s c h
    cases st with
    | more s0 out =>
      simp only [stepsTo] at h
      simp only [List.cons_append, stepsTo]
      exact ih _ s c h
    | done s0 out r => simp [stepsTo] at h

/-! ## Transmitter invariant -/

theorem txCount_le (s : TxState) : txCount s ≤ (txBufsz s : Int) := by
  unfold txCount
  simp only []
  split <;> omega

theorem txInv_startTrans (src : List Nat) (srcsz onek binary : Int) (acks : Nat)
    (sync : Option Int) (s s' : TxState) (out : List Nat)
    (h1 : s.src = src ∧ s.srcsz = srcsz ∧ s.onek = onek ∧ s.binary = binary ∧
      s.packetno = ((if srcsz ≠ 0 then 1 else 0) + acks) % 256)
    (h2 : (sync = some (CHR_C : Int) ∧ s.crc = 1) ∨ (sync = some (NAK : Int) ∧ s.crc = 0))
    (h : txStartTrans s = .more s' out) : TxInv src srcsz onek binary acks sync s' := by
  unfold txStartTrans at h
  simp only [] at h
  split at h
  · simp only [txSend, Step.more.injEq] at h
    obtain ⟨hs, -⟩ := h
    subst hs
    exact ⟨h1.1, h1.2.1, h1.2.2.1, h1.2.2.2.1, h1.2.2.2.2, h2, rfl, rfl⟩
  · split at h
    · simp only [Step.more.injEq] at h
      obtain ⟨hs, -⟩ := h
      subst hs
      refine ⟨h1.1, h1.2.1, h1.2.2.1, h1.2.2.2.1, h1.2.2.2.2, ?_⟩
      show sync ≠ none
      rcases h2 with h2 | h2 <;> simp [h2.1]
    · simp at h

theorem txInv_step (src : List Nat) (srcsz onek binary : Int) (acks : Nat)
    (sync : Option Int) (s s' : TxState) (c : Int) (out : List Nat)
    (hinv : TxInv src srcsz onek binary acks sync s) (h : txStep s c = .more s' out) :
    TxInv src srcsz onek binary (acks + txAckedStep s c) (sync <|> txSyncStep s c) s' := by
  obtain ⟨ssrc, ssrcsz, sonek, sbinary, scrc, spacketno, slen, sbufsz, sxbuff, spc⟩ := s
  obtain ⟨a1, a2, a3, a4, a5, a6⟩ := hinv
  simp only [] at a1 a2 a3 a4 a5 a6
  have hor : (sync <|> (none : Option Int)) = sync := by cases sync <;> rfl
  have hmore : ∀ (t : TxState) (o : List Nat), Step.more t o = Step.more s' out → t = s' := by
    intro t o ht
    simp only [Step.more.injEq] at ht
    exact ht.1
  cases spc with
  | sync retry =>
    simp only [] at a6
    obtain ⟨hsy, hak⟩ := a6
    subst hsy hak
    have hA : ∀ x, txAckedStep (⟨ssrc, ssrcsz, sonek, sbinary, scrc, spacketno, slen, sbufsz, sxbuff, .sync retry⟩ : TxState) x = 0 := by
      intro x; simp [txAckedStep, TxPc.isReply]
    rw [hA]
    simp only [txStep] at h
    by_cases hC : c = (CHR_C : Int)
    · subst hC
      have hS : txSyncStep (⟨ssrc, ssrcsz, sonek, sbinary, scrc, spacketno, slen, sbufsz, sxbuff, .sync retry⟩ : TxState) (CHR_C : Int) = some (CHR_C : Int) := by
        simp [txSyncStep, TxPc.isSync]
      rw [hS]
      rw [if_pos (by decide), if_pos rfl] at h
      exact txInv_startTrans src srcsz onek binary 0 _ _ s' out
        ⟨a1, a2, a3, a4, a5⟩ (Or.inl ⟨rfl, rfl⟩) h
    · by_cases hN : c = (NAK : Int)
      · subst hN
        have hS : txSyncStep (⟨ssrc, ssrcsz, sonek, sbinary, scrc, spacketno, slen, sbufsz, sxbuff, .sync retry⟩ : TxState) (NAK : Int) = some (NAK : Int) := by
          simp [txSyncStep, TxPc.isSync]
        rw [hS]
        rw [if_pos (by decide), if_neg (by decide), if_pos rfl] at h
        exact txInv_startTrans src srcsz onek binary 0 _ _ s' out
          ⟨a1, a2, a3, a4, a5⟩ (Or.inr ⟨rfl, rfl⟩) h
      · have hS : txSyncStep (⟨ssrc, ssrcsz, sonek, sbinary, scrc, spacketno, slen, sbufsz, sxbuff, .sync retry⟩ : TxState) c = none := by
          simp [txSyncStep, TxPc.isSync, hC, hN]
        rw [hS]
        simp only [hC, hN, if_false, txSyncNext] at h
        have e : s'.src = ssrc ∧ s'.srcsz = ssrcsz ∧ s'.onek = sonek ∧ s'.binary = sbinary ∧
            s'.packetno = spacketno ∧
            ((∃ r, s'.pc = .syncCan r) ∨ (∃ r, s'.pc = .sync r) ∨ (∃ r, s'.pc = .flush r)) := by
          split at h <;> (try split at h) <;> (try split at h) <;>
          · have := hmore _ _ h
            subst this
            simp
        obtain ⟨e1, e2, e3, e4, e5, e6⟩ := e
        refine ⟨e1 ▸ a1, e2 ▸ a2, e3 ▸ a3, e4 ▸ a4, e5 ▸ a5, ?_⟩
        rcases e6 with ⟨r, hr⟩ | ⟨r, hr⟩ | ⟨r, hr⟩ <;> rw [hr] <;> simp
  | syncCan retry =>
    simp only [] at a6
    obtain ⟨hsy, hak⟩ := a6
    subst hsy hak
    have hA : txAckedStep (⟨ssrc, ssrcsz, sonek, sbinary, scrc, spacketno, slen, sbufsz, sxbuff, .syncCan retry⟩ : TxState) c = 0 := by
      simp [txAckedStep, TxPc.isReply]
    have hS : txSyncStep (⟨ssrc, ssrcsz, sonek, sbinary, scrc, spacketno, slen, sbufsz, sxbuff, .syncCan retry⟩ : TxState) c = none := by
      simp [txSyncStep, TxPc.isSync]
    rw [hA, hS]
    simp only [txStep, txSyncNext] at h
    have e : s'.src = ssrc ∧ s'.srcsz = ssrcsz ∧ s'.onek = sonek ∧ s'.binary = sbinary ∧
        s'.packetno = spacketno ∧
        ((∃ r, s'.pc = .sync r) ∨ (∃ r, s'.pc = .flush r)) := by
      split at h <;> (try split at h) <;>
      · have := hmore _ _ h
        subst this
        simp
    obtain ⟨e1, e2, e3, e4, e5, e6⟩ := e
    refine ⟨e1 ▸ a1, e2 ▸ a2, e3 ▸ a3, e4 ▸ a4, e5 ▸ a5, ?_⟩
    rcases e6 with ⟨r, hr⟩ | ⟨r, hr⟩ <;> rw [hr] <;> simp
  | reply retry =>
    simp only [] at a6
    have hS : txSyncStep (⟨ssrc, ssrcsz, sonek, sbinary, scrc, spacketno, slen, sbufsz, sxbuff, .reply retry⟩ : TxState) c = none := by
      simp [txSyncStep, TxPc.isSync]
    rw [hS, hor]
    simp only [txStep] at h
    by_cases hA : c = (ACK : Int)
    · subst hA
      have hAk : txAckedStep (⟨ssrc, ssrcsz, sonek, sbinary, scrc, spacketno, slen, sbufsz, sxbuff, .reply retry⟩ : TxState) (ACK : Int) = 1 := by
        simp [txAckedStep, TxPc.isReply]
      rw [hAk]
      rw [if_pos (by decide), if_pos rfl] at h
      refine txInv_startTrans src srcsz onek binary (acks + 1) sync _ s' out
        ⟨a1, a2, a3, a4, ?_⟩ a6.1 h
      show (spacketno + 1) % 256 = _
      rw [a5]
      omega
    · have hAk : txAckedStep (⟨ssrc, ssrcsz, sonek, sbinary, scrc, spacketno, slen, sbufsz, sxbuff, .reply retry⟩ : TxState) c = 0 := by
        simp [txAckedStep, TxPc.isReply, hA]
      rw [hAk]
      simp only [hA, if_false, txReplyNext, txSend] at h
      have e : (∃ p, s' = (⟨ssrc, ssrcsz, sonek, sbinary, scrc, spacketno, slen, sbufsz, sxbuff, p⟩ : TxState) ∧
          ((∃ r, p = .reply r) ∨ (∃ r, p = .replyCan r) ∨ (∃ r, p = .flush r))) := by
        split at h <;> (try split at h) <;> (try split at h) <;>
        · have := hmore _ _ h
          subst this
          exact ⟨_, rfl, by simp⟩
      obtain ⟨p, e1, e2⟩ := e
      subst e1
      refine ⟨a1, a2, a3, a4, a5, ?_⟩
      rcases e2 with ⟨r, hr⟩ | ⟨r, hr⟩ | ⟨r, hr⟩ <;> subst hr
      · exact a6
      · exact a6
      · trivial
  | replyCan retry =>
    simp only [] at a6
    have hS : txSyncStep (⟨ssrc, ssrcsz, sonek, sbinary, scrc, spacketno, slen, sbufsz, sxbuff, .replyCan retry⟩ : TxState) c = none := by
      simp [txSyncStep, TxPc.isSync]
    have hAk : txAckedStep (⟨ssrc, ssrcsz, sonek, sbinary, scrc, spacketno, slen, sbufsz, sxbuff, .replyCan retry⟩ : TxState) c = 0 := by
      simp [txAckedStep, TxPc.isReply]
    rw [hS, hor, hAk]
    simp only [txStep, txReplyNext, txSend] at h
    have e : (∃ p, s' = (⟨ssrc, ssrcsz, sonek, sbinary, scrc, spacketno, slen, sbufsz, sxbuff, p⟩ : TxState) ∧
        ((∃ r, p = .reply r) ∨ (∃ r, p = .flush r))) := by
      split at h <;> (try split at h) <;>
      · have := hmore _ _ h
        subst this
        exact ⟨_, rfl, by simp⟩
    obtain ⟨p, e1, e2⟩ := e
    subst e1
    refine ⟨a1, a2, a3, a4, a5, ?_⟩
    rcases e2 with ⟨r, hr⟩ | ⟨r, hr⟩ <;> subst hr
    · exact a6
    · trivial
  | eot retry =>
    simp only [] at a6
    have hS : txSyncStep (⟨ssrc, ssrcsz, sonek, sbinary, scrc, spacketno, slen, sbufsz, sxbuff, .eot retry⟩ : TxState) c = none := by
      simp [txSyncStep, TxPc.isSync]
    have hAk : txAckedStep (⟨ssrc, ssrcsz, sonek, sbinary, scrc, spacketno, slen, sbufsz, sxbuff, .eot retry⟩ : TxState) c = 0 := by
      simp [txAckedStep, TxPc.isReply]
    rw [hS, hor, hAk]
    simp only [txStep, txEotNext] at h
    have e : (∃ p, s' = (⟨ssrc, ssrcsz, sonek, sbinary, scrc, spacketno, slen, sbufsz, sxbuff, p⟩ : TxState) ∧
        ((∃ r, p = .eot r) ∨ (∃ r, p = .flush r))) := by
      split at h
      · simp at h
      · split at h <;>
        · have := hmore _ _ h
          subst this
          exact ⟨_, rfl, by simp⟩
    obtain ⟨p, e1, e2⟩ := e
    subst e1
    refine ⟨a1, a2, a3, a4, a5, ?_⟩
    rcases e2 with ⟨r, hr⟩ | ⟨r, hr⟩ <;> subst hr
    · exact a6
    · trivial
  | flush r =>
    have hS : txSyncStep (⟨ssrc, ssrcsz, sonek, sbinary, scrc, spacketno, slen, sbufsz, sxbuff, .flush r⟩ : TxState) c = none := by
      simp [txSyncStep, TxPc.isSync]
    have hAk : txAckedStep (⟨ssrc, ssrcsz, sonek, sbinary, scrc, spacketno, slen, sbufsz, sxbuff, .flush r⟩ : TxState) c = 0 := by
      simp [txAckedStep, TxPc.isReply]
    rw [hS, hor, hAk]
    simp only [txStep] at h
    split at h
    · have := hmore _ _ h
      subst this
      exact ⟨a1, a2, a3, a4, a5, trivial⟩
    · simp at h

theorem txAcked_cons (s : TxState) (o : List Nat) (c : Int) (cs : List Int) :
    txAcked (.more s o) (c :: cs) = txAckedStep s c + txAcked (txStep s c) cs := rfl

theorem txSyncChar_cons (s : TxState) (o : List Nat) (c : Int) (cs : List Int) :
    txSyncChar (.more s o) (c :: cs) = (txSyncStep s c <|> txSyncChar (txStep s c) cs) := by
  simp only [txSyncChar, txSyncStep]
  split <;> rfl

theorem txInv_run (src : List Nat) (srcsz onek binary : Int) :
    ∀ (reads : List Int) (s0 : TxState) (o : List Nat) (acks : Nat) (sync : Option Int)
      (s : TxState), TxInv src srcsz onek binary acks sync s0 →
      stepsTo txStep (.more s0 o) reads = some s →
      TxInv src srcsz onek binary (acks + txAcked (.more s0 o) reads)
        (sync <|> txSyncChar (.more s0 o) reads) s := by
  intro reads
  induction reads with
  | nil =>
    intro s0 o acks sync s hinv h
    simp only [stepsTo, Option.some.injEq] at h
    subst h
    have hor : (sync <|> (none : Option Int)) = sync := by cases sync <;> rfl
    simpa [txAcked, txSyncChar, hor] using hinv
  | cons c cs ih =>
    intro s0 o acks sync s hinv h
    simp only [stepsTo] at h
    rw [txAcked_cons, txSyncChar_cons]
    cases hst : txStep s0 c with
    | more s1 o1 =>
      rw [hst] at h
      have h1 := txInv_step src srcsz onek binary acks sync s0 s1 c o1 hinv hst
      have h2 := ih s1 o1 _ _ s h1 h
      have e : ((sync <|> txSyncStep s0 c) <|> txSyncChar (Step.more s1 o1) cs)
          = (sync <|> (txSyncStep s0 c <|> txSyncChar (Step.more s1 o1) cs)) := by
        cases sync <;> rfl
      rw [e, Nat.add_assoc] at h2
      exact h2
    | done s1 o1 r1 =>
      rw [hst] at h
      simp [stepsTo] at h

theorem txInv_init (src : List Nat) (srcsz onek binary : Int) :
    TxInv src srcsz onek binary 0 none (txInit src srcsz onek binary) := by
  refine ⟨rfl, rfl, rfl, rfl, ?_, rfl, rfl⟩
  show (if srcsz ≠ 0 then 1 else 0) = ((if srcsz ≠ 0 then 1 else 0) + 0) % 256
  split <;> rfl

theorem txSend_out (t s' : TxState) (k : Nat) (out : List Nat)
    (h : txSend t k = .more s' out) :
    out = s'.xbuff.take (s'.bufsz + 4 + (if s'.crc ≠ 0 then 1 else 0)) := by
  simp only [txSend, Step.more.injEq] at h
  obtain ⟨h1, h2⟩ := h
  subst h1
  exact h2.symm

theorem tx_reply_out (s s' : TxState) (c : Int) (out : List Nat) (r : Nat)
    (h : txStep s c = .more s' out) (hpc : s'.pc = .reply r) :
    out = s'.xbuff.take (s'.bufsz + 4 + (if s'.crc ≠ 0 then 1 else 0)) := by
  obtain ⟨ssrc, ssrcsz, sonek, sbinary, scrc, spacketno, slen, sbufsz, sxbuff, spc⟩ := s
  cases spc <;>
    simp only [txStep, txStartTrans, txSyncNext, txReplyNext, txEotNext] at h <;>
    repeat' split at h
  all_goals first
    | exact txSend_out _ _ _ _ h
    | (simp only [Step.more.injEq] at h
       obtain ⟨h1, -⟩ := h
       subst h1
       simp at hpc)
    | (simp at h)

theorem foldl_cks_eq_sum (data : List Nat) (c : Nat) :
    (data.foldl (fun a b => (a + b) % 256) c) % 256 = (c + data.sum) % 256 := by
  induction data generalizing c with
  | nil => simp
  | cons b bs ih =>
    simp only [List.foldl_cons, List.sum_cons]
    rw [ih]
    omega

theorem crc16_loop_lt (buf : List Nat) (n c : Nat) (hc : c < 65536) :
    crc16_loop buf n c < 65536 := by
  induction n generalizing buf c with
  | zero => exact hc
  | succ n ih => exact ih _ _ (crc16_step_lt _ _)

theorem crc16_ccitt_lt (buf : List Nat) (n : Nat) : crc16_ccitt buf n < 65536 :=
  crc16_loop_lt buf n 0 (by norm_num)

theorem cks_loop_eq_sum (data : List Nat) (n : Nat) (hn : data.length = n) :
    cks_loop data n 0 = data.sum % 256 := by
  subst hn
  rw [cks_loop_self]
  have h := foldl_cks_eq_sum data 0
  rw [Nat.mod_eq_of_lt (foldl_cks_lt _ 0 (by norm_num)), Nat.zero_add] at h
  exact h

theorem txTrailer_length (crc : Int) (data : List Nat) (bufsz : Nat) :
    (txTrailer crc data bufsz).length = if crc ≠ 0 then 2 else 1 := by
  unfold txTrailer
  split <;> rfl

theorem txPacket_length (src : List Nat) (len : Int) (leader bufsz packetno : Nat)
    (binary crc c : Int) (hc : c ≤ (bufsz : Int)) :
    (txPacket src len leader bufsz packetno binary crc c).length
      = bufsz + 4 + (if crc ≠ 0 then 1 else 0) := by
  simp only [txPacket, List.length_append, txTrailer_length, txData_length _ _ _ _ _ hc,
    List.length_cons, List.length_nil]
  split <;> omega

/-! ## C4: wire layout of the data packets -/

/-- C4. In every run of `xmodemTransmit`, every step that ends blocked at line 331 has
written one data packet: `leader, seq, 255 - seq`, `B` data bytes and a trailer of `T` bytes,
`3 + B + T` bytes in all; `B = 1024` with leader STX exactly when `onek` is set and
`srcsz - len > 128`, otherwise `B = 128` with leader SOH; `seq` is the initial number
(1 for `srcsz != 0`, 0 for `srcsz = 0`) plus the number of blocks ACKed so far, modulo 256;
the trailer is the CRC of the data, high byte first, when the peer synchronised with the
letter C, and the sum of the data bytes modulo 256 when it synchronised with NAK. -/
theorem wire_layout (src : List Nat) (srcsz onek binary : Int) (reads : List Int) (c : Int)
    (s s' : TxState) (out : List Nat) (r : Nat)
    (hs : stepsTo txStep (txStart src srcsz onek binary) reads = some s)
    (hstep : txStep s c = .more s' out) (hpc : s'.pc = .reply r) :
    ∃ (B leader seq T : Nat) (data trailer : List Nat),
      out = [leader, seq, 255 - seq] ++ data ++ trailer ∧
      data.length = B ∧ trailer.length = T ∧ out.length = 3 + B + T ∧
      (((onek ≠ 0 ∧ srcsz - s'.len > 128) ∧ B = 1024 ∧ leader = STX) ∨
        (¬ (onek ≠ 0 ∧ srcsz - s'.len > 128) ∧ B = 128 ∧ leader = SOH)) ∧
      seq = ((if srcsz ≠ 0 then 1 else 0)
              + txAcked (txStart src srcsz onek binary) (reads ++ [c])) % 256 ∧
      ((txSyncChar (txStart src srcsz onek binary) (reads ++ [c]) = some (CHR_C : Int) ∧
          T = 2 ∧ trailer = [crc16_ccitt data B / 256, crc16_ccitt data B % 256]) ∨
        (txSyncChar (txStart src srcsz onek binary) (reads ++ [c]) = some (NAK : Int) ∧
          T = 1 ∧ trailer = [data.sum % 256])) := by
  have hrun : stepsTo txStep (txStart src srcsz onek binary) (reads ++ [c]) = some s' := by
    rw [stepsTo_snoc txStep reads _ s c hs, hstep]
    rfl
  have hinv := txInv_run src srcsz onek binary (reads ++ [c]) (txInit src srcsz onek binary) []
    0 none s' (txInv_init src srcsz onek binary) hrun
  have hout := tx_reply_out s s' c out r hstep hpc
  obtain ⟨a1, a2, a3, a4, a5, a6⟩ := hinv
  rw [hpc] at a6
  simp only [] at a6
  obtain ⟨hsync, hbuf, hx⟩ := a6
  have hnone : ∀ x : Option Int, ((none : Option Int) <|> x) = x := fun x => rfl
  rw [hnone] at hsync
  rw [Nat.zero_add] at a5
  have hcnt := txCount_le s'
  have hlen := txPacket_length s'.src s'.len (txLeader s') (txBufsz s') s'.packetno s'.binary
    s'.crc (txCount s') hcnt
  have hdl := txData_length s'.src s'.len (txBufsz s') s'.binary (txCount s') hcnt
  have hout2 : out = txPacket s'.src s'.len (txLeader s') (txBufsz s') s'.packetno s'.binary
      s'.crc (txCount s') := by
    rw [hout, hx, hbuf]
    apply List.take_of_length_le
    rw [hlen]
  have hseq : s'.packetno < 256 := by rw [a5]; exact Nat.mod_lt _ (by norm_num)
  refine ⟨txBufsz s', txLeader s', s'.packetno,
    (txTrailer s'.crc (txData s'.src s'.len (txBufsz s') s'.binary (txCount s'))
      (txBufsz s')).length,
    txData s'.src s'.len (txBufsz s') s'.binary (txCount s'),
    txTrailer s'.crc (txData s'.src s'.len (txBufsz s') s'.binary (txCount s')) (txBufsz s'),
    ?_, hdl, rfl, ?_, ?_, a5, ?_⟩
  · rw [hout2, txPacket, bnot8_eq _ hseq]
  · rw [hout2, hlen, txTrailer_length]
    split <;> omega
  · unfold txBufsz txLeader txBig
    rw [a2, a3]
    by_cases hb : onek ≠ 0 ∧ srcsz - s'.len > 128
    · left; simp [hb]
    · right; simp only [hb, decide_False, not_false_eq_true, true_and]; simp
  · rcases hsync with ⟨h1, h2⟩ | ⟨h1, h2⟩
    · left
      refine ⟨h1, ?_, ?_⟩
      · rw [txTrailer_length, h2]; rfl
      · unfold txTrailer
        rw [h2]
        simp only [ne_eq, one_ne_zero, not_false_eq_true, if_true]
        have hlt := crc16_ccitt_lt (txData s'.src s'.len (txBufsz s') s'.binary (txCount s'))
          (txBufsz s')
        have hff : (0xFF : Nat) = 2 ^ 8 - 1 := by norm_num
        rw [hff, Nat.and_pow_two_sub_one_eq_mod, Nat.and_pow_two_sub_one_eq_mod,
          Nat.shiftRight_eq_div_pow]
        congr 1
        · omega
        · congr 1; omega
    · right
      refine ⟨h1, ?_, ?_⟩
      · rw [txTrailer_length, h2]; rfl
      · unfold txTrailer
        rw [h2]
        simp only [ne_eq, not_true_eq_false, if_false]
        rw [cks_loop_eq_sum _ _ hdl]

/-! ## Feeding reads -/

theorem prepend_nil {σ : Type} (st : Step σ) : st.prepend [] = st := by
  cases st <;> simp [Step.prepend]

theorem prepend_prepend {σ : Type} (a b : List Nat) (st : Step σ) :
    (st.prepend b).prepend a = st.prepend (a ++ b) := by
  cases st <;> simp [Step.prepend]

theorem feed_more_eq {σ : Type} (step : σ → Int → Step σ) (s : σ) (o : List Nat)
    (cs : List Int) : feed step (.more s o) cs = (feed step (.more s []) cs).prepend o := by
  cases cs with
  | nil => simp [feed, Step.prepend]
  | cons c cs => simp [feed, prepend_nil]

theorem feed_append {σ : Type} (step : σ → Int → Step σ) :
    ∀ (a : List Int) (st : Step σ) (s : σ) (o : List Nat) (b : List Int),
      feed step st a = .more s o →
      feed step st (a ++ b) = (feed step (.more s []) b).prepend o := by
  intro a
  induction a with
  | nil =>
    intro st s o b h
    cases st with
    | more s0 o0 =>
      simp only [feed, Step.more.injEq] at h
      obtain ⟨h1, h2⟩ := h
      subst h1 h2
      simpa using feed_more_eq step s0 o0 b
    | done s0 o0 r0 => simp [feed] at h
  | cons c cs ih =>
    intro st s o b h
    cases st with
    | more s0 o0 =>
      simp only [feed] at h
      cases hrest : feed step (step s0 c) cs with
      | more s1 o1 =>
        rw [hrest] at h
        simp only [Step.prepend, Step.more.injEq] at h
        obtain ⟨h1, h2⟩ := h
        subst h1 h2
        rw [List.cons_append]
        simp only [feed]
        rw [ih (step s0 c) s1 o1 b hrest, prepend_prepend]
      | done s1 o1 r1 =>
        rw [hrest] at h
        simp [Step.prepend] at h
    | done s0 o0 r0 => simp [feed] at h

theorem feed_nil {σ : Type} (step : σ → Int → Step σ) (st : Step σ) :
    feed step st [] = st := by
  cases st <;> rfl

theorem feed_cons {σ : Type} (step : σ → Int → Step σ) (s : σ) (c : Int) (cs : List Int) :
    feed step (.more s []) (c :: cs) = feed step (step s c) cs := by
  simp [feed, prepend_nil]

theorem asReads_cons (b : Nat) (bs : List Nat) : asReads (b :: bs) = (b : Int) :: asReads bs :=
  rfl

theorem asReads_nil : asReads [] = [] := rfl

theorem asReads_append (a b : List Nat) : asReads (a ++ b) = asReads a ++ asReads b := by
  simp [asReads]

theorem toNat_byte (b : Nat) (hb : b < 256) : (((b : Int)) % 256).toNat = b := by
  omega

/-! ## The receiver reads a packet -/

theorem rx_recv_loop : ∀ (bs : List Nat) (q : RxState) (i : Nat),
    bs ≠ [] → (∀ b ∈ bs, b < 256) → q.pc = .recv i →
    i + bs.length = q.bufsz + (if q.crc ≠ 0 then 1 else 0) + 3 →
    feed rxStep (.more q []) (asReads bs)
      = rxPacket { q with xbuff := q.xbuff ++ bs, pc := .recv (i + bs.length - 1) } := by
  intro bs
  induction bs with
  | nil => intro q i h; exact absurd rfl h
  | cons b rest ih =>
    intro q i _ hb hpc hlen
    have hb0 : b < 256 := hb b (List.mem_cons_self _ _)
    have hc : ¬ ((b : Int) < 0) := by omega
    obtain ⟨qdestsz, qcrc, qtrychar, qpacketno, qlen, qretrans, qbufsz, qxbuff, qsink, qpc⟩ := q
    simp only [] at hpc hlen
    subst hpc
    cases rest with
    | nil =>
      simp only [List.length_cons, List.length_nil] at hlen
      have hlast : ¬ (i + 1 < qbufsz + (if qcrc ≠ 0 then 1 else 0) + 3) := by omega
      rw [asReads_cons, asReads_nil, feed_cons, feed_nil]
      simp only [rxStep, hc, if_false, hlast, toNat_byte b hb0, List.length_cons,
        List.length_nil]
      rfl
    | cons b2 rest2 =>
      simp only [List.length_cons] at hlen
      have hnext : i + 1 < qbufsz + (if qcrc ≠ 0 then 1 else 0) + 3 := by omega
      have ih2 := ih (⟨qdestsz, qcrc, qtrychar, qpacketno, qlen, qretrans, qbufsz,
        qxbuff ++ [b], qsink, .recv (i + 1)⟩ : RxState) (i + 1) (by simp)
        (fun x hx => hb x (List.mem_cons_of_mem _ hx)) rfl
        (by simp only [List.length_cons]; omega)
      simp only [List.append_assoc, List.singleton_append, List.length_cons] at ih2
      have e : i + (rest2.length + 1 + 1) - 1 = i + 1 + (rest2.length + 1) - 1 := by omega
      simp only [List.length_cons, e]
      rw [← ih2, asReads_cons, feed_cons]
      simp only [rxStep, hc, if_false, hnext, if_true, toNat_byte b hb0]

/-- Reading a whole packet at line 151: the leader selects the block size, the loop of
line 187 stores the rest, and the code of lines 192-227 runs on the stored packet. -/
theorem rx_feed_packet (s : RxState) (r : Nat) (pkt : List Nat) (hpc : s.pc = .sync r)
    (hb : ∀ b ∈ pkt, b < 256) (hlead : pkt.headD 0 = SOH ∨ pkt.headD 0 = STX)
    (hlen : pkt.length = rxPacketLen s.crc (rxBufszOf (pkt.headD 0))) :
    feed rxStep (.more s []) (asReads pkt) = rxPacket (rxHolding s pkt) := by
  cases pkt with
  | nil => simp [rxPacketLen] at hlen
  | cons l rest =>
    simp only [List.headD_cons] at hlead hlen
    have hl0 : l < 256 := hb l (List.mem_cons_self _ _)
    have hrest : rest ≠ [] := by
      intro h
      rw [h] at hlen
      simp [rxPacketLen] at hlen
    obtain ⟨qdestsz, qcrc, qtrychar, qpacketno, qlen, qretrans, qbufsz, qxbuff, qsink, qpc⟩ := s
    simp only [] at hpc hlen
    subst hpc
    have hstart : rxStep (⟨qdestsz, qcrc, qtrychar, qpacketno, qlen, qretrans, qbufsz, qxbuff,
        qsink, .sync r⟩ : RxState) (l : Int)
        = .more (⟨qdestsz, qcrc, 0, qpacketno, qlen, qretrans, rxBufszOf l, [l], qsink,
            .recv 0⟩ : RxState) [] := by
      have hc : (l : Int) ≥ 0 := by omega
      rcases hlead with h | h
      · subst h
        simp only [rxStep, hc, if_true, rxStartRecv, rxBufszOf]
        rfl
      · subst h
        have hne : ¬ ((STX : Int) = (SOH : Int)) := by decide
        simp only [rxStep, hc, if_true, hne, if_false, rxStartRecv, rxBufszOf]
        rfl
    have hloop := rx_recv_loop rest (⟨qdestsz, qcrc, 0, qpacketno, qlen, qretrans, rxBufszOf l,
      [l], qsink, .recv 0⟩ : RxState) 0 hrest (fun x hx => hb x (List.mem_cons_of_mem _ hx))
      rfl (by simp only [rxPacketLen, List.length_cons] at hlen ⊢; omega)
    rw [asReads_cons, feed_cons, hstart, hloop]
    simp only [rxHolding, List.headD_cons, List.singleton_append]
    have e : 0 + rest.length - 1 = rxBufszOf l + (if qcrc ≠ 0 then 1 else 0) + 2 := by
      simp only [rxPacketLen, List.length_cons] at hlen
      omega
    rw [e]

/-! ## Rejected packets -/

theorem getD_lt_256 (l : List Nat) (i : Nat) (h : ∀ b ∈ l, b < 256) : l.getD i 0 < 256 := by
  rw [List.getD_eq_getElem?_getD]
  cases hi : l[i]? with
  | none => simp
  | some x =>
    simp only [Option.getD_some]
    exact h x (List.getElem?_mem hi)

set_option maxRecDepth 100000 in
theorem xor_complement : ∀ b < 256, (255 - b) ^^^ b = 255 := by decide

theorem rx_flush_reject (q : RxState) (hpc : q.pc = .flushReject) :
    ∀ junk : List Int, (∀ x ∈ junk, (0 : Int) ≤ x) → feed rxStep (.more q []) junk = .more q [] := by
  intro junk
  induction junk with
  | nil => intro _; rfl
  | cons x xs ih =>
    intro h
    have hx : x ≥ 0 := h x (List.mem_cons_self _ _)
    rw [feed_cons]
    have : rxStep q x = .more q [] := by
      unfold rxStep
      rw [hpc]
      simp only [hx, if_true]
    rw [this]
    exact ih (fun y hy => h y (List.mem_cons_of_mem _ hy))

theorem rx_reject (q : RxState) (junk : List Int) (t : Int) (hacc : rxAccept q = false)
    (hjunk : ∀ x ∈ junk, (0 : Int) ≤ x) (ht : t < 0) (htry : q.trychar = 0) :
    feed rxStep (rxPacket q) (junk ++ [t]) = .more { q with pc := .sync 0 } [NAK] := by
  have h1 : rxPacket q = .more { q with pc := .flushReject } [] := by
    unfold rxPacket
    simp [hacc]
  rw [h1, feed_append rxStep junk _ _ _ [t] (rx_flush_reject _ rfl junk hjunk), prepend_nil,
    feed_cons, feed_nil]
  have ht' : ¬ (t ≥ 0) := by omega
  simp only [rxStep, ht', if_false, rxSyncEnter, htry]
  rfl

/-! ## C8: sequence / complement rejection -/

/-- C8. Whenever `xmodemReceive`, blocked at line 151, reads a whole packet (leader SOH or
STX and all further bytes, whatever the data and the trailer) whose second and third bytes do
not satisfy `seq xor complement = 0xFF`, it drains the input, writes NAK and nothing else
(no ACK), and is back at line 151 with the sink, `packetno`, `len` and the retransmit budget
`retrans` unchanged. -/
theorem seq_complement_rejection (s : RxState) (r : Nat) (pkt : List Nat) (junk : List Int)
    (t : Int) (hpc : s.pc = .sync r) (hb : ∀ b ∈ pkt, b < 256)
    (hlead : pkt.headD 0 = SOH ∨ pkt.headD 0 = STX)
    (hlen : pkt.length = rxPacketLen s.crc (rxBufszOf (pkt.headD 0)))
    (hbad : pkt.getD 1 0 ^^^ pkt.getD 2 0 ≠ 0xFF)
    (hjunk : ∀ x ∈ junk, (0 : Int) ≤ x) (ht : t < 0) :
    ∃ s', feed rxStep (.more s []) (asReads pkt ++ (junk ++ [t])) = .more s' [NAK] ∧
      s'.pc = .sync 0 ∧ s'.sink = s.sink ∧ s'.packetno = s.packetno ∧ s'.len = s.len ∧
      s'.retrans = s.retrans := by
  have hfeed := rx_feed_packet s r pkt hpc hb hlead hlen
  have hacc : rxAccept (rxHolding s pkt) = false := by
    have h2 := getD_lt_256 pkt 2 hb
    have hne : pkt.getD 1 0 ≠ bnot8 (pkt.getD 2 0) := by
      intro h
      rw [bnot8_eq _ h2] at h
      apply hbad
      rw [h]
      exact xor_complement _ h2
    have hd : decide (pkt.getD 1 0 = bnot8 (pkt.getD 2 0)) = false := decide_eq_false hne
    unfold rxAccept
    simp only [rxHolding, hd, Bool.false_and]
  have hrej := rx_reject (rxHolding s pkt) junk t hacc hjunk ht rfl
  have hmore : rxPacket (rxHolding s pkt) = .more { rxHolding s pkt with pc := .flushReject } [] := by
    unfold rxPacket
    simp [hacc]
  refine ⟨{ rxHolding s pkt with pc := .sync 0 }, ?_, rfl, rfl, rfl, rfl, rfl⟩
  rw [feed_append rxStep (asReads pkt) _ _ _ (junk ++ [t]) (hfeed.trans hmore), prepend_nil]
  rw [← hmore]
  exact hrej

/-! ## A changed data byte changes the CRC and the checksum -/

set_option maxRecDepth 100000 in
theorem crc16_in_zero : ∀ x < 256, crc16_step 0 x = 0 → x = 0 := by decide

set_option maxRecDepth 100000 in
theorem crc16_lo_low : ∀ x < 256, crc16_step x 0 % 256 = 0 := by decide

set_option maxRecDepth 100000 in
theorem crc16_lo_zero : ∀ x < 256, crc16_step x 0 = 0 → x = 0 := by decide

set_option maxRecDepth 100000 in
theorem crc16_hi_low : ∀ x < 256, crc16_step (x <<< 8) 0 % 256 = 0 → x = 0 := by decide

theorem crc16_step_zero (x : Nat) (hx : x < 65536) (h : crc16_step x 0 = 0) : x = 0 := by
  have hsplit := split_lo_hi x
  have hlo : x % 2 ^ 8 < 256 := Nat.mod_lt _ (by norm_num)
  have hhi : x >>> 8 < 256 := by
    rw [Nat.shiftRight_eq_div_pow]
    omega
  have e : crc16_step x 0
      = crc16_step (x % 2 ^ 8) 0 ^^^ crc16_step ((x >>> 8) <<< 8) 0 := by
    rw [← crc16_step_lin, Nat.xor_self, ← hsplit]
  rw [e, Nat.xor_eq_zero] at h
  have h1 := crc16_lo_low _ hlo
  rw [h] at h1
  have h2 := crc16_hi_low _ hhi h1
  rw [h2] at h
  have h3 : crc16_step (0 <<< 8) 0 = 0 := by decide
  rw [h3] at h
  have h4 := crc16_lo_zero _ hlo h
  rw [hsplit, h2, h4]
  rfl

theorem crc16_step_inj_state (s s' b : Nat) (hs : s < 65536) (hs' : s' < 65536)
    (h : crc16_step s b = crc16_step s' b) : s = s' := by
  have hl := crc16_step_lin s s' b b
  rw [h, Nat.xor_self, Nat.xor_self] at hl
  have hx : s ^^^ s' < 2 ^ 16 := Nat.xor_lt_two_pow (by simpa using hs) (by simpa using hs')
  have := crc16_step_zero _ (by simpa using hx) hl
  exact Nat.xor_eq_zero.mp this

theorem crc16_step_inj_byte (s b v : Nat) (hb : b < 256) (hv : v < 256)
    (h : crc16_step s b = crc16_step s v) : b = v := by
  have hl := crc16_step_lin s s b v
  rw [h, Nat.xor_self, Nat.xor_self] at hl
  have hx : b ^^^ v < 2 ^ 8 := Nat.xor_lt_two_pow (by simpa using hb) (by simpa using hv)
  have := crc16_in_zero _ (by simpa using hx) hl
  exact Nat.xor_eq_zero.mp this

theorem foldl_crc16_inj (post : List Nat) (s s' : Nat) (hs : s < 65536) (hs' : s' < 65536)
    (hne : s ≠ s') : post.foldl crc16_step s ≠ post.foldl crc16_step s' := by
  induction post generalizing s s' with
  | nil => exact hne
  | cons b bs ih =>
    simp only [List.foldl_cons]
    apply ih _ _ (crc16_step_lt _ _) (crc16_step_lt _ _)
    intro h
    exact hne (crc16_step_inj_state s s' b hs hs' h)

theorem foldl_crc16_change (pre post : List Nat) (b v : Nat) (hb : b < 256) (hv : v < 256)
    (hne : v ≠ b) :
    (pre ++ v :: post).foldl crc16_step 0 ≠ (pre ++ b :: post).foldl crc16_step 0 := by
  simp only [List.foldl_append, List.foldl_cons]
  apply foldl_crc16_inj _ _ _ (crc16_step_lt _ _) (crc16_step_lt _ _)
  intro h
  exact hne (crc16_step_inj_byte _ v b hv hb h)

theorem cks_change (pre post : List Nat) (b v : Nat) (hb : b < 256) (hv : v < 256)
    (hne : v ≠ b) :
    (pre ++ v :: post).foldl (fun a x => (a + x) % 256) 0
      ≠ (pre ++ b :: post).foldl (fun a x => (a + x) % 256) 0 := by
  intro h
  have h1 := foldl_cks_eq_sum (pre ++ v :: post) 0
  have h2 := foldl_cks_eq_sum (pre ++ b :: post) 0
  rw [h, h2] at h1
  simp only [List.sum_append, List.sum_cons, Nat.zero_add] at h1
  omega

theorem crc16_ccitt_take (buf : List Nat) (n : Nat) (hn : n ≤ buf.length) :
    crc16_ccitt buf n = (buf.take n).foldl crc16_step 0 := by
  have h := crc16_ccitt_append (buf.take n) (buf.drop n)
  rw [List.take_append_drop, List.length_take, Nat.min_eq_left hn] at h
  exact h

theorem cks_loop_take (buf : List Nat) (n : Nat) (hn : n ≤ buf.length) :
    cks_loop buf n 0 = (buf.take n).foldl (fun a x => (a + x) % 256) 0 := by
  have h := cks_loop_append (buf.take n) (buf.drop n) 0
  rw [List.take_append_drop, List.length_take, Nat.min_eq_left hn] at h
  exact h

/-- A buffer that `check` accepts is refused once one byte of its first `sz` bytes is
replaced by a different byte. -/
theorem check_corrupt (crc : Int) (buf : List Nat) (sz j v : Nat) (hsz : sz ≤ buf.length)
    (hb : ∀ b ∈ buf, b < 256) (hj : j < sz) (hv : v < 256) (hne : v ≠ buf.getD j 0)
    (hok : check crc buf sz ≠ 0) : check crc (buf.set j v) sz = 0 := by
  have hjl : j < buf.length := by omega
  have hbj : buf.getD j 0 < 256 := getD_lt_256 buf j hb
  have hsz' : sz ≤ (buf.set j v).length := by simpa using hsz
  have hjt : j < (buf.take sz).length := by simp; omega
  have hgetj : (buf.take sz)[j] = buf.getD j 0 := by
    simp [List.getD_eq_getElem?_getD, List.getElem?_eq_getElem hjl]
  have hset : (buf.set j v).take sz
      = (buf.take sz).take j ++ v :: (buf.take sz).drop (j + 1) := by
    rw [List.set_take, List.set_eq_take_append_cons_drop, if_pos hjt]
  have horig : buf.take sz
      = (buf.take sz).take j ++ buf.getD j 0 :: (buf.take sz).drop (j + 1) := by
    have h := List.take_append_drop j (buf.take sz)
    rw [← hgetj]
    conv => lhs; rw [← h]
    congr 1
    exact List.drop_eq_getElem_cons hjt
  have hg1 : (buf.set j v).getD sz 0 = buf.getD sz 0 := by
    simp only [List.getD_eq_getElem?_getD]
    rw [List.getElem?_set_ne (by omega)]
  have hg2 : (buf.set j v).getD (sz + 1) 0 = buf.getD (sz + 1) 0 := by
    simp only [List.getD_eq_getElem?_getD]
    rw [List.getElem?_set_ne (by omega)]
  unfold check at hok ⊢
  by_cases hc : crc ≠ 0
  · simp only [hc, if_true, ne_eq, not_false_eq_true] at hok ⊢
    rw [crc16_ccitt_take _ _ hsz] at hok
    rw [crc16_ccitt_take _ _ hsz', hg1, hg2, hset]
    have hdiff := foldl_crc16_change ((buf.take sz).take j) ((buf.take sz).drop (j + 1))
      (buf.getD j 0) v hbj hv hne
    rw [← horig] at hdiff
    split at hok
    · rename_i heq
      rw [← heq, if_neg hdiff]
    · exact absurd rfl hok
  · simp only [hc, if_false] at hok ⊢
    rw [cks_loop_take _ _ hsz] at hok
    rw [cks_loop_take _ _ hsz', hg1, hset]
    have hdiff := cks_change ((buf.take sz).take j) ((buf.take sz).drop (j + 1))
      (buf.getD j 0) v hbj hv hne
    rw [← horig] at hdiff
    split at hok
    · rename_i heq
      rw [← heq, if_neg hdiff]
    · exact absurd rfl hok

theorem rxAccept_check (q : RxState) (h : rxAccept q = true) :
    check q.crc (q.xbuff.drop 3) q.bufsz ≠ 0 := by
  unfold rxAccept at h
  simp only [Bool.and_eq_true, decide_eq_true_eq] at h
  exact h.2

theorem rxAccept_of_check_zero (q : RxState) (h : check q.crc (q.xbuff.drop 3) q.bufsz = 0) :
    rxAccept q = false := by
  unfold rxAccept
  rw [h]
  simp

theorem headD_set_succ (l : List Nat) (i v : Nat) : (l.set (i + 1) v).headD 0 = l.headD 0 := by
  cases l <;> rfl

/-! ## C7: corruption detection -/

/-- C7. Take any packet that `xmodemReceive`, blocked at line 151, would accept (checksum or
CRC mode, 128 or 1024 data bytes) and replace one byte of its data region by a different
byte. Then `check` returns 0 on the data region, and on reading the changed packet the
receiver drains the input, writes NAK and nothing else, delivers nothing, and is back at
line 151 expecting the same packet number. -/
theorem corruption_detected (s : RxState) (r : Nat) (pkt : List Nat) (j v : Nat)
    (junk : List Int) (t : Int) (hpc : s.pc = .sync r) (hb : ∀ b ∈ pkt, b < 256)
    (hlead : pkt.headD 0 = SOH ∨ pkt.headD 0 = STX)
    (hlen : pkt.length = rxPacketLen s.crc (rxBufszOf (pkt.headD 0)))
    (hacc : rxAccept (rxHolding s pkt) = true)
    (hj : j < rxBufszOf (pkt.headD 0)) (hv : v < 256) (hne : v ≠ pkt.getD (3 + j) 0)
    (hjunk : ∀ x ∈ junk, (0 : Int) ≤ x) (ht : t < 0) :
    check s.crc ((pkt.set (3 + j) v).drop 3) (rxBufszOf (pkt.headD 0)) = 0 ∧
    ∃ s', feed rxStep (.more s []) (asReads (pkt.set (3 + j) v) ++ (junk ++ [t]))
        = .more s' [NAK] ∧
      s'.pc = .sync 0 ∧ s'.sink = s.sink ∧ s'.packetno = s.packetno ∧ s'.len = s.len := by
  have hhead : (pkt.set (3 + j) v).headD 0 = pkt.headD 0 := by
    have e : 3 + j = (2 + j) + 1 := by omega
    rw [e]
    exact headD_set_succ _ _ _
  have hb' : ∀ b ∈ pkt.set (3 + j) v, b < 256 := by
    intro b hbm
    rcases List.mem_or_eq_of_mem_set hbm with h | h
    · exact hb b h
    · rw [h]; exact hv
  have hlen' : (pkt.set (3 + j) v).length
      = rxPacketLen s.crc (rxBufszOf ((pkt.set (3 + j) v).headD 0)) := by
    rw [hhead, List.length_set]
    exact hlen
  have hdrop : (pkt.set (3 + j) v).drop 3 = (pkt.drop 3).set j v := by
    rw [List.drop_set, if_neg (by omega)]
    congr 1
    omega
  have hok := rxAccept_check _ hacc
  simp only [rxHolding] at hok
  have hck : check s.crc ((pkt.set (3 + j) v).drop 3) (rxBufszOf (pkt.headD 0)) = 0 := by
    rw [hdrop]
    apply check_corrupt s.crc (pkt.drop 3) _ j v _ _ hj hv _ hok
    · rw [List.length_drop, hlen]
      unfold rxPacketLen
      omega
    · intro b hbm
      exact hb b (List.mem_of_mem_drop hbm)
    · rw [List.getD_eq_getElem?_getD, List.getElem?_drop, ← List.getD_eq_getElem?_getD]
      exact hne
  refine ⟨hck, ?_⟩
  have hfeed := rx_feed_packet s r (pkt.set (3 + j) v) hpc hb' (by rw [hhead]; exact hlead) hlen'
  have hacc' : rxAccept (rxHolding s (pkt.set (3 + j) v)) = false := by
    apply rxAccept_of_check_zero
    simp only [rxHolding, hhead]
    exact hck
  have hrej := rx_reject (rxHolding s (pkt.set (3 + j) v)) junk t hacc' hjunk ht rfl
  have hmore : rxPacket (rxHolding s (pkt.set (3 + j) v))
      = .more { rxHolding s (pkt.set (3 + j) v) with pc := .flushReject } [] := by
    unfold rxPacket
    simp [hacc']
  refine ⟨{ rxHolding s (pkt.set (3 + j) v) with pc := .sync 0 }, ?_, rfl, rfl, rfl, rfl⟩
  rw [feed_append rxStep _ _ _ _ (junk ++ [t]) (hfeed.trans hmore), prepend_nil, ← hmore]
  exact hrej

/-! ## Accepted packets -/

theorem rxDeliver_destsz (q : RxState) : (rxDeliver q).destsz = q.destsz := by
  by_cases h : rxCount q > 0 <;> simp [rxDeliver, h]

theorem rxDeliver_trychar (q : RxState) : (rxDeliver q).trychar = q.trychar := by
  by_cases h : rxCount q > 0 <;> simp [rxDeliver, h]

theorem rxDeliver_retrans (q : RxState) : (rxDeliver q).retrans = MAXRETRANS + 1 := by
  by_cases h : rxCount q > 0 <;> simp [rxDeliver, h]

theorem rxDeliver_packetno (q : RxState) : (rxDeliver q).packetno = (q.packetno + 1) % 256 := by
  by_cases h : rxCount q > 0 <;> simp [rxDeliver, h]

theorem rxDeliver_crc (q : RxState) : (rxDeliver q).crc = q.crc := by
  by_cases h : rxCount q > 0 <;> simp [rxDeliver, h]

theorem rxDeliver_len (q : RxState) :
    (rxDeliver q).len = if rxCount q > 0 then q.len + rxCount q else q.len := by
  by_cases h : rxCount q > 0 <;> simp [rxDeliver, h]

theorem rxDeliver_sink (q : RxState) :
    (rxDeliver q).sink
      = if rxCount q > 0 then q.sink ++ (q.xbuff.drop 3).take (rxCount q).toNat else q.sink := by
  by_cases h : rxCount q > 0 <;> simp [rxDeliver, h]

theorem rx_accept_new (q : RxState) (hacc : rxAccept q = true)
    (hseq : q.xbuff.getD 1 0 = q.packetno) (htry : q.trychar = 0) (hd : q.destsz ≠ 0) :
    rxPacket q = .more { rxDeliver q with retrans := MAXRETRANS + 1 - 1, pc := .sync 0 } [ACK] := by
  have h1 : ¬ (MAXRETRANS + 1 - 1 ≤ (0 : Int)) := by decide
  have h2 : (rxDeliver q).destsz ≠ 0 := by rw [rxDeliver_destsz]; exact hd
  have h3 : (rxDeliver q).trychar = 0 := by rw [rxDeliver_trychar]; exact htry
  have h4 := rxDeliver_retrans q
  unfold rxPacket
  simp only [hacc, if_true, hseq, h4, h1, if_false, h2, ne_eq, not_false_eq_true, rxSyncEnter,
    h3, not_true_eq_false, List.append_nil]

theorem rx_accept_new_ctl (q : RxState) (hacc : rxAccept q = true)
    (hseq : q.xbuff.getD 1 0 = q.packetno) (hd : q.destsz = 0) :
    rxPacket q = .done { rxDeliver q with retrans := MAXRETRANS + 1 - 1 } [ACK]
      (rxDeliver q).len := by
  have h1 : ¬ (MAXRETRANS + 1 - 1 ≤ (0 : Int)) := by decide
  have h2 : (rxDeliver q).destsz = 0 := by rw [rxDeliver_destsz]; exact hd
  have h4 := rxDeliver_retrans q
  unfold rxPacket
  simp only [hacc, if_true, hseq, h4, h1, if_false, h2, ne_eq, not_true_eq_false]

theorem rx_accept_dup (q : RxState) (hacc : rxAccept q = true)
    (hseq : q.xbuff.getD 1 0 ≠ q.packetno) (htry : q.trychar = 0) (hret : 1 < q.retrans) :
    rxPacket q =
      if q.destsz ≠ 0 then .more { q with retrans := q.retrans - 1, pc := .sync 0 } [ACK]
      else .done { q with retrans := q.retrans - 1 } [ACK] q.len := by
  have h1 : ¬ (q.retrans - 1 ≤ 0) := by omega
  unfold rxPacket
  simp only [hacc, if_true, hseq, if_false, h1, rxSyncEnter, htry, ne_eq, not_true_eq_false,
    List.append_nil]

theorem rx_accept_dup_exhausted (q : RxState) (hacc : rxAccept q = true)
    (hseq : q.xbuff.getD 1 0 ≠ q.packetno) (hret : q.retrans ≤ 1) :
    rxPacket q = .more { q with retrans := q.retrans - 1, pc := .flushRetrans } [] := by
  have h1 : q.retrans - 1 ≤ 0 := by omega
  unfold rxPacket
  simp only [hacc, if_true, hseq, if_false, h1]

theorem rxPacket_sink (q : RxState) (h : (rxPacket q).state.sink ≠ q.sink) :
    q.xbuff.getD 1 0 = q.packetno := by
  by_contra hne
  apply h
  unfold rxPacket
  split
  · simp only [hne, if_false]
    split
    · rfl
    · split <;> rfl
  · rfl

/-! ## Receiver invariant -/

theorem rxPcInv_of_pc (s : RxState) (hp : ∀ i, s.pc ≠ .recv i) : RxPcInv s := by
  unfold RxPcInv
  cases h : s.pc with
  | recv i => exact absurd h (hp i)
  | _ => trivial

theorem rxPcInv_congr (a b : RxState) (hpc : a.pc = b.pc) (hx : a.xbuff = b.xbuff)
    (h : RxPcInv b) : RxPcInv a := by
  unfold RxPcInv at h ⊢
  rw [hpc, hx]
  exact h

theorem rxInv_pc (destsz : Int) (s : RxState) (p : RxPc) (h : RxInv destsz s)
    (hp : ∀ i, p ≠ .recv i) : RxInv destsz { s with pc := p } := by
  obtain ⟨a1, a2, a3, a4, a5, -⟩ := h
  exact ⟨a1, a2, a3, a4, a5, rxPcInv_of_pc _ hp⟩

theorem rxInv_weaken (destsz : Int) (s : RxState) (h : RxInv destsz s) :
    s.destsz = destsz ∧ 0 ≤ s.len ∧ (s.sink.length : Int) = s.len ∧
    (0 < destsz → s.len ≤ destsz) ∧ (∀ b ∈ s.xbuff, b < 256) :=
  ⟨h.1, h.2.1, h.2.2.1, h.2.2.2.1, h.2.2.2.2.1⟩

theorem rxCount_le (q : RxState) : rxCount q ≤ (q.bufsz : Int) := by
  unfold rxCount
  simp only []
  split <;> omega

theorem rxInv_deliver (destsz : Int) (q : RxState) (h : RxInv destsz q)
    (hlen : q.bufsz + 3 ≤ q.xbuff.length) :
    (rxDeliver q).destsz = destsz ∧ 0 ≤ (rxDeliver q).len ∧
    ((rxDeliver q).sink.length : Int) = (rxDeliver q).len ∧
    (0 < destsz → (rxDeliver q).len ≤ destsz) ∧ (∀ b ∈ (rxDeliver q).xbuff, b < 256) := by
  obtain ⟨a1, a2, a3, a4, a5, -⟩ := h
  have hc := rxCount_le q
  have hcd : 0 < destsz → rxCount q ≤ destsz - q.len := by
    intro hd
    unfold rxCount
    simp only []
    have : q.destsz ≠ 0 := by omega
    simp only [this, ne_eq, not_false_eq_true, if_true]
    split <;> omega
  rw [rxDeliver_destsz, rxDeliver_len, rxDeliver_sink]
  refine ⟨a1, ?_, ?_, ?_, ?_⟩
  · split <;> omega
  · split
    · rw [List.length_append, List.length_take, List.length_drop]
      have : (rxCount q).toNat ≤ q.xbuff.length - 3 := by omega
      rw [Nat.min_eq_left this]
      push_cast
      omega
    · exact a3
  · intro hd
    have := hcd hd
    have := a4 hd
    split <;> omega
  · by_cases hgt : rxCount q > 0 <;> simpa [rxDeliver, hgt] using a5

theorem rxDeliver_pc (q : RxState) : (rxDeliver q).pc = q.pc := by
  by_cases h : rxCount q > 0 <;> simp [rxDeliver, h]

theorem rxDeliver_xbuff (q : RxState) : (rxDeliver q).xbuff = q.xbuff := by
  by_cases h : rxCount q > 0 <;> simp [rxDeliver, h]

theorem rxInv_packet (destsz : Int) (q : RxState) (h : RxInv destsz q)
    (hlen : q.bufsz + 3 ≤ q.xbuff.length) : RxInv destsz (rxPacket q).state := by
  have hw := rxInv_weaken destsz q h
  have hdel := rxInv_deliver destsz q h hlen
  have hq1 : ∀ q1 : RxState, (q1 = q ∨ q1 = rxDeliver q) → ∀ x : Int,
      RxInv destsz { q1 with retrans := x } := by
    intro q1 hq x
    rcases hq with e | e <;> rw [e]
    · obtain ⟨a1, a2, a3, a4, a5⟩ := hw
      exact ⟨a1, a2, a3, a4, a5, rxPcInv_congr _ q rfl rfl h.2.2.2.2.2⟩
    · obtain ⟨a1, a2, a3, a4, a5⟩ := hdel
      exact ⟨a1, a2, a3, a4, a5,
        rxPcInv_congr _ q (rxDeliver_pc q) (rxDeliver_xbuff q) h.2.2.2.2.2⟩
  have hsel : ((if q.xbuff.getD 1 0 = q.packetno then rxDeliver q else q) = q ∨
      (if q.xbuff.getD 1 0 = q.packetno then rxDeliver q else q) = rxDeliver q) := by
    by_cases hb : q.xbuff.getD 1 0 = q.packetno
    · right; rw [if_pos hb]
    · left; rw [if_neg hb]
  unfold rxPacket
  split
  · generalize (if q.xbuff.getD 1 0 = q.packetno then rxDeliver q else q) = q1 at hsel
    have hinv := hq1 q1 hsel (q1.retrans - 1)
    simp only []
    split
    · exact rxInv_pc destsz _ _ hinv (by intro i; simp)
    · split
      · exact rxInv_pc destsz _ _ hinv (by intro i; simp)
      · exact hinv
  · exact rxInv_pc destsz q _ h (by intro i; simp)

theorem rxInv_step (destsz : Int) (s : RxState) (c : Int) (h : RxInv destsz s) :
    RxInv destsz (rxStep s c).state := by
  have hnext : ∀ retry, RxInv destsz (rxSyncNext s retry).state := by
    intro retry
    unfold rxSyncNext rxSyncEnter
    split
    · exact rxInv_pc destsz s _ h (by intro i; simp)
    · split
      · obtain ⟨a1, a2, a3, a4, a5, -⟩ := h
        exact ⟨a1, a2, a3, a4, a5, rxPcInv_of_pc _ (by intro i; simp [Step.state])⟩
      · exact rxInv_pc destsz s _ h (by intro i; simp)
  have hstart : ∀ b, RxInv destsz (rxStartRecv s c b).state := by
    intro b
    obtain ⟨a1, a2, a3, a4, a5, -⟩ := h
    refine ⟨a1, a2, a3, a4, ?_, le_refl _⟩
    intro x hx
    simp only [rxStartRecv, Step.state, List.mem_singleton] at hx
    omega
  unfold rxStep
  cases hpc : s.pc with
  | sync retry =>
    simp only []
    split
    · split
      · exact hstart _
      · split
        · exact hstart _
        · split
          · exact h
          · split
            · exact rxInv_pc destsz s _ h (by intro i; simp)
            · exact hnext _
    · exact hnext _
  | syncCan retry =>
    simp only []
    split
    · exact rxInv_pc destsz s _ h (by intro i; simp)
    · exact hnext _
  | recv i =>
    simp only []
    have hxl : i + 1 ≤ s.xbuff.length := by
      have := h.2.2.2.2.2
      unfold RxPcInv at this
      rw [hpc] at this
      exact this
    have hbytes : ∀ b ∈ s.xbuff ++ [(c % 256).toNat], b < 256 := by
      intro b hb
      rcases List.mem_append.mp hb with hb | hb
      · exact h.2.2.2.2.1 b hb
      · simp only [List.mem_singleton] at hb
        omega
    by_cases hneg : c < 0
    · rw [if_pos hneg]
      exact rxInv_pc destsz s _ h (by intro i; simp)
    · rw [if_neg hneg]
      by_cases hlt : i + 1 < s.bufsz + (if s.crc ≠ 0 then 1 else 0) + 3
      · rw [if_pos hlt]
        obtain ⟨a1, a2, a3, a4, a5, -⟩ := h
        refine ⟨a1, a2, a3, a4, hbytes, ?_⟩
        unfold RxPcInv
        simp only [Step.state, List.length_append, List.length_singleton]
        omega
      · rw [if_neg hlt]
        apply rxInv_packet
        · obtain ⟨a1, a2, a3, a4, a5, -⟩ := h
          refine ⟨a1, a2, a3, a4, hbytes, ?_⟩
          unfold RxPcInv
          simp only [hpc, List.length_append, List.length_singleton]
          omega
        · simp only [List.length_append, List.length_singleton]
          split at hlt <;> omega
  | flushCancel =>
    simp only []
    split <;> exact h
  | flushSync =>
    simp only []
    split <;> exact h
  | flushRetrans =>
    simp only []
    split <;> exact h
  | flushReject =>
    simp only []
    split
    · exact h
    · exact rxInv_pc destsz s _ h (by intro i; simp)

theorem rxInv_start (destsz crc : Int) : RxInv destsz (rxStart destsz crc).state := by
  refine ⟨rfl, le_refl _, rfl, ?_, ?_, trivial⟩
  · intro h
    exact le_of_lt h
  · intro b hb
    simp [rxStart, rxSyncEnter, rxInit, Step.state] at hb

theorem rxPacket_ret (q s' : RxState) (o : List Nat) (r : Int)
    (h : rxPacket q = .done s' o r) : r = s'.len := by
  by_cases hacc : rxAccept q = true
  · generalize hq1 : (if q.xbuff.getD 1 0 = q.packetno then rxDeliver q else q) = q1
    have e : rxPacket q =
        (if q1.retrans - 1 ≤ 0 then
          Step.more { q1 with retrans := q1.retrans - 1, pc := .flushRetrans } []
        else if q1.destsz ≠ 0 then rxSyncEnter { q1 with retrans := q1.retrans - 1 } 0 [ACK]
        else .done { q1 with retrans := q1.retrans - 1 } [ACK] q1.len) := by
      unfold rxPacket
      rw [if_pos hacc]
      subst hq1
      rfl
    rw [e] at h
    by_cases h1 : q1.retrans - 1 ≤ 0
    · rw [if_pos h1] at h
      simp at h
    · rw [if_neg h1] at h
      by_cases h2 : q1.destsz ≠ 0
      · rw [if_pos h2] at h
        simp [rxSyncEnter] at h
      · rw [if_neg h2] at h
        simp only [Step.done.injEq] at h
        obtain ⟨h3, -, h4⟩ := h
        subst h3
        exact h4.symm
  · have e : rxPacket q = .more { q with pc := .flushReject } [] := by
      unfold rxPacket
      rw [if_neg hacc]
    rw [e] at h
    simp at h

theorem rx_ret (s : RxState) (c : Int) (s' : RxState) (o : List Nat) (r : Int)
    (h : rxStep s c = .done s' o r) : r = s'.len ∨ r < 0 := by
  unfold rxStep at h
  have hnext : ∀ retry, rxSyncNext s retry ≠ .done s' o r := by
    intro retry
    unfold rxSyncNext rxSyncEnter
    split
    · simp
    · split <;> simp
  cases hpc : s.pc with
  | sync retry =>
    rw [hpc] at h
    simp only [rxStartRecv] at h
    split at h
    · split at h
      · simp at h
      · split at h
        · simp at h
        · split at h
          · simp only [Step.done.injEq] at h
            obtain ⟨h1, -, h3⟩ := h
            subst h1
            exact Or.inl h3.symm
          · split at h
            · simp at h
            · exact absurd h (hnext _)
    · exact absurd h (hnext _)
  | syncCan retry =>
    rw [hpc] at h
    simp only [] at h
    split at h
    · simp at h
    · exact absurd h (hnext _)
  | recv i =>
    rw [hpc] at h
    simp only [] at h
    by_cases hneg : c < 0
    · rw [if_pos hneg] at h
      simp at h
    · rw [if_neg hneg] at h
      by_cases hlt : i + 1 < s.bufsz + (if s.crc ≠ 0 then 1 else 0) + 3
      · rw [if_pos hlt] at h
        simp at h
      · rw [if_neg hlt] at h
        exact Or.inl (rxPacket_ret _ _ _ _ h)
  | flushCancel =>
    rw [hpc] at h
    simp only [] at h
    split at h
    · simp at h
    · simp only [Step.done.injEq] at h
      right; omega
  | flushSync =>
    rw [hpc] at h
    simp only [] at h
    split at h
    · simp at h
    · simp only [Step.done.injEq] at h
      right; omega
  | flushRetrans =>
    rw [hpc] at h
    simp only [] at h
    split at h
    · simp at h
    · simp only [Step.done.injEq] at h
      right; omega
  | flushReject =>
    rw [hpc] at h
    simp only [rxSyncEnter] at h
    split at h <;> simp at h

theorem driveList_final {σ : Type} (step : σ → Int → Step σ) (P : σ → Prop)
    (Q : σ → Int → Prop) (hstep : ∀ s c, P s → P (step s c).state)
    (hfin : ∀ s c s' o r, P s → step s c = .done s' o r → Q s' r) :
    ∀ (reads : List Int) (st : Step σ) (x : σ × List Nat × Int),
      P st.state → (∀ s o r, st = .done s o r → Q s r) →
      driveList step st reads = some x → Q x.1 x.2.2 := by
  intro reads
  induction reads with
  | nil =>
    intro st x hP hQ h
    cases st with
    | more s0 out => simp [driveList] at h
    | done s0 out r =>
      simp only [driveList, Option.some.injEq] at h
      subst h
      exact hQ s0 out r rfl
  | cons c cs ih =>
    intro st x hP hQ h
    cases st with
    | more s0 out =>
      simp only [driveList, Option.map_eq_some'] at h
      obtain ⟨y, hy, hxy⟩ := h
      subst hxy
      exact ih (step s0 c) y (hstep s0 c hP) (fun s o r e => hfin s0 c s o r hP e) hy
    | done s0 out r =>
      simp only [driveList, Option.some.injEq] at h
      subst h
      exact hQ s0 out r rfl

/-! ## C6: truncation -/

/-- C6. In a data session (`destsz > 0`), in every run of `xmodemReceive`: when the receiver,
blocked at line 151, reads a whole packet that passes the acceptance test with `seq` equal to
the expected number, it writes ACK and nothing else, the sink receives exactly the first
`k = min(bufsz, destsz - len)` bytes of the data region (`k >= 0`), and `len` grows by `k`
and stays at most `destsz`. And whenever the call returns, the value returned and `len` are at
most `destsz`, and `len` is the number of bytes in the sink. -/
theorem truncation (destsz crc : Int) (reads : List Int) (s : RxState) (r : Nat)
    (pkt : List Nat) (hd : 0 < destsz)
    (hs : stepsTo rxStep (rxStart destsz crc) reads = some s) (hpc : s.pc = .sync r)
    (hb : ∀ b ∈ pkt, b < 256) (hlead : pkt.headD 0 = SOH ∨ pkt.headD 0 = STX)
    (hlen : pkt.length = rxPacketLen s.crc (rxBufszOf (pkt.headD 0)))
    (hacc : rxAccept (rxHolding s pkt) = true) (hseq : pkt.getD 1 0 = s.packetno) :
    (∃ (s' : RxState) (k : Nat),
      feed rxStep (.more s []) (asReads pkt) = .more s' [ACK] ∧
      (k : Int) = min (rxBufszOf (pkt.headD 0) : Int) (destsz - s.len) ∧
      s'.sink = s.sink ++ ((pkt.drop 3).take (rxBufszOf (pkt.headD 0))).take k ∧
      s'.len = s.len + k ∧ s'.len ≤ destsz ∧ s'.pc = .sync 0) ∧
    (∀ (reads2 : List Int) (timeouts : Nat) (x : RxState × List Nat × Int),
      xmodemReceive destsz crc reads2 timeouts = some x →
      x.2.2 ≤ destsz ∧ x.1.len ≤ destsz ∧ (x.1.sink.length : Int) = x.1.len) := by
  have hinv : RxInv destsz s :=
    stepsTo_inv rxStep (RxInv destsz) (fun s c h => rxInv_step destsz s c h) reads _ s
      (rxInv_start destsz crc) hs
  obtain ⟨a1, a2, a3, a4, a5, -⟩ := hinv
  constructor
  · have hle := a4 hd
    have hcnt : rxCount (rxHolding s pkt)
        = min (rxBufszOf (pkt.headD 0) : Int) (destsz - s.len) := by
      unfold rxCount
      have hne : s.destsz ≠ 0 := by omega
      simp only [rxHolding, hne, ne_eq, not_false_eq_true, if_true, a1]
      split <;> omega
    have hk0 : 0 ≤ rxCount (rxHolding s pkt) := by
      rw [hcnt]
      have : (0 : Int) ≤ (rxBufszOf (pkt.headD 0) : Int) := by omega
      omega
    refine ⟨{ rxDeliver (rxHolding s pkt) with retrans := MAXRETRANS + 1 - 1, pc := .sync 0 },
      (rxCount (rxHolding s pkt)).toNat, ?_, ?_, ?_, ?_, ?_, rfl⟩
    · rw [rx_feed_packet s r pkt hpc hb hlead hlen]
      exact rx_accept_new _ hacc hseq rfl (by show s.destsz ≠ 0; omega)
    · rw [← hcnt]
      omega
    · show (rxDeliver (rxHolding s pkt)).sink = _
      rw [rxDeliver_sink]
      have hkB : (rxCount (rxHolding s pkt)).toNat ≤ rxBufszOf (pkt.headD 0) := by
        have := rxCount_le (rxHolding s pkt)
        simp only [rxHolding] at this
        omega
      rw [List.take_take, Nat.min_eq_left hkB]
      split
      · rfl
      · rename_i hz
        have : (rxCount (rxHolding s pkt)).toNat = 0 := by omega
        rw [this]
        simp [rxHolding]
    · show (rxDeliver (rxHolding s pkt)).len = _
      rw [rxDeliver_len]
      split
      · show s.len + _ = _
        omega
      · show s.len = _
        omega
    · show (rxDeliver (rxHolding s pkt)).len ≤ destsz
      rw [rxDeliver_len]
      split
      · show s.len + _ ≤ _
        rw [hcnt]
        omega
      · exact hle
  · intro reads2 timeouts x hx
    have hfin := driveList_final rxStep (RxInv destsz)
      (fun s r => (r = s.len ∨ r < 0) ∧ RxInv destsz s)
      (fun s c h => rxInv_step destsz s c h)
      (fun s c s' o r hP e => ⟨rx_ret s c s' o r e, by
        have := rxInv_step destsz s c hP
        rw [e] at this
        exact this⟩)
      _ _ x (rxInv_start destsz crc) (by intro s o r e; simp [rxStart, rxSyncEnter] at e) hx
    obtain ⟨h1, b1, b2, b3, b4, -⟩ := hfin
    have := b4 hd
    refine ⟨?_, this, b3⟩
    rcases h1 with h | h <;> omega

/-! ## Runs that return -/

theorem feed_done {σ : Type} (step : σ → Int → Step σ) (s : σ) (o : List Nat) (r : Int)
    (cs : List Int) : feed step (.done s o r) cs = .done s o r := by
  cases cs <;> rfl

theorem feed_append_done {σ : Type} (step : σ → Int → Step σ) :
    ∀ (a : List Int) (st : Step σ) (s : σ) (o : List Nat) (r : Int) (b : List Int),
      feed step st a = .done s o r → feed step st (a ++ b) = .done s o r := by
  intro a
  induction a with
  | nil =>
    intro st s o r b h
    rw [feed_nil] at h
    rw [h, List.nil_append, feed_done]
  | cons c cs ih =>
    intro st s o r b h
    cases st with
    | more s0 o0 =>
      simp only [feed] at h
      rw [List.cons_append]
      simp only [feed]
      cases hrest : feed step (step s0 c) cs with
      | more s1 o1 =>
        rw [hrest] at h
        simp [Step.prepend] at h
      | done s1 o1 r1 =>
        rw [ih (step s0 c) s1 o1 r1 b hrest]
        rw [hrest] at h
        exact h
    | done s0 o0 r0 =>
      rw [feed_done] at h ⊢
      exact h

theorem driveList_eq_feed {σ : Type} (step : σ → Int → Step σ) :
    ∀ (reads : List Int) (st : Step σ) (s : σ) (o : List Nat) (r : Int),
      feed step st reads = .done s o r → driveList step st reads = some (s, o, r) := by
  intro reads
  induction reads with
  | nil =>
    intro st s o r h
    rw [feed_nil] at h
    rw [h]
    rfl
  | cons c cs ih =>
    intro st s o r h
    cases st with
    | more s0 o0 =>
      simp only [feed] at h
      simp only [driveList]
      cases hrest : feed step (step s0 c) cs with
      | more s1 o1 =>
        rw [hrest] at h
        simp [Step.prepend] at h
      | done s1 o1 r1 =>
        rw [ih (step s0 c) s1 o1 r1 hrest]
        rw [hrest] at h
        simp only [Step.prepend, Step.done.injEq] at h
        obtain ⟨h1, h2, h3⟩ := h
        subst h1 h2 h3
        rfl
    | done s0 o0 r0 =>
      rw [feed_done] at h
      simp only [Step.done.injEq] at h
      obtain ⟨h1, h2, h3⟩ := h
      subst h1 h2 h3
      rfl

/-! ## The sync character and the integrity mode of the receiver -/

theorem driveList_append_done {σ : Type} (step : σ → Int → Step σ) (a b : List Int)
    (st : Step σ) (s : σ) (o : List Nat) (r : Int) (h : feed step st a = .done s o r) :
    driveList step st (a ++ b) = some (s, o, r) :=
  driveList_eq_feed step (a ++ b) st s o r (feed_append_done step a st s o r b h)

theorem rxPacket_crc_trychar (q : RxState) :
    (rxPacket q).state.crc = q.crc ∧ (rxPacket q).state.trychar = q.trychar := by
  have hsel : ∀ q1 : RxState, q1 = (if q.xbuff.getD 1 0 = q.packetno then rxDeliver q else q) →
      q1.crc = q.crc ∧ q1.trychar = q.trychar := by
    intro q1 e
    by_cases hb : q.xbuff.getD 1 0 = q.packetno
    · rw [if_pos hb] at e
      rw [e]
      exact ⟨rxDeliver_crc q, rxDeliver_trychar q⟩
    · rw [if_neg hb] at e
      rw [e]
      exact ⟨rfl, rfl⟩
  unfold rxPacket rxSyncEnter
  split
  · have h1 := hsel _ rfl
    generalize (if q.xbuff.getD 1 0 = q.packetno then rxDeliver q else q) = q1 at h1
    simp only []
    split
    · exact h1
    · split <;> exact h1
  · exact ⟨rfl, rfl⟩

theorem rxSyncNext_fields (s : RxState) (retry : Nat) :
    ((rxSyncNext s retry).state.crc = s.crc ∧ (rxSyncNext s retry).state.trychar = s.trychar) ∨
    (s.trychar = CHR_C ∧ 15 ≤ retry ∧ (rxSyncNext s retry).state.crc = 0 ∧
      (rxSyncNext s retry).state.trychar = NAK) := by
  unfold rxSyncNext rxSyncEnter
  by_cases h1 : retry + 1 < 16
  · rw [if_pos h1]
    exact Or.inl ⟨rfl, rfl⟩
  · rw [if_neg h1]
    by_cases h2 : s.trychar = CHR_C
    · rw [if_pos h2]
      exact Or.inr ⟨h2, by omega, rfl, rfl⟩
    · rw [if_neg h2]
      exact Or.inl ⟨rfl, rfl⟩

/-- Along one step of the receiver, `crc` and `trychar` stay as they are, or the packet
leader arrives and `trychar` becomes 0, or the downgrade of line 176 happens. -/
theorem rxStep_fields (s : RxState) (c : Int) :
    ((rxStep s c).state.crc = s.crc ∧
      ((rxStep s c).state.trychar = s.trychar ∨ (rxStep s c).state.trychar = 0)) ∨
    (s.trychar = CHR_C ∧ (∃ r, 15 ≤ r ∧ (s.pc = .sync r ∨ s.pc = .syncCan r)) ∧
      (rxStep s c).state.crc = 0 ∧ (rxStep s c).state.trychar = NAK) := by
  have hnext : ∀ retry, (s.pc = .sync retry ∨ s.pc = .syncCan retry) →
      ((rxSyncNext s retry).state.crc = s.crc ∧
        ((rxSyncNext s retry).state.trychar = s.trychar ∨
          (rxSyncNext s retry).state.trychar = 0)) ∨
      (s.trychar = CHR_C ∧ (∃ r, 15 ≤ r ∧ (s.pc = .sync r ∨ s.pc = .syncCan r)) ∧
        (rxSyncNext s retry).state.crc = 0 ∧ (rxSyncNext s retry).state.trychar = NAK) := by
    intro retry hp
    rcases rxSyncNext_fields s retry with h | h
    · exact Or.inl ⟨h.1, Or.inl h.2⟩
    · exact Or.inr ⟨h.1, ⟨retry, h.2.1, hp⟩, h.2.2⟩
  unfold rxStep
  cases hpc : s.pc with
  | sync retry =>
    simp only []
    have hn := hnext retry (Or.inl hpc)
    rw [hpc] at hn
    split
    · split
      · exact Or.inl ⟨rfl, Or.inr rfl⟩
      · split
        · exact Or.inl ⟨rfl, Or.inr rfl⟩
        · split
          · exact Or.inl ⟨rfl, Or.inl rfl⟩
          · split
            · exact Or.inl ⟨rfl, Or.inl rfl⟩
            · exact hn
    · exact hn
  | syncCan retry =>
    simp only []
    have hn := hnext retry (Or.inr hpc)
    rw [hpc] at hn
    split
    · exact Or.inl ⟨rfl, Or.inl rfl⟩
    · exact hn
  | recv i =>
    simp only []
    by_cases hneg : c < 0
    · rw [if_pos hneg]
      exact Or.inl ⟨rfl, Or.inl rfl⟩
    · rw [if_neg hneg]
      by_cases hlt : i + 1 < s.bufsz + (if s.crc ≠ 0 then 1 else 0) + 3
      · rw [if_pos hlt]
        exact Or.inl ⟨rfl, Or.inl rfl⟩
      · rw [if_neg hlt]
        exact Or.inl ⟨(rxPacket_crc_trychar _).1, Or.inl (rxPacket_crc_trychar _).2⟩
  | flushCancel =>
    simp only []
    split <;> exact Or.inl ⟨rfl, Or.inl rfl⟩
  | flushSync =>
    simp only []
    split <;> exact Or.inl ⟨rfl, Or.inl rfl⟩
  | flushRetrans =>
    simp only []
    split <;> exact Or.inl ⟨rfl, Or.inl rfl⟩
  | flushReject =>
    simp only []
    split <;> exact Or.inl ⟨rfl, Or.inl rfl⟩

/-- The receiver called with `crc != 0` on timeouts only: where it is after 15, 16 and 33 of
them. -/
theorem rx_timeouts_crc_states (destsz crc : Int) (hc : crc ≠ 0) :
    feed rxStep (rxStart destsz crc) (List.replicate 15 (-1))
      = .more { rxInit destsz crc with pc := .sync 15 } (List.replicate 16 CHR_C) ∧
    feed rxStep (rxStart destsz crc) (List.replicate 16 (-1))
      = .more { rxInit destsz crc with trychar := NAK, crc := 0 }
          (List.replicate 16 CHR_C ++ [NAK]) ∧
    feed rxStep (rxStart destsz crc) (List.replicate 33 (-1))
      = .done { rxInit destsz crc with trychar := NAK, crc := 0, pc := .flushSync }
          (List.replicate 16 CHR_C ++ List.replicate 16 NAK ++ [CAN, CAN, CAN]) (-2) := by
  have h0 : rxStart destsz crc
      = .more (⟨destsz, crc, CHR_C, if destsz ≠ 0 then 1 else 0, 0, MAXRETRANS, 0, [], [],
          .sync 0⟩ : RxState) [CHR_C] := by
    simp only [rxStart, rxSyncEnter, rxInit, hc, ne_eq, not_false_eq_true, if_true]
    rfl
  have h1 : rxInit destsz crc
      = (⟨destsz, crc, CHR_C, if destsz ≠ 0 then 1 else 0, 0, MAXRETRANS, 0, [], [],
          .sync 0⟩ : RxState) := by
    simp only [rxInit, hc, ne_eq, not_false_eq_true, if_true]
  rw [h0, h1]
  exact ⟨rfl, rfl, rfl⟩

theorem rx_timeouts_cks_states (destsz : Int) :
    feed rxStep (rxStart destsz 0) (List.replicate 17 (-1))
      = .done { rxInit destsz 0 with pc := .flushSync }
          (List.replicate 16 NAK ++ [CAN, CAN, CAN]) (-2) := rfl

/-- In every state a run of `xmodemReceive(.., crc)` is blocked in, `crc` is the argument, or
it is 0 and the sync character is no longer the letter C. -/
theorem rx_crc_run (destsz crc : Int) (reads : List Int) (s : RxState)
    (hs : stepsTo rxStep (rxStart destsz crc) reads = some s) :
    s.crc = crc ∨ (s.crc = 0 ∧ s.trychar ≠ CHR_C) := by
  refine stepsTo_inv rxStep (fun q => q.crc = crc ∨ (q.crc = 0 ∧ q.trychar ≠ CHR_C)) ?_
    reads (rxStart destsz crc) s (Or.inl rfl) hs
  intro q c hq
  have hN : NAK ≠ CHR_C := by decide
  have h0 : (0 : Nat) ≠ CHR_C := by decide
  rcases rxStep_fields q c with ⟨e1, e2⟩ | ⟨e1, -, e3, e4⟩
  · rcases hq with hq | ⟨hq1, hq2⟩
    · left
      rw [e1, hq]
    · right
      refine ⟨by rw [e1, hq1], ?_⟩
      rcases e2 with e2 | e2
      · rw [e2]; exact hq2
      · rw [e2]; exact h0
  · right
    exact ⟨e3, by rw [e4]; exact hN⟩

/-- The downgrade of line 176: a timeout in the sixteenth (or a later) iteration of the loop
of line 149 while the sync character is the letter C. -/
theorem rx_downgrade_step (s : RxState) (r : Nat) (c : Int) (hpc : s.pc = .sync r)
    (hr : 15 ≤ r) (htry : s.trychar = CHR_C) (hc : c < 0) :
    rxStep s c = .more { s with trychar := NAK, crc := 0, pc := .sync 0 } [NAK] := by
  have hc' : ¬ (c ≥ 0) := by omega
  have hr' : ¬ (r + 1 < 16) := by omega
  unfold rxStep
  rw [hpc]
  simp only [hc', if_false, rxSyncNext, hr', htry, if_true, rxSyncEnter]
  rfl

/-! ## C10: remote cancellation -/

theorem tx_flush (q : TxState) (r : Int) (hpc : q.pc = .flush r) :
    ∀ junk : List Int, (∀ x ∈ junk, (0 : Int) ≤ x) → feed txStep (.more q []) junk = .more q [] := by
  intro junk
  induction junk with
  | nil => intro _; rfl
  | cons x xs ih =>
    intro h
    have hx : x ≥ 0 := h x (List.mem_cons_self _ _)
    rw [feed_cons]
    have : txStep q x = .more q [] := by
      unfold txStep
      rw [hpc]
      simp only [hx, if_true]
    rw [this]
    exact ih (fun y hy => h y (List.mem_cons_of_mem _ hy))

theorem tx_flush_return (q : TxState) (r : Int) (hpc : q.pc = .flush r) (o : List Nat)
    (junk : List Int) (t : Int) (rest : List Int) (hjunk : ∀ x ∈ junk, (0 : Int) ≤ x)
    (ht : t < 0) : feed txStep (.more q o) (junk ++ t :: rest) = .done q o r := by
  rw [feed_more_eq, feed_append txStep junk _ q [] (t :: rest) (tx_flush q r hpc junk hjunk),
    prepend_nil, feed_cons]
  have ht' : ¬ (t ≥ 0) := by omega
  have : txStep q t = .done q [] r := by
    unfold txStep
    rw [hpc]
    simp only [ht', if_false]
  rw [this, feed_done]
  simp [Step.prepend]

theorem loopStep_rx (t : Side TxState) (q : RxState) (b : Nat) (bs : List Nat) :
    loopStep ⟨t, .blocked q, [], b :: bs⟩
      = ⟨t, (rxStep q b).side, (rxStep q b).out, bs⟩ := by
  cases t <;> simp [loopStep, Loop.rxAct]

theorem loopStep_tx (t : TxState) (r : Side RxState) (b : Nat) (bs toRx : List Nat) :
    loopStep ⟨.blocked t, r, b :: bs, toRx⟩
      = ⟨(txStep t b).side, r, bs, toRx ++ (txStep t b).out⟩ := by
  simp [loopStep, Loop.txAct]

theorem loopStep_returned (tf : TxState) (tr : Int) (rf : RxState) (rr : Int)
    (a b : List Nat) :
    loopStep ⟨.returned tf tr, .returned rf rr, a, b⟩
      = ⟨.returned tf tr, .returned rf rr, a, b⟩ := by
  cases a <;> cases b <;> simp [loopStep]

theorem loop_returned_iter (tf : TxState) (tr : Int) (rf : RxState) (rr : Int)
    (a b : List Nat) (k : Nat) :
    loopStep^[k] ⟨.returned tf tr, .returned rf rr, a, b⟩
      = ⟨.returned tf tr, .returned rf rr, a, b⟩ := by
  induction k with
  | zero => rfl
  | succ k ih => rw [Function.iterate_succ_apply, loopStep_returned, ih]

theorem loop_recv (t : Side TxState) (rest : List Nat) :
    ∀ (bs : List Nat) (q : RxState) (i : Nat),
      bs ≠ [] → (∀ b ∈ bs, b < 256) → q.pc = .recv i →
      i + bs.length = q.bufsz + (if q.crc ≠ 0 then 1 else 0) + 3 →
      loopStep^[bs.length] ⟨t, .blocked q, [], bs ++ rest⟩
        = ⟨t, (rxPacket { q with xbuff := q.xbuff ++ bs,
                                 pc := .recv (i + bs.length - 1) }).side,
            (rxPacket { q with xbuff := q.xbuff ++ bs,
                               pc := .recv (i + bs.length - 1) }).out, rest⟩ := by
  intro bs
  induction bs with
  | nil => intro q i h; exact absurd rfl h
  | cons b rest2 ih =>
    intro q i _ hb hpc hlen
    have hb0 : b < 256 := hb b (List.mem_cons_self _ _)
    have hc : ¬ ((b : Int) < 0) := by omega
    obtain ⟨qdestsz, qcrc, qtrychar, qpacketno, qlen, qretrans, qbufsz, qxbuff, qsink, qpc⟩ := q
    simp only [] at hpc hlen
    subst hpc
    rw [List.length_cons, Function.iterate_succ_apply, List.cons_append, loopStep_rx]
    cases rest2 with
    | nil =>
      simp only [List.length_cons, List.length_nil] at hlen
      have hlast : ¬ (i + 1 < qbufsz + (if qcrc ≠ 0 then 1 else 0) + 3) := by omega
      simp only [rxStep, hc, if_false, hlast, toNat_byte b hb0, List.length_nil,
        Function.iterate_zero, id_eq, List.nil_append]
      rfl
    | cons b2 rest3 =>
      simp only [List.length_cons] at hlen
      have hnext : i + 1 < qbufsz + (if qcrc ≠ 0 then 1 else 0) + 3 := by omega
      have ih2 := ih (⟨qdestsz, qcrc, qtrychar, qpacketno, qlen, qretrans, qbufsz,
        qxbuff ++ [b], qsink, .recv (i + 1)⟩ : RxState) (i + 1) (by simp)
        (fun x hx => hb x (List.mem_cons_of_mem _ hx)) rfl
        (by simp only [List.length_cons]; omega)
      simp only [List.append_assoc, List.singleton_append, List.length_cons] at ih2
      have e : i + (rest3.length + 1 + 1) - 1 = i + 1 + (rest3.length + 1) - 1 := by omega
      simp only [List.length_cons, e]
      rw [← ih2]
      simp only [rxStep, hc, if_false, hnext, if_true, toNat_byte b hb0, Step.side, Step.out]

/-- The receiver, blocked at line 151 with nothing in flight towards the transmitter, reads
a whole packet from the bytes in flight. -/
theorem loop_rx_packet (t : Side TxState) (rest : List Nat) (s : RxState) (r : Nat)
    (pkt : List Nat) (hpc : s.pc = .sync r) (hb : ∀ b ∈ pkt, b < 256)
    (hlead : pkt.headD 0 = SOH ∨ pkt.headD 0 = STX)
    (hlen : pkt.length = rxPacketLen s.crc (rxBufszOf (pkt.headD 0))) :
    loopStep^[pkt.length] ⟨t, .blocked s, [], pkt ++ rest⟩
      = ⟨t, (rxPacket (rxHolding s pkt)).side, (rxPacket (rxHolding s pkt)).out, rest⟩ := by
  cases pkt with
  | nil => simp [rxPacketLen] at hlen
  | cons l rest2 =>
    simp only [List.headD_cons] at hlead hlen
    have hl0 : l < 256 := hb l (List.mem_cons_self _ _)
    have hrest : rest2 ≠ [] := by
      intro h
      rw [h] at hlen
      simp [rxPacketLen] at hlen
    obtain ⟨qdestsz, qcrc, qtrychar, qpacketno, qlen, qretrans, qbufsz, qxbuff, qsink, qpc⟩ := s
    simp only [] at hpc hlen
    subst hpc
    have hstart : rxStep (⟨qdestsz, qcrc, qtrychar, qpacketno, qlen, qretrans, qbufsz, qxbuff,
        qsink, .sync r⟩ : RxState) (l : Int)
        = .more (⟨qdestsz, qcrc, 0, qpacketno, qlen, qretrans, rxBufszOf l, [l], qsink,
            .recv 0⟩ : RxState) [] := by
      have hc : (l : Int) ≥ 0 := by omega
      rcases hlead with h | h
      · subst h
        simp only [rxStep, hc, if_true, rxStartRecv, rxBufszOf]
        rfl
      · subst h
        have hne : ¬ ((STX : Int) = (SOH : Int)) := by decide
        simp only [rxStep, hc, if_true, hne, if_false, rxStartRecv, rxBufszOf]
        rfl
    have hloop := loop_recv t rest rest2 (⟨qdestsz, qcrc, 0, qpacketno, qlen, qretrans,
      rxBufszOf l, [l], qsink, .recv 0⟩ : RxState) 0 hrest
      (fun x hx => hb x (List.mem_cons_of_mem _ hx))
      rfl (by simp only [rxPacketLen, List.length_cons] at hlen ⊢; omega)
    rw [List.length_cons, Function.iterate_succ_apply, List.cons_append, loopStep_rx, hstart]
    simp only [Step.side, Step.out]
    rw [hloop]
    simp only [rxHolding, List.headD_cons, List.singleton_append]
    have e : 0 + rest2.length - 1 = rxBufszOf l + (if qcrc ≠ 0 then 1 else 0) + 2 := by
      simp only [rxPacketLen, List.length_cons] at hlen
      omega
    rw [e]
    rfl

/-! ## What the transmitter sends -/

theorem cks_loop_lt (buf : List Nat) (n c : Nat) (hc : c < 256) : cks_loop buf n c < 256 := by
  induction n generalizing buf c with
  | zero => exact hc
  | succ n ih => exact ih _ _ (Nat.mod_lt _ (by norm_num))

theorem txFetch_bytes (src : List Nat) (len : Int) (c : Nat) (hb : ∀ b ∈ src, b < 256) :
    ∀ b ∈ txFetch src len c, b < 256 := by
  intro b hbm
  simp only [txFetch, List.mem_map] at hbm
  obtain ⟨i, -, hi⟩ := hbm
  rw [← hi]
  exact getD_lt_256 src _ hb

theorem txData_bytes (src : List Nat) (len : Int) (bufsz : Nat) (binary c : Int)
    (hb : ∀ b ∈ src, b < 256) : ∀ b ∈ txData src len bufsz binary c, b < 256 := by
  have hrep : ∀ b ∈ List.replicate bufsz 0, b < 256 := by
    intro b hbm
    rw [List.eq_of_mem_replicate hbm]
    norm_num
  have hreg : ∀ b ∈ txFetch src len c.toNat ++ List.drop c.toNat (List.replicate bufsz 0),
      b < 256 := by
    intro b hbm
    rcases List.mem_append.mp hbm with h | h
    · exact txFetch_bytes src len _ hb b h
    · exact hrep b (List.mem_of_mem_drop h)
  have hz : CTRLZ < 256 := by decide
  intro b hbm
  unfold txData at hbm
  simp only [] at hbm
  split at hbm
  · rcases List.mem_or_eq_of_mem_set hbm with h | h
    · exact hrep b h
    · rw [h]; exact hz
  · split at hbm
    · rcases List.mem_or_eq_of_mem_set hbm with h | h
      · exact hreg b h
      · rw [h]; exact hz
    · exact hreg b hbm

theorem txTrailer_bytes (crc : Int) (data : List Nat) (bufsz : Nat) :
    ∀ b ∈ txTrailer crc data bufsz, b < 256 := by
  intro b hbm
  unfold txTrailer at hbm
  split at hbm
  · simp only [List.mem_cons, List.mem_singleton, List.not_mem_nil, or_false] at hbm
    rcases hbm with h | h <;> rw [h] <;> exact Nat.mod_lt _ (by norm_num)
  · simp only [List.mem_singleton] at hbm
    rw [hbm]
    exact cks_loop_lt _ _ _ (by norm_num)

theorem txPacket_bytes (src : List Nat) (len : Int) (leader bufsz packetno : Nat)
    (binary crc c : Int) (hb : ∀ b ∈ src, b < 256) (hl : leader < 256) (hp : packetno < 256) :
    ∀ b ∈ txPacket src len leader bufsz packetno binary crc c, b < 256 := by
  intro b hbm
  unfold txPacket at hbm
  simp only [List.cons_append, List.nil_append, List.mem_cons, List.mem_append] at hbm
  rcases hbm with h | h | h | h | h
  · rw [h]; exact hl
  · rw [h]; exact hp
  · rw [h, bnot8_eq _ hp]; omega
  · exact txData_bytes src len bufsz binary c hb b h
  · exact txTrailer_bytes _ _ _ b h

theorem txLeader_cases (s : TxState) :
    (txLeader s = SOH ∧ txBufsz s = 128) ∨ (txLeader s = STX ∧ txBufsz s = 1024) := by
  unfold txLeader txBufsz
  cases txBig s
  · left; exact ⟨rfl, rfl⟩
  · right; exact ⟨rfl, rfl⟩

theorem rxBufszOf_txLeader (s : TxState) : rxBufszOf (txLeader s) = txBufsz s := by
  rcases txLeader_cases s with ⟨h1, h2⟩ | ⟨h1, h2⟩ <;> rw [h1, h2] <;> rfl

theorem txPacket_headD (src : List Nat) (len : Int) (leader bufsz packetno : Nat)
    (binary crc c : Int) :
    (txPacket src len leader bufsz packetno binary crc c).headD 0 = leader := rfl

theorem tx_start_packet (s : TxState)
    (h : txCount s > 0 ∨ (s.binary = 0 ∧ txCount s = 0)) :
    txStartTrans s
      = .more { s with bufsz := txBufsz s,
                       xbuff := txPacket s.src s.len (txLeader s) (txBufsz s) s.packetno s.binary s.crc (txCount s),
                       pc := .reply 0 }
          (txPacket s.src s.len (txLeader s) (txBufsz s) s.packetno s.binary s.crc (txCount s)) := by
  unfold txStartTrans txSend
  simp only [h, if_true]
  congr 1
  apply List.take_of_length_le
  rw [txPacket_length _ _ _ _ _ _ _ _ (txCount_le s)]

theorem tx_start_eot (s : TxState)
    (h : ¬ (txCount s > 0 ∨ (s.binary = 0 ∧ txCount s = 0))) (hs : s.srcsz ≠ 0) :
    txStartTrans s = .more { s with bufsz := txBufsz s, pc := .eot 0 } [EOT] := by
  unfold txStartTrans
  simp only [h, if_false, hs, ne_eq, not_false_eq_true, if_true]

theorem txCount_data (s : TxState) (hs : s.srcsz ≠ 0) :
    txCount s = min (txBufsz s : Int) (s.srcsz - s.len) := by
  unfold txCount
  simp only [hs, ne_eq, not_false_eq_true, if_true]
  split <;> omega

/-! ## The loop-back, block by block -/

theorem loop_finish (source : List Nat) (T0 : TxState) (R : RxState) (r : Nat)
    (hne : ¬ (txCount T0 > 0 ∨ (T0.binary = 0 ∧ txCount T0 = 0))) (hs0 : T0.srcsz ≠ 0)
    (hpc : R.pc = .sync r) (hlen : R.len = source.length) (hsink : R.sink = source) :
    ∃ (N : Nat) (tf : TxState) (tr : Int) (rf : RxState),
      loopStep^[N] ⟨(txStartTrans T0).side, .blocked R, [], (txStartTrans T0).out⟩
        = ⟨.returned tf tr, .returned rf source.length, [], []⟩ ∧ rf.sink = source := by
  rw [tx_start_eot T0 hne hs0]
  have h1 : rxStep R (EOT : Int) = .done R [ACK] R.len := by
    unfold rxStep
    rw [hpc]
    rfl
  refine ⟨2, { T0 with bufsz := txBufsz T0, pc := .eot 0 }, T0.len, R, ?_, hsink⟩
  show loopStep (loopStep ⟨.blocked _, .blocked R, [], [EOT]⟩) = _
  rw [loopStep_rx, h1]
  simp only [Step.side, Step.out]
  rw [loopStep_tx]
  have h2 : txStep { T0 with bufsz := txBufsz T0, pc := .eot 0 } (ACK : Int)
      = .done { T0 with bufsz := txBufsz T0, pc := .eot 0 } [] T0.len := rfl
  rw [h2, hlen]
  rfl


/-- One block of the loop-back: the transmitter at `start_trans` with data to send, the
receiver at line 151 with nothing in flight. After the packet and its ACK have been read the
transmitter is at `start_trans` again, one block further. -/
theorem loop_block (source : List Nat) (hb : ∀ b ∈ source, b < 256) (T0 : TxState)
    (R : RxState) (r : Nat) (hsrc : T0.src = source) (hsz : T0.srcsz = source.length)
    (hL : 0 ≤ T0.len) (hp : T0.packetno < 256) (hdst : R.destsz = source.length)
    (hpk : R.packetno = T0.packetno) (hmode : R.crc ≠ 0 ↔ T0.crc ≠ 0) (hpc : R.pc = .sync r)
    (hlen : R.len = min T0.len source.length)
    (hsink : R.sink = source.take (min T0.len (source.length : Int)).toNat)
    (hn : 0 < source.length)
    (hsend : txCount T0 > 0 ∨ (T0.binary = 0 ∧ txCount T0 = 0)) :
    ∃ (k : Nat) (T1 : TxState) (R1 : RxState),
      loopStep^[k] ⟨(txStartTrans T0).side, .blocked R, [], (txStartTrans T0).out⟩
        = ⟨(txStartTrans T1).side, .blocked R1, [], (txStartTrans T1).out⟩ ∧
      T0.len ≤ source.length ∧ T1.len ≥ T0.len + 128 ∧
      T1.src = source ∧ T1.srcsz = source.length ∧ T1.packetno < 256 ∧
      R1.destsz = source.length ∧ R1.packetno = T1.packetno ∧ (R1.crc ≠ 0 ↔ T1.crc ≠ 0) ∧
      R1.pc = .sync 0 ∧ R1.len = min T1.len source.length ∧
      R1.sink = source.take (min T1.len (source.length : Int)).toNat := by
  have hs0 : T0.srcsz ≠ 0 := by clear * - hsz hn; omega
  have hcnt := txCount_data T0 hs0
  have hB := txLeader_cases T0
  have hBpos : (128 : Int) ≤ txBufsz T0 := by
    clear * - hB
    rcases hB with ⟨-, h2⟩ | ⟨-, h2⟩ <;> omega
  have hc0 : 0 ≤ txCount T0 := by clear * - hsend; omega
  have hLn : T0.len ≤ source.length := by clear * - hc0 hcnt hBpos hsz; omega
  have hRlen : R.len = T0.len := by clear * - hlen hLn; omega
  have hl256 : txLeader T0 < 256 := by
    rcases hB with ⟨h1, -⟩ | ⟨h1, -⟩ <;> rw [h1] <;> decide
  generalize hPKT : txPacket T0.src T0.len (txLeader T0) (txBufsz T0) T0.packetno T0.binary
    T0.crc (txCount T0) = PKT
  have hbytes : ∀ b ∈ PKT, b < 256 := by
    rw [← hPKT]
    exact txPacket_bytes _ _ _ _ _ _ _ _ (hsrc ▸ hb) hl256 hp
  have hhead : PKT.headD 0 = txLeader T0 := by rw [← hPKT]; rfl
  have hlead : PKT.headD 0 = SOH ∨ PKT.headD 0 = STX := by
    rw [hhead]
    rcases hB with ⟨h1, -⟩ | ⟨h1, -⟩
    · exact Or.inl h1
    · exact Or.inr h1
  have hplen : PKT.length = rxPacketLen R.crc (rxBufszOf (PKT.headD 0)) := by
    rw [hhead, rxBufszOf_txLeader, ← hPKT, txPacket_length _ _ _ _ _ _ _ _ (txCount_le T0)]
    unfold rxPacketLen
    by_cases hcr : R.crc ≠ 0
    · have := hmode.mp hcr
      simp only [hcr, this, ne_eq, not_false_eq_true, if_true]
    · have : ¬ (T0.crc ≠ 0) := fun h => hcr (hmode.mpr h)
      simp only [hcr, this, if_false]
  have hacc := txPacket_accept T0.src T0.len (txLeader T0) (txBufsz T0) T0.packetno
    T0.binary T0.crc (txCount T0) (rxHolding R PKT) hp (txCount_le T0) hmode hpk
    (by show rxBufszOf (PKT.headD 0) = _; rw [hhead, rxBufszOf_txLeader])
    (by rw [hPKT]; rfl)
  obtain ⟨-, hseq, -, hok, hdata⟩ := hacc
  have hd0 : (rxHolding R PKT).destsz ≠ 0 := by
    show R.destsz ≠ 0
    clear * - hdst hn
    omega
  have hnew := rx_accept_new (rxHolding R PKT) hok hseq rfl hd0
  have hrc : rxCount (rxHolding R PKT) = txCount T0 := by
    unfold rxCount
    have e1 : (rxHolding R PKT).destsz = source.length := hdst
    have e2 : (rxHolding R PKT).bufsz = txBufsz T0 := by
      show rxBufszOf (PKT.headD 0) = _
      rw [hhead, rxBufszOf_txLeader]
    have e3 : (rxHolding R PKT).len = T0.len := hRlen
    rw [e1, e2, e3, hcnt, hsz]
    have : (source.length : Int) ≠ 0 := by clear * - hn; omega
    simp only [this, ne_eq, not_false_eq_true, if_true]
    clear * -
    split <;> omega
  have hfetch : txFetch T0.src T0.len (txCount T0).toNat
      = (source.drop T0.len.toNat).take (txCount T0).toNat := by
    rw [hsrc]
    apply txFetch_eq
    clear * - hcnt hsz hL hc0 hLn
    omega
  have hrx := loop_rx_packet
    (.blocked { T0 with bufsz := txBufsz T0, xbuff := PKT, pc := .reply 0 }) [] R r PKT hpc
    hbytes hlead hplen
  rw [List.append_nil] at hrx
  have hack : txStep { T0 with bufsz := txBufsz T0, xbuff := PKT, pc := .reply 0 } (ACK : Int)
      = txStartTrans { T0 with bufsz := txBufsz T0, xbuff := PKT, pc := .reply 0,
                               packetno := (T0.packetno + 1) % 256,
                               len := T0.len + (txBufsz T0 : Nat) } := rfl
  have hlenR : (rxDeliver (rxHolding R PKT)).len
      = min (T0.len + (txBufsz T0 : Nat)) (source.length : Int) := by
    rw [rxDeliver_len, hrc]
    have e3 : (rxHolding R PKT).len = T0.len := hRlen
    rw [e3]
    clear * - hcnt hsz hL hc0 hLn hBpos
    split <;> omega
  have hsinkR : (rxDeliver (rxHolding R PKT)).sink
      = source.take (min (T0.len + (txBufsz T0 : Nat)) (source.length : Int)).toNat := by
    rw [rxDeliver_sink, hrc]
    have e4 : (rxHolding R PKT).sink = R.sink := rfl
    rw [e4, hsink]
    have e5 : (min T0.len (source.length : Int)).toNat = T0.len.toNat := by
      congr 1
      clear * - hLn
      omega
    rw [e5]
    split
    · show _ ++ ((rxHolding R PKT).xbuff.drop 3).take _ = _
      rw [hdata, hfetch]
      have e6 : (min (T0.len + (txBufsz T0 : Nat)) (source.length : Int)).toNat
          = T0.len.toNat + (txCount T0).toNat := by
        clear * - hcnt hsz hL hc0 hLn hBpos
        omega
      rw [e6, List.take_add]
    · rename_i hz
      have e6 : (min (T0.len + (txBufsz T0 : Nat)) (source.length : Int)).toNat
          = T0.len.toNat := by
        clear * - hcnt hsz hL hc0 hLn hBpos hz
        omega
      rw [e6]
  have hpkR : (rxDeliver (rxHolding R PKT)).packetno = (T0.packetno + 1) % 256 := by
    rw [rxDeliver_packetno]
    show (R.packetno + 1) % 256 = _
    rw [hpk]
  have hcrcR : (rxDeliver (rxHolding R PKT)).crc ≠ 0 ↔ T0.crc ≠ 0 := by
    rw [rxDeliver_crc]
    exact hmode
  have hdstR : (rxDeliver (rxHolding R PKT)).destsz = source.length := by
    rw [rxDeliver_destsz]
    exact hdst
  refine ⟨1 + PKT.length,
    { T0 with bufsz := txBufsz T0, xbuff := PKT, pc := .reply 0,
              packetno := (T0.packetno + 1) % 256, len := T0.len + (txBufsz T0 : Nat) },
    { rxDeliver (rxHolding R PKT) with retrans := MAXRETRANS + 1 - 1, pc := .sync 0 },
    ?_, hLn, ?_, hsrc, hsz, Nat.mod_lt _ (by norm_num), hdstR, hpkR, hcrcR, rfl, hlenR, hsinkR⟩
  · rw [Function.iterate_add_apply, tx_start_packet T0 hsend, hPKT]
    simp only [Step.side, Step.out]
    rw [hrx, hnew]
    simp only [Step.side, Step.out, Function.iterate_one]
    rw [loopStep_tx, hack, List.nil_append]
    rfl
  · show T0.len + (txBufsz T0 : Nat) ≥ T0.len + 128
    clear * - hBpos
    omega

theorem loop_main (source : List Nat) (hb : ∀ b ∈ source, b < 256) (hn : 0 < source.length) :
    ∀ (d : Nat) (T0 : TxState) (R : RxState) (r : Nat),
      ((source.length : Int) + 1 - T0.len).toNat ≤ d →
      T0.src = source → T0.srcsz = source.length → 0 ≤ T0.len → T0.packetno < 256 →
      R.destsz = source.length → R.packetno = T0.packetno → (R.crc ≠ 0 ↔ T0.crc ≠ 0) →
      R.pc = .sync r → R.len = min T0.len source.length →
      R.sink = source.take (min T0.len (source.length : Int)).toNat →
      ∃ (N : Nat) (tf : TxState) (tr : Int) (rf : RxState),
        loopStep^[N] ⟨(txStartTrans T0).side, .blocked R, [], (txStartTrans T0).out⟩
          = ⟨.returned tf tr, .returned rf source.length, [], []⟩ ∧ rf.sink = source := by
  intro d
  induction d with
  | zero =>
    intro T0 R r hd hsrc hsz hL hp hdst hpk hmode hpc hlen hsink
    have hLn : (source.length : Int) < T0.len := by clear * - hd; omega
    have hs0 : T0.srcsz ≠ 0 := by clear * - hsz hn; omega
    have hcnt := txCount_data T0 hs0
    have hB := txLeader_cases T0
    have hne : ¬ (txCount T0 > 0 ∨ (T0.binary = 0 ∧ txCount T0 = 0)) := by
      clear * - hB hcnt hLn hsz
      rcases hB with ⟨-, h2⟩ | ⟨-, h2⟩ <;> omega
    exact loop_finish source T0 R r hne hs0 hpc (by clear * - hlen hLn; omega) (by
      rw [hsink]
      apply List.take_of_length_le
      clear * - hLn
      omega)
  | succ d ih =>
    intro T0 R r hd hsrc hsz hL hp hdst hpk hmode hpc hlen hsink
    have hs0 : T0.srcsz ≠ 0 := by clear * - hsz hn; omega
    have hcnt := txCount_data T0 hs0
    have hB := txLeader_cases T0
    by_cases hsend : txCount T0 > 0 ∨ (T0.binary = 0 ∧ txCount T0 = 0)
    · obtain ⟨k, T1, R1, hstep, hLn, hadv, h1, h2, h3, h4, h5, h6, h7, h8, h9⟩ :=
        loop_block source hb T0 R r hsrc hsz hL hp hdst hpk hmode hpc hlen hsink hn hsend
      obtain ⟨N', tf, tr, rf, hrun, hsk⟩ :=
        ih T1 R1 0 (by clear * - hd hLn hadv; omega) h1 h2 (by clear * - hL hadv; omega)
          h3 h4 h5 h6 h7 h8 h9
      refine ⟨N' + k, tf, tr, rf, ?_, hsk⟩
      rw [Function.iterate_add_apply, hstep]
      exact hrun
    · have hLn : (source.length : Int) ≤ T0.len := by
        clear * - hB hcnt hsend hsz
        rcases hB with ⟨-, h2⟩ | ⟨-, h2⟩ <;> omega
      exact loop_finish source T0 R r hsend hs0 hpc (by clear * - hlen hLn; omega) (by
        rw [hsink]
        apply List.take_of_length_le
        clear * - hLn
        omega)

theorem loop_after_sync (source : List Nat) (onek binary crc : Int) (k : Int)
    (hk : k = if crc ≠ 0 then 1 else 0) :
    loopStep (loopInit source source.length onek binary source.length crc)
      = ⟨(txStartTrans { txInit source source.length onek binary with crc := k }).side,
          .blocked (rxStart source.length crc).state, [],
          (txStartTrans { txInit source source.length onek binary with crc := k }).out⟩ := by
  by_cases hc : crc ≠ 0
  · have hk1 : k = 1 := by rw [hk, if_pos hc]
    subst hk1
    have hout : (rxStart source.length crc).out = [CHR_C] := by
      simp only [rxStart, rxSyncEnter, rxInit, hc, ne_eq, not_false_eq_true, if_true, Step.out]
      rfl
    unfold loopInit
    rw [hout]
    show loopStep ⟨.blocked (txInit source source.length onek binary),
      .blocked (rxStart source.length crc).state, [CHR_C], []⟩ = _
    rw [loopStep_tx]
    rfl
  · have hk0 : k = 0 := by rw [hk, if_neg hc]
    subst hk0
    have hout : (rxStart source.length crc).out = [NAK] := by
      simp only [rxStart, rxSyncEnter, rxInit, hc, if_false, Step.out]
      rfl
    unfold loopInit
    rw [hout]
    show loopStep ⟨.blocked (txInit source source.length onek binary),
      .blocked (rxStart source.length crc).state, [NAK], []⟩ = _
    rw [loopStep_tx]
    rfl

/-! ## C1: lossless loop-back round trip -/

/-- C1. For every source of `n > 0` bytes (with `n + 1024` within the range of a C `int`),
every `onek`, every `binary` and every `crc`: when `xmodemTransmit(source, n, onek, binary)`
and `xmodemReceive(sink, n, crc)` are connected back to back over a transport that loses and
alters nothing, then after finitely many reads both calls have returned, no byte is left in
flight, the receiver has returned exactly `n`, and the bytes delivered to the sink are the
source, byte for byte and in order; and nothing changes after that. -/
theorem loopback_round_trip (source : List Nat) (onek binary crc : Int)
    (hn : 0 < source.length) (hb : ∀ b ∈ source, b < 256)
    (hsmall : (source.length : Int) + 1024 ≤ 2147483647) :
    ∃ N : Nat, ∀ fuel : Nat, N ≤ fuel →
      ∃ (tf : TxState) (tr : Int) (rf : RxState),
        loopRun fuel source source.length onek binary source.length crc
          = ⟨.returned tf tr, .returned rf source.length, [], []⟩ ∧ rf.sink = source := by
  have _ := hsmall
  have hmain := loop_main source hb hn (source.length + 1)
    { txInit source source.length onek binary with crc := if crc ≠ 0 then 1 else 0 }
    (rxStart source.length crc).state 0
    (by show ((source.length : Int) + 1 - 0).toNat ≤ source.length + 1; omega)
    rfl rfl (le_refl _)
    (by
      show (if (source.length : Int) ≠ 0 then 1 else 0) < 256
      split <;> norm_num)
    rfl rfl
    (by
      show crc ≠ 0 ↔ (if crc ≠ 0 then (1 : Int) else 0) ≠ 0
      by_cases hc : crc ≠ 0
      · simp [hc]
      · simp only [hc, if_false]
        simp)
    rfl
    (by
      show (0 : Int) = min 0 (source.length : Int)
      omega)
    (by
      show ([] : List Nat) = source.take (min (0 : Int) (source.length : Int)).toNat
      have : (min (0 : Int) (source.length : Int)).toNat = 0 := by omega
      rw [this]
      rfl)
  obtain ⟨N, tf, tr, rf, hrun, hsk⟩ := hmain
  refine ⟨N + 1, ?_⟩
  intro fuel hfuel
  refine ⟨tf, tr, rf, ?_, hsk⟩
  have hsplit : fuel = (fuel - (N + 1)) + (N + 1) := by omega
  unfold loopRun
  rw [hsplit, Function.iterate_add_apply, Function.iterate_succ_apply,
    loop_after_sync source onek binary crc _ rfl, hrun, loop_returned_iter]

/-! ## Repeated duplicates and the retransmit budget -/

theorem rxAccept_holding_congr (s s' : RxState) (pkt : List Nat) (hc : s'.crc = s.crc)
    (hp : s'.packetno = s.packetno) :
    rxAccept (rxHolding s' pkt) = rxAccept (rxHolding s pkt) := by
  unfold rxAccept rxHolding
  simp only [hc, hp]

/-- A valid duplicate read at line 151 while the budget is above 1: ACK, one off the
budget, everything else as before. -/
theorem rx_dup_once (s : RxState) (r : Nat) (pkt : List Nat) (hpc : s.pc = .sync r)
    (hb : ∀ b ∈ pkt, b < 256) (hlead : pkt.headD 0 = SOH ∨ pkt.headD 0 = STX)
    (hlen : pkt.length = rxPacketLen s.crc (rxBufszOf (pkt.headD 0)))
    (hacc : rxAccept (rxHolding s pkt) = true) (hseq : pkt.getD 1 0 ≠ s.packetno)
    (hd : s.destsz ≠ 0) (hret : 1 < s.retrans) :
    feed rxStep (.more s []) (asReads pkt)
      = .more { rxHolding s pkt with retrans := s.retrans - 1, pc := .sync 0 } [ACK] := by
  rw [rx_feed_packet s r pkt hpc hb hlead hlen, rx_accept_dup _ hacc hseq rfl hret]
  have : (rxHolding s pkt).destsz ≠ 0 := hd
  rw [if_pos this]
  rfl

theorem rx_dup_many (pkt : List Nat) (hb : ∀ b ∈ pkt, b < 256)
    (hlead : pkt.headD 0 = SOH ∨ pkt.headD 0 = STX) :
    ∀ (k : Nat) (s : RxState) (r : Nat), s.pc = .sync r →
      pkt.length = rxPacketLen s.crc (rxBufszOf (pkt.headD 0)) →
      rxAccept (rxHolding s pkt) = true → pkt.getD 1 0 ≠ s.packetno → s.destsz ≠ 0 →
      (k : Int) < s.retrans →
      ∃ s', feed rxStep (.more s []) (asReads (List.replicate k pkt).flatten)
          = .more s' (List.replicate k ACK) ∧
        (∃ r', s'.pc = .sync r') ∧ s'.retrans = s.retrans - k ∧ s'.destsz = s.destsz ∧
        s'.crc = s.crc ∧ s'.packetno = s.packetno ∧ s'.len = s.len ∧ s'.sink = s.sink := by
  intro k
  induction k with
  | zero =>
    intro s r hpc _ _ _ _ _
    refine ⟨s, rfl, ⟨r, hpc⟩, ?_, rfl, rfl, rfl, rfl, rfl⟩
    simp
  | succ k ih =>
    intro s r hpc hlen hacc hseq hd hret
    have hret1 : 1 < s.retrans := by omega
    have h1 := rx_dup_once s r pkt hpc hb hlead hlen hacc hseq hd hret1
    obtain ⟨s', hs', hpc', hr', hd', hc', hp', hl', hk'⟩ :=
      ih { rxHolding s pkt with retrans := s.retrans - 1, pc := .sync 0 } 0 rfl hlen
        ((rxAccept_holding_congr _ s pkt rfl rfl).trans hacc)
        hseq hd (by show (k : Int) < s.retrans - 1; omega)
    refine ⟨s', ?_, hpc', ?_, hd', hc', hp', hl', hk'⟩
    · rw [List.replicate_succ, List.flatten_cons, asReads_append,
        feed_append rxStep _ _ _ _ _ h1, hs']
      rfl
    · rw [hr']
      show s.retrans - 1 - (k : Int) = s.retrans - ((k + 1 : Nat) : Int)
      omega

/-- A valid duplicate read at line 151 when the budget is 1 or less: after draining the
input the receiver writes CAN CAN CAN and returns -3. -/
theorem rx_dup_exhausted (s : RxState) (r : Nat) (pkt : List Nat) (t : Int)
    (hpc : s.pc = .sync r) (hb : ∀ b ∈ pkt, b < 256)
    (hlead : pkt.headD 0 = SOH ∨ pkt.headD 0 = STX)
    (hlen : pkt.length = rxPacketLen s.crc (rxBufszOf (pkt.headD 0)))
    (hacc : rxAccept (rxHolding s pkt) = true) (hseq : pkt.getD 1 0 ≠ s.packetno)
    (hret : s.retrans ≤ 1) (ht : t < 0) :
    feed rxStep (.more s []) (asReads pkt ++ [t])
      = .done { rxHolding s pkt with retrans := s.retrans - 1, pc := .flushRetrans }
          [CAN, CAN, CAN] (-3) := by
  have h1 := rx_feed_packet s r pkt hpc hb hlead hlen
  rw [rx_accept_dup_exhausted _ hacc hseq hret] at h1
  rw [feed_append rxStep _ _ _ _ _ h1, prepend_nil, feed_cons, feed_nil]
  have ht' : ¬ (t ≥ 0) := by omega
  simp only [rxStep, ht', if_false]
  rfl

/-! ## C5: duplicate handling -/

/-- The test of lines 192-194 holds for a packet with a valid complement byte, a valid
checksum or CRC, and `seq` equal to the expected number minus one, when the expected number is
not 0. -/
theorem rxAccept_dup_of_valid (s : RxState) (pkt : List Nat)
    (hcompl : pkt.getD 1 0 = bnot8 (pkt.getD 2 0))
    (hchk : check s.crc (pkt.drop 3) (rxBufszOf (pkt.headD 0)) = 1)
    (hseq : pkt.getD 1 0 + 1 = s.packetno) : rxAccept (rxHolding s pkt) = true := by
  have h2 : ((pkt.getD 1 0 : Nat) : Int) = (s.packetno : Int) - 1 := by
    rw [← hseq]
    push_cast
    omega
  have h3 : check s.crc (pkt.drop 3) (rxBufszOf (pkt.headD 0)) ≠ 0 := by
    rw [hchk]
    decide
  unfold rxAccept
  simp only [Bool.and_eq_true, Bool.or_eq_true, decide_eq_true_eq]
  exact ⟨⟨hcompl, Or.inr h2⟩, h3⟩

theorem rx_flush_retrans (q : RxState) (hpc : q.pc = .flushRetrans) :
    ∀ junk : List Int, (∀ x ∈ junk, (0 : Int) ≤ x) → feed rxStep (.more q []) junk = .more q [] := by
  intro junk
  induction junk with
  | nil => intro _; rfl
  | cons x xs ih =>
    intro h
    have hx : x ≥ 0 := h x (List.mem_cons_self _ _)
    rw [feed_cons]
    have : rxStep q x = .more q [] := by
      unfold rxStep
      rw [hpc]
      simp only [hx, if_true]
    rw [this]
    exact ih (fun y hy => h y (List.mem_cons_of_mem _ hy))

/-- A valid duplicate read at line 151 when the budget is 1 or less, followed by any bytes
and a timeout: the receiver drains the bytes, then writes CAN CAN CAN and returns -3. -/
theorem rx_dup_exhausted_drain (s : RxState) (r : Nat) (pkt : List Nat) (junk : List Int)
    (t : Int) (hpc : s.pc = .sync r) (hb : ∀ b ∈ pkt, b < 256)
    (hlead : pkt.headD 0 = SOH ∨ pkt.headD 0 = STX)
    (hlen : pkt.length = rxPacketLen s.crc (rxBufszOf (pkt.headD 0)))
    (hacc : rxAccept (rxHolding s pkt) = true) (hseq : pkt.getD 1 0 ≠ s.packetno)
    (hret : s.retrans ≤ 1) (hjunk : ∀ x ∈ junk, (0 : Int) ≤ x) (ht : t < 0) :
    feed rxStep (.more s []) (asReads pkt ++ junk) =
        .more { rxHolding s pkt with retrans := s.retrans - 1, pc := .flushRetrans } [] ∧
    feed rxStep (.more s []) (asReads pkt ++ (junk ++ [t]))
      = .done { rxHolding s pkt with retrans := s.retrans - 1, pc := .flushRetrans }
          [CAN, CAN, CAN] (-3) := by
  have h1 := rx_feed_packet s r pkt hpc hb hlead hlen
  rw [rx_accept_dup_exhausted _ hacc hseq hret] at h1
  have h2 := rx_flush_retrans
    { rxHolding s pkt with retrans := (rxHolding s pkt).retrans - 1, pc := .flushRetrans }
    rfl junk hjunk
  constructor
  · rw [feed_append rxStep _ _ _ _ _ h1, prepend_nil, h2]
    rfl
  · rw [feed_append rxStep _ _ _ _ _ h1, prepend_nil, feed_append rxStep _ _ _ _ _ h2,
      prepend_nil, feed_cons, feed_nil]
    have ht' : ¬ (t ≥ 0) := by omega
    simp only [rxStep, ht', if_false]
    rfl

/-- C5 (as amended). Let `xmodemReceive` be blocked at line 151 and read a whole packet whose
complement byte is valid, whose checksum or CRC is valid, and whose `seq` plus one is the
expected number `packetno` (so `packetno` is in 1..255). Then the packet passes the test of
lines 192-194, nothing is delivered, `packetno` and `len` stay as they are and `retrans` goes
down by one. If `retrans` was above 1, the receiver writes ACK and nothing else and goes back
to line 151 (data session) or returns `len` (control-block session). If `retrans` was 1 or
less, it writes nothing while it drains the input (`flushinput()`, line 211), and at the first
timeout it writes CAN CAN CAN and returns -3. From a budget of 25, as an accepted block leaves
it, 24 resends are answered with ACK and the 25th with CAN CAN CAN and -3, and nothing is
delivered. And whatever whole packet is read, the sink changes only if `seq` equals the
expected number. -/
theorem duplicate_handling (s : RxState) (r : Nat) (pkt : List Nat) (junk : List Int)
    (t : Int) (hpc : s.pc = .sync r)
    (hb : ∀ b ∈ pkt, b < 256) (hlead : pkt.headD 0 = SOH ∨ pkt.headD 0 = STX)
    (hlen : pkt.length = rxPacketLen s.crc (rxBufszOf (pkt.headD 0)))
    (hcompl : pkt.getD 1 0 = bnot8 (pkt.getD 2 0))
    (hchk : check s.crc (pkt.drop 3) (rxBufszOf (pkt.headD 0)) = 1)
    (hseq : pkt.getD 1 0 + 1 = s.packetno)
    (hjunk : ∀ x ∈ junk, (0 : Int) ≤ x) (ht : t < 0) :
    rxAccept (rxHolding s pkt) = true ∧
    ((feed rxStep (.more s []) (asReads pkt)).state.sink = s.sink ∧
      (feed rxStep (.more s []) (asReads pkt)).state.packetno = s.packetno ∧
      (feed rxStep (.more s []) (asReads pkt)).state.len = s.len ∧
      (feed rxStep (.more s []) (asReads pkt)).state.retrans = s.retrans - 1) ∧
    (1 < s.retrans →
      (s.destsz ≠ 0 → feed rxStep (.more s []) (asReads pkt)
        = .more { rxHolding s pkt with retrans := s.retrans - 1, pc := .sync 0 } [ACK]) ∧
      (s.destsz = 0 → feed rxStep (.more s []) (asReads pkt)
        = .done { rxHolding s pkt with retrans := s.retrans - 1 } [ACK] s.len)) ∧
    (s.retrans ≤ 1 →
      feed rxStep (.more s []) (asReads pkt ++ junk)
        = .more { rxHolding s pkt with retrans := s.retrans - 1, pc := .flushRetrans } [] ∧
      feed rxStep (.more s []) (asReads pkt ++ (junk ++ [t]))
        = .done { rxHolding s pkt with retrans := s.retrans - 1, pc := .flushRetrans }
            [CAN, CAN, CAN] (-3)) ∧
    (s.retrans = 25 → s.destsz ≠ 0 →
      ∃ s', feed rxStep (.more s [])
          (asReads (List.replicate 24 pkt).flatten ++ (asReads pkt ++ (junk ++ [t])))
        = .done s' (List.replicate 24 ACK ++ [CAN, CAN, CAN]) (-3) ∧
        s'.sink = s.sink ∧ s'.packetno = s.packetno ∧ s'.len = s.len) ∧
    (∀ pkt2 : List Nat, (∀ b ∈ pkt2, b < 256) →
      (pkt2.headD 0 = SOH ∨ pkt2.headD 0 = STX) →
      pkt2.length = rxPacketLen s.crc (rxBufszOf (pkt2.headD 0)) →
      (feed rxStep (.more s []) (asReads pkt2)).state.sink ≠ s.sink →
      pkt2.getD 1 0 = s.packetno) := by
  have hacc := rxAccept_dup_of_valid s pkt hcompl hchk hseq
  have hne : pkt.getD 1 0 ≠ s.packetno := by omega
  have hfeed := rx_feed_packet s r pkt hpc hb hlead hlen
  refine ⟨hacc, ?_, ?_, ?_, ?_, ?_⟩
  · rw [hfeed]
    by_cases hret : 1 < s.retrans
    · rw [rx_accept_dup _ hacc hne rfl hret]
      split <;> exact ⟨rfl, rfl, rfl, rfl⟩
    · rw [rx_accept_dup_exhausted _ hacc hne (by show s.retrans ≤ 1; omega)]
      exact ⟨rfl, rfl, rfl, rfl⟩
  · intro hret
    rw [hfeed, rx_accept_dup _ hacc hne rfl hret]
    constructor
    · intro hd
      have : (rxHolding s pkt).destsz ≠ 0 := hd
      rw [if_pos this]
      rfl
    · intro hd
      have : ¬ (rxHolding s pkt).destsz ≠ 0 := by
        show ¬ s.destsz ≠ 0
        simp [hd]
      rw [if_neg this]
      rfl
  · intro hret
    exact rx_dup_exhausted_drain s r pkt junk t hpc hb hlead hlen hacc hne hret hjunk ht
  · intro hret hd
    obtain ⟨s', hs', ⟨r', hpc'⟩, hr', hd', hc', hp', hl', hk'⟩ :=
      rx_dup_many pkt hb hlead 24 s r hpc hlen hacc hne hd (by rw [hret]; decide)
    have hlast := (rx_dup_exhausted_drain s' r' pkt junk t hpc' hb hlead
      (by rw [hc']; exact hlen)
      ((rxAccept_holding_congr s s' pkt hc' hp').trans hacc) (by rw [hp']; exact hne)
      (by rw [hr', hret]; decide) hjunk ht).2
    refine ⟨{ rxHolding s' pkt with retrans := s'.retrans - 1, pc := .flushRetrans }, ?_,
      hk', hp', hl'⟩
    rw [feed_append rxStep _ _ _ _ _ hs', hlast]
    rfl
  · intro pkt2 hb2 hlead2 hlen2 hsink
    rw [rx_feed_packet s r pkt2 hpc hb2 hlead2 hlen2] at hsink
    exact rxPacket_sink (rxHolding s pkt2) hsink

/-! ## Instances -/

theorem sampleSource_bytes : ∀ b ∈ sampleSource, b < 256 := by
  intro b hb
  simp only [sampleSource, List.mem_map] at hb
  obtain ⟨i, -, hi⟩ := hb
  omega

theorem sampleSource_length : sampleSource.length = 2500 := by
  simp [sampleSource]

theorem sampleBlock1k_bytes : ∀ b ∈ sampleBlock1k, b < 256 := by
  intro b hb
  simp only [sampleBlock1k, List.mem_map] at hb
  obtain ⟨i, -, hi⟩ := hb
  omega

theorem sampleBlock_bytes : ∀ b ∈ sampleBlock, b < 256 := by
  intro b hb
  rw [List.eq_of_mem_replicate hb]
  norm_num

theorem samplePacket_bytes : ∀ b ∈ samplePacket, b < 256 :=
  txPacket_bytes _ _ _ _ _ _ _ _ sampleBlock_bytes (by decide) (by decide)

theorem samplePacket1k_bytes : ∀ b ∈ samplePacket1k, b < 256 :=
  txPacket_bytes _ _ _ _ _ _ _ _ sampleBlock1k_bytes (by decide) (by decide)

theorem samplePacket_length (crc : Int) (hc : crc = 0) :
    samplePacket.length = rxPacketLen crc (rxBufszOf (samplePacket.headD 0)) := by
  subst hc
  rw [samplePacket, txPacket_length _ _ _ _ _ _ _ _ (by decide)]
  rfl

theorem samplePacket1k_length (crc : Int) (hc : crc ≠ 0) :
    samplePacket1k.length = rxPacketLen crc (rxBufszOf (samplePacket1k.headD 0)) := by
  rw [samplePacket1k, txPacket_length _ _ _ _ _ _ _ _ (by decide)]
  simp only [rxPacketLen, hc, ne_eq, not_false_eq_true, if_true]
  rfl

theorem samplePacket_accept (s : RxState) (hc : s.crc = 0) (hp : s.packetno = 1) :
    rxAccept (rxHolding s samplePacket) = true :=
  (txPacket_accept sampleBlock 0 SOH 128 1 1 0 128 (rxHolding s samplePacket) (by decide)
    (by decide) (by show s.crc ≠ 0 ↔ (0 : Int) ≠ 0; rw [hc]) hp rfl rfl).2.2.2.1

theorem samplePacket1k_accept (s : RxState) (hc : s.crc ≠ 0) (hp : s.packetno = 1) :
    rxAccept (rxHolding s samplePacket1k) = true :=
  (txPacket_accept sampleBlock1k 0 STX 1024 1 1 1 1024 (rxHolding s samplePacket1k) (by decide)
    (by decide) (by show s.crc ≠ 0 ↔ (1 : Int) ≠ 0; simp [hc]) hp rfl rfl).2.2.2.1

/-- C1, an instance: a source of 2500 bytes, `onek = 1`, `binary = 1`, `crc = 1`. -/
theorem loopback_round_trip_witness :
    0 < sampleSource.length ∧ (∀ b ∈ sampleSource, b < 256) ∧
    (sampleSource.length : Int) + 1024 ≤ 2147483647 ∧
    ∃ N : Nat, ∀ fuel : Nat, N ≤ fuel →
      ∃ (tf : TxState) (tr : Int) (rf : RxState),
        loopRun fuel sampleSource sampleSource.length 1 1 sampleSource.length 1
          = ⟨.returned tf tr, .returned rf sampleSource.length, [], []⟩ ∧
        rf.sink = sampleSource :=
  ⟨by rw [sampleSource_length]; decide, sampleSource_bytes,
    by rw [sampleSource_length]; decide,
    loopback_round_trip sampleSource 1 1 1 (by rw [sampleSource_length]; decide)
      sampleSource_bytes (by rw [sampleSource_length]; decide)⟩

/-- C2, an instance: the word hello as block 1 of 128 bytes, text mode, CRC. -/
theorem framing_round_trip_witness :
    (1 : Nat) < 256 ∧ sampleHello.length ≤ 128 ∧
    rxAccept (⟨5, 1, 0, 1, 0, 25, 128, txPacket sampleHello 0 SOH 128 1 0 1 sampleHello.length,
      [], .recv 131⟩ : RxState) = true ∧
    ((txPacket sampleHello 0 SOH 128 1 0 1 sampleHello.length).drop 3).take sampleHello.length
      = sampleHello :=
  have h := framing_round_trip sampleHello 1 SOH 128 0 1
    (⟨5, 1, 0, 1, 0, 25, 128, txPacket sampleHello 0 SOH 128 1 0 1 sampleHello.length,
      [], .recv 131⟩ : RxState)
    (by decide) (by decide) Iff.rfl rfl rfl rfl
  ⟨by decide, by decide, h.2.2.2.1, h.2.2.2.2⟩

/-- C4, an instance: the first packet of the word hello, text mode, after the peer has
synchronised with the letter C. -/
theorem wire_layout_witness :
    stepsTo txStep (txStart sampleHello 5 0 0) [] = some (txInit sampleHello 5 0 0) ∧
    ∃ (B leader seq T : Nat) (data trailer : List Nat),
      (txStep (txInit sampleHello 5 0 0) (CHR_C : Int)).out
        = [leader, seq, 255 - seq] ++ data ++ trailer ∧
      data.length = B ∧ trailer.length = T ∧
      (txStep (txInit sampleHello 5 0 0) (CHR_C : Int)).out.length = 3 + B + T ∧
      ((((0 : Int) ≠ 0 ∧
            (5 : Int) - (txStep (txInit sampleHello 5 0 0) (CHR_C : Int)).state.len > 128) ∧
          B = 1024 ∧ leader = STX) ∨
        (¬ ((0 : Int) ≠ 0 ∧
            (5 : Int) - (txStep (txInit sampleHello 5 0 0) (CHR_C : Int)).state.len > 128) ∧
          B = 128 ∧ leader = SOH)) ∧
      seq = ((if (5 : Int) ≠ 0 then 1 else 0)
              + txAcked (txStart sampleHello 5 0 0) ([] ++ [(CHR_C : Int)])) % 256 ∧
      ((txSyncChar (txStart sampleHello 5 0 0) ([] ++ [(CHR_C : Int)]) = some (CHR_C : Int) ∧
          T = 2 ∧ trailer = [crc16_ccitt data B / 256, crc16_ccitt data B % 256]) ∨
        (txSyncChar (txStart sampleHello 5 0 0) ([] ++ [(CHR_C : Int)]) = some (NAK : Int) ∧
          T = 1 ∧ trailer = [data.sum % 256])) :=
  ⟨rfl, wire_layout sampleHello 5 0 0 [] (CHR_C : Int) (txInit sampleHello 5 0 0)
    (txStep (txInit sampleHello 5 0 0) (CHR_C : Int)).state
    (txStep (txInit sampleHello 5 0 0) (CHR_C : Int)).out 0 rfl rfl rfl⟩

set_option maxRecDepth 100000 in
theorem sampleRxAfterBlock1_accept :
    rxAccept (rxHolding sampleRxAfterBlock1 samplePacket) = true := by
  have h := rxAccept_check _ (samplePacket_accept (rxStart 256 0).state rfl rfl)
  have h1 : samplePacket.getD 1 0 = bnot8 (samplePacket.getD 2 0) := by decide
  have h2 : ((samplePacket.getD 1 0 : Nat) : Int) = ((2 : Nat) : Int) - 1 := by decide
  unfold rxAccept
  simp only [Bool.and_eq_true, Bool.or_eq_true, decide_eq_true_eq]
  exact ⟨⟨h1, Or.inr h2⟩, h⟩

set_option maxRecDepth 100000 in
/-- C5, instances: block 1 resent while block 2 is expected, with a budget of 25 and with a
budget of 1. -/
theorem duplicate_handling_witness :
    (sampleRxAfterBlock1.pc = .sync 0 ∧ (∀ b ∈ samplePacket, b < 256) ∧
      samplePacket.getD 1 0 = bnot8 (samplePacket.getD 2 0) ∧
      check sampleRxAfterBlock1.crc (samplePacket.drop 3) (rxBufszOf (samplePacket.headD 0)) = 1 ∧
      samplePacket.getD 1 0 + 1 = sampleRxAfterBlock1.packetno ∧
      1 < sampleRxAfterBlock1.retrans ∧ sampleRxAfterBlock1.destsz ≠ 0) ∧
    feed rxStep (.more sampleRxAfterBlock1 []) (asReads samplePacket)
      = .more { rxHolding sampleRxAfterBlock1 samplePacket with
          retrans := sampleRxAfterBlock1.retrans - 1, pc := .sync 0 } [ACK] ∧
    feed rxStep (.more { sampleRxAfterBlock1 with retrans := 1 } [])
        (asReads samplePacket ++ ([(0x41 : Int)] ++ [-1]))
      = .done { rxHolding { sampleRxAfterBlock1 with retrans := 1 } samplePacket with
          retrans := (1 : Int) - 1, pc := .flushRetrans } [CAN, CAN, CAN] (-3) :=
  ⟨⟨rfl, samplePacket_bytes, by decide, by decide, by decide, by decide, by decide⟩,
    ((duplicate_handling sampleRxAfterBlock1 0 samplePacket [(0x41 : Int)] (-1) rfl
      samplePacket_bytes (Or.inl rfl) (samplePacket_length _ rfl) (by decide) (by decide)
      (by decide) (by decide) (by decide)).2.2.1 (by decide)).1 (by decide),
    ((duplicate_handling { sampleRxAfterBlock1 with retrans := 1 } 0 samplePacket
      [(0x41 : Int)] (-1) rfl
      samplePacket_bytes (Or.inl rfl) (samplePacket_length _ rfl) (by decide) (by decide)
      (by decide) (by decide) (by decide)).2.2.2.1 (by decide)).2⟩

set_option maxRecDepth 100000 in
/-- The first block of a data session of 256 bytes in checksum mode: the receiver writes its
sync character NAK, reads `samplePacket`, and is then in `sampleRxAfterBlock1`, having
written ACK. -/
theorem sample_first_block :
    feed rxStep (rxStart 256 0) (asReads samplePacket)
      = .more sampleRxAfterBlock1 [NAK, ACK] := by
  have h0 : rxStart 256 0 = .more (rxStart 256 0).state [NAK] := rfl
  rw [h0, feed_more_eq,
    rx_feed_packet (rxStart 256 0).state 0 samplePacket rfl samplePacket_bytes (Or.inl rfl)
      (samplePacket_length _ rfl),
    rx_accept_new _ (samplePacket_accept _ rfl rfl) (by decide) rfl (by decide)]
  simp only [Step.prepend, List.singleton_append, Step.more.injEq, and_true]
  have hc : rxCount (rxHolding (rxStart 256 0).state samplePacket) = 128 := by decide
  have hs : (rxDeliver (rxHolding (rxStart 256 0).state samplePacket)).sink = sampleBlock := by
    rw [rxDeliver_sink, hc]
    decide
  have hl : (rxDeliver (rxHolding (rxStart 256 0).state samplePacket)).len = 128 := by
    rw [rxDeliver_len, hc]
    decide
  have hd := rxDeliver_destsz (rxHolding (rxStart 256 0).state samplePacket)
  have hcr := rxDeliver_crc (rxHolding (rxStart 256 0).state samplePacket)
  have ht := rxDeliver_trychar (rxHolding (rxStart 256 0).state samplePacket)
  have hp := rxDeliver_packetno (rxHolding (rxStart 256 0).state samplePacket)
  have hx := rxDeliver_xbuff (rxHolding (rxStart 256 0).state samplePacket)
  have hb : (rxDeliver (rxHolding (rxStart 256 0).state samplePacket)).bufsz = 128 := by
    by_cases h : rxCount (rxHolding (rxStart 256 0).state samplePacket) > 0 <;>
      simp [rxDeliver, h] <;> rfl
  unfold sampleRxAfterBlock1
  rw [RxState.mk.injEq]
  refine ⟨hd, hcr, ht, hp, hl, rfl, hb, hx, hs, rfl⟩

set_option maxRecDepth 100000 in
/-- C5 as stated fails. (1) At the start of a control-block session the expected number
is 0; a packet with valid complement and checksum whose `seq` is 255 = 0 - 1 (mod 256) is
answered with NAK, not ACK (the first NAK written is the sync character). (2) In a data
session, after block 1 was accepted, the receiver ACKs 24 identical resends of block 1 and
answers the 25th with CAN CAN CAN and returns -3. -/
theorem duplicate_handling_counterexample :
    (check 0 (samplePacket255.drop 3) 128 = 1 ∧
      samplePacket255.getD 1 0 = bnot8 (samplePacket255.getD 2 0) ∧
      (rxStart 0 0).state.packetno = 0 ∧ samplePacket255.getD 1 0 = (0 + 255) % 256 ∧
      (feed rxStep (rxStart 0 0) (asReads samplePacket255 ++ [-1])).out = [NAK, NAK]) ∧
    (∃ s, feed rxStep (rxStart 256 0)
        (asReads samplePacket ++
          (asReads (List.replicate 24 samplePacket).flatten ++ (asReads samplePacket ++ [-1])))
      = .done s ([NAK, ACK] ++ (List.replicate 24 ACK ++ [CAN, CAN, CAN])) (-3)) := by
  constructor
  · refine ⟨by decide, by decide, rfl, by decide, ?_⟩
    have h0 : rxStart 0 0 = .more (rxStart 0 0).state [NAK] := rfl
    have hlen : samplePacket255.length
        = rxPacketLen (rxStart 0 0).state.crc (rxBufszOf (samplePacket255.headD 0)) := by
      decide
    have hb : ∀ b ∈ samplePacket255, b < 256 := by decide
    have hacc : rxAccept (rxHolding (rxStart 0 0).state samplePacket255) = false := by
      have h1 : ¬ (((samplePacket255.getD 1 0 : Nat) : Int) = ((0 : Nat) : Int)) := by decide
      have h2 : ¬ (((samplePacket255.getD 1 0 : Nat) : Int) = ((0 : Nat) : Int) - 1) := by
        decide
      unfold rxAccept
      simp only [Bool.and_eq_false_iff, Bool.or_eq_false_iff, decide_eq_false_iff_not]
      exact Or.inl (Or.inr ⟨h1, h2⟩)
    have hfeed := rx_feed_packet (rxStart 0 0).state 0 samplePacket255 rfl hb (Or.inl rfl) hlen
    have hmore : rxPacket (rxHolding (rxStart 0 0).state samplePacket255)
        = .more { rxHolding (rxStart 0 0).state samplePacket255 with pc := .flushReject } [] := by
      unfold rxPacket
      simp [hacc]
    have hrej := rx_reject (rxHolding (rxStart 0 0).state samplePacket255) [] (-1) hacc
      (by intro x hx; simp at hx) (by decide) rfl
    rw [h0, feed_more_eq, feed_append rxStep _ _ _ _ _ (hfeed.trans hmore), prepend_nil]
    rw [← hmore]
    rw [List.nil_append] at hrej
    rw [hrej]
    rfl
  · obtain ⟨s', hs', ⟨r', hpc'⟩, hr', hd', hc', hp', hl', hk'⟩ :=
      rx_dup_many samplePacket samplePacket_bytes (Or.inl rfl) 24 sampleRxAfterBlock1 0 rfl
        (samplePacket_length _ rfl) sampleRxAfterBlock1_accept (by decide) (by decide)
        (by decide)
    have hlast := rx_dup_exhausted s' r' samplePacket (-1) hpc' samplePacket_bytes (Or.inl rfl)
      (samplePacket_length _ hc')
      ((rxAccept_holding_congr sampleRxAfterBlock1 s' samplePacket hc' hp').trans
        sampleRxAfterBlock1_accept)
      (by rw [hp']; decide)
      (by rw [hr']; decide) (by decide)
    refine ⟨{ rxHolding s' samplePacket with retrans := s'.retrans - 1, pc := .flushRetrans },
      ?_⟩
    rw [feed_append rxStep _ _ _ _ _ sample_first_block,
      feed_append rxStep _ _ _ _ _ hs', hlast]
    rfl

/-- C6, an instance: `destsz = 200` and one valid block of 1024 bytes (CRC mode) as the first
packet: 200 bytes go to the sink and the block is answered with ACK. -/
theorem truncation_witness :
    (0 : Int) < 200 ∧
    stepsTo rxStep (rxStart 200 1) [] = some (rxStart 200 1).state ∧
    rxAccept (rxHolding (rxStart 200 1).state samplePacket1k) = true ∧
    ∃ (s' : RxState) (k : Nat),
      feed rxStep (.more (rxStart 200 1).state []) (asReads samplePacket1k) = .more s' [ACK] ∧
      (k : Int) = min (rxBufszOf (samplePacket1k.headD 0) : Int) (200 - (rxStart 200 1).state.len) ∧
      s'.sink = (rxStart 200 1).state.sink
        ++ ((samplePacket1k.drop 3).take (rxBufszOf (samplePacket1k.headD 0))).take k ∧
      s'.len = (rxStart 200 1).state.len + k ∧ s'.len ≤ 200 ∧ s'.pc = .sync 0 :=
  ⟨by decide, rfl, samplePacket1k_accept _ (by decide) rfl,
    (truncation 200 1 [] (rxStart 200 1).state 0 samplePacket1k (by decide) rfl rfl
      samplePacket1k_bytes (Or.inr rfl) (samplePacket1k_length _ (by decide))
      (samplePacket1k_accept _ (by decide) rfl) rfl).1⟩

set_option maxRecDepth 100000 in
/-- C7, an instance: the first data byte of `samplePacket` changed from 7 to 8. -/
theorem corruption_detected_witness :
    rxAccept (rxHolding (rxStart 256 0).state samplePacket) = true ∧
    (8 : Nat) ≠ samplePacket.getD (3 + 0) 0 ∧
    check (rxStart 256 0).state.crc ((samplePacket.set (3 + 0) 8).drop 3)
      (rxBufszOf (samplePacket.headD 0)) = 0 ∧
    ∃ s', feed rxStep (.more (rxStart 256 0).state [])
        (asReads (samplePacket.set (3 + 0) 8) ++ ([] ++ [-1])) = .more s' [NAK] ∧
      s'.pc = .sync 0 ∧ s'.sink = (rxStart 256 0).state.sink ∧
      s'.packetno = (rxStart 256 0).state.packetno ∧ s'.len = (rxStart 256 0).state.len :=
  ⟨samplePacket_accept _ rfl rfl, by decide,
    corruption_detected (rxStart 256 0).state 0 samplePacket 0 8 [] (-1) rfl samplePacket_bytes
      (Or.inl rfl) (samplePacket_length _ rfl) (samplePacket_accept _ rfl rfl) (by decide)
      (by decide) (by decide) (by intro x hx; simp at hx) (by decide)⟩

set_option maxRecDepth 100000 in
/-- C8, an instance: sequence byte 1 with complement byte 0. -/
theorem seq_complement_rejection_witness :
    samplePacketBad.getD 1 0 ^^^ samplePacketBad.getD 2 0 ≠ 0xFF ∧
    ∃ s', feed rxStep (.more (rxStart 256 0).state []) (asReads samplePacketBad ++ ([] ++ [-1]))
        = .more s' [NAK] ∧
      s'.pc = .sync 0 ∧ s'.sink = (rxStart 256 0).state.sink ∧
      s'.packetno = (rxStart 256 0).state.packetno ∧ s'.len = (rxStart 256 0).state.len ∧
      s'.retrans = (rxStart 256 0).state.retrans :=
  ⟨by decide,
    seq_complement_rejection (rxStart 256 0).state 0 samplePacketBad [] (-1) rfl (by decide)
      (Or.inl rfl) (by decide) (by decide) (by intro x hx; simp at hx) (by decide)⟩

theorem feed_prepend {σ : Type} (step : σ → Int → Step σ) (o : List Nat) (st : Step σ)
    (cs : List Int) : feed step (st.prepend o) cs = (feed step st cs).prepend o := by
  cases st with
  | more s o1 =>
    show feed step (.more s (o ++ o1)) cs = _
    rw [feed_more_eq step s (o ++ o1), feed_more_eq step s o1, prepend_prepend]
  | done s o1 r =>
    show feed step (.done s (o ++ o1) r) cs = _
    rw [feed_done, feed_done]
    rfl

/-- A property of "blocked or returned, with everything written so far" that every step
keeps holds after every run. -/
theorem feed_acc_inv {σ : Type} (step : σ → Int → Step σ) (P : Step σ → Prop)
    (hP : ∀ s o c, P (.more s o) → P ((step s c).prepend o)) :
    ∀ (reads : List Int) (st : Step σ), P st → P (feed step st reads) := by
  intro reads
  induction reads with
  | nil =>
    intro st h
    rw [feed_nil]
    exact h
  | cons c cs ih =>
    intro st h
    cases st with
    | more s o =>
      show P ((feed step (step s c) cs).prepend o)
      rw [← feed_prepend]
      exact ih _ (hP s o c h)
    | done s o r =>
      rw [feed_done]
      exact h

theorem driveList_none_of_feed {σ : Type} (step : σ → Int → Step σ) :
    ∀ (reads : List Int) (st : Step σ) (s : σ) (o : List Nat),
      feed step st reads = .more s o → driveList step st reads = none := by
  intro reads
  induction reads with
  | nil =>
    intro st s o h
    rw [feed_nil] at h
    rw [h]
    rfl
  | cons c cs ih =>
    intro st s o h
    cases st with
    | more s0 o0 =>
      simp only [feed] at h
      simp only [driveList]
      cases hrest : feed step (step s0 c) cs with
      | more s1 o1 =>
        rw [ih (step s0 c) s1 o1 hrest]
        rfl
      | done s1 o1 r1 =>
        rw [hrest] at h
        simp [Step.prepend] at h
    | done s0 o0 r0 =>
      rw [feed_done] at h
      simp at h

/-- A run that returns is a `feed` that ends in `done`. -/
theorem feed_of_driveList {σ : Type} (step : σ → Int → Step σ) (reads : List Int)
    (st : Step σ) (x : σ × List Nat × Int) (h : driveList step st reads = some x) :
    feed step st reads = .done x.1 x.2.1 x.2.2 := by
  cases hf : feed step st reads with
  | more s o =>
    rw [driveList_none_of_feed step reads st s o hf] at h
    simp at h
  | done s o r =>
    rw [driveList_eq_feed step reads st s o r hf] at h
    simp only [Option.some.injEq] at h
    rw [← h]

/-! ## C9: receiver sync and the downgrade from CRC to checksum -/

theorem prepend_more_inv {σ : Type} (o : List Nat) (st : Step σ) (s : σ) (o2 : List Nat)
    (h : st.prepend o = .more s o2) : ∃ o1, st = .more s o1 ∧ o2 = o ++ o1 := by
  cases st with
  | more s1 o1 =>
    simp only [Step.prepend, Step.more.injEq] at h
    exact ⟨o1, by rw [h.1], h.2.symm⟩
  | done s1 o1 r => simp [Step.prepend] at h

theorem rxSyncNext_probing (s : RxState) (r : Nat) (s2 : RxState) (o1 : List Nat)
    (htry : s.trychar = CHR_C) (h : rxSyncNext s r = .more s2 o1) (h2 : s2.trychar = CHR_C) :
    r + 1 < 16 ∧ s2 = { s with pc := .sync (r + 1) } ∧ o1 = [CHR_C] := by
  unfold rxSyncNext at h
  by_cases h1 : r + 1 < 16
  · rw [if_pos h1] at h
    have hne : s.trychar ≠ 0 := by rw [htry]; decide
    simp only [rxSyncEnter, Step.more.injEq, if_pos hne, List.nil_append] at h
    exact ⟨h1, h.1.symm, by rw [← h.2, htry]⟩
  · rw [if_neg h1, if_pos htry] at h
    simp only [rxSyncEnter, Step.more.injEq] at h
    rw [← h.1] at h2
    exact absurd h2 (show NAK ≠ CHR_C from by decide)

/-- While `xmodemReceive(.., crc)` has not read a packet leader and probes with the letter C,
it is in the loop of line 149 (or, after CAN CAN, in `flushinput()` at line 166), in an
iteration `retry < 16`, `crc` is still the argument, and all it has written is `retry + 1`
times the letter C. -/
theorem rx_probing (destsz crc : Int) (reads : List Int) (s : RxState) (o : List Nat)
    (h : feed rxStep (rxStart destsz crc) reads = .more s o) (htry : s.trychar = CHR_C) :
    s.pc = .flushCancel ∨
    ∃ r, r < 16 ∧ (s.pc = .sync r ∨ s.pc = .syncCan r) ∧
      o = List.replicate (r + 1) CHR_C ∧ s.crc = crc := by
  have key := feed_acc_inv rxStep
    (fun st => ∀ s o, st = .more s o → s.trychar = CHR_C →
      s.pc = .flushCancel ∨
      ∃ r, r < 16 ∧ (s.pc = .sync r ∨ s.pc = .syncCan r) ∧
        o = List.replicate (r + 1) CHR_C ∧ s.crc = crc) ?_ reads (rxStart destsz crc) ?_
  · exact key s o h htry
  · intro q oq c hq s2 o2 heq h2
    obtain ⟨o1, hst, ho2⟩ := prepend_more_inv oq _ s2 o2 heq
    have hqtry : q.trychar = CHR_C := by
      have hs2 : (rxStep q c).state = s2 := by rw [hst]; rfl
      rcases rxStep_fields q c with ⟨-, h1 | h1⟩ | ⟨-, -, -, h1⟩
      · rw [← h1, hs2]; exact h2
      · rw [hs2, h2] at h1
        exact absurd h1 (by decide)
      · rw [hs2, h2] at h1
        exact absurd h1 (by decide)
    have hnext : ∀ r, r < 16 → oq = List.replicate (r + 1) CHR_C → q.crc = crc →
        rxSyncNext q r = .more s2 o1 →
        s2.pc = .flushCancel ∨
        ∃ r, r < 16 ∧ (s2.pc = .sync r ∨ s2.pc = .syncCan r) ∧
          o2 = List.replicate (r + 1) CHR_C ∧ s2.crc = crc := by
      intro r hr hoq hcrc hn
      obtain ⟨e1, e2, e3⟩ := rxSyncNext_probing q r s2 o1 hqtry hn h2
      refine Or.inr ⟨r + 1, e1, Or.inl (by rw [e2]), ?_, by rw [e2]; exact hcrc⟩
      rw [ho2, hoq, e3, ← List.replicate_succ']
    rcases hq q oq rfl hqtry with hpc | ⟨r, hr, hpc | hpc, hoq, hcrc⟩
    · unfold rxStep at hst
      rw [hpc] at hst
      simp only [] at hst
      by_cases hc : c ≥ 0
      · rw [if_pos hc] at hst
        simp only [Step.more.injEq] at hst
        left
        rw [← hst.1]
        exact hpc
      · rw [if_neg hc] at hst
        simp at hst
    · unfold rxStep at hst
      rw [hpc] at hst
      simp only [] at hst
      by_cases hc : c ≥ 0
      · rw [if_pos hc] at hst
        by_cases h1 : c = SOH
        · rw [if_pos h1] at hst
          simp only [rxStartRecv, Step.more.injEq] at hst
          rw [← hst.1] at h2
          exact absurd h2 (show (0 : Nat) ≠ CHR_C from by decide)
        · rw [if_neg h1] at hst
          by_cases h3 : c = STX
          · rw [if_pos h3] at hst
            simp only [rxStartRecv, Step.more.injEq] at hst
            rw [← hst.1] at h2
            exact absurd h2 (show (0 : Nat) ≠ CHR_C from by decide)
          · rw [if_neg h3] at hst
            by_cases h4 : c = EOT
            · rw [if_pos h4] at hst
              simp at hst
            · rw [if_neg h4] at hst
              by_cases h5 : c = CAN
              · rw [if_pos h5] at hst
                simp only [Step.more.injEq] at hst
                refine Or.inr ⟨r, hr, Or.inr (by rw [← hst.1]), ?_, by rw [← hst.1]; exact hcrc⟩
                rw [ho2, ← hst.2, List.append_nil]
                exact hoq
              · rw [if_neg h5] at hst
                exact hnext r hr hoq hcrc hst
      · rw [if_neg hc] at hst
        exact hnext r hr hoq hcrc hst
    · unfold rxStep at hst
      rw [hpc] at hst
      simp only [] at hst
      by_cases h5 : c = CAN
      · rw [if_pos h5] at hst
        simp only [Step.more.injEq] at hst
        left
        rw [← hst.1]
      · rw [if_neg h5] at hst
        exact hnext r hr hoq hcrc hst
  · intro s0 o0 h0 ht0
    simp only [rxStart, rxSyncEnter, Step.more.injEq] at h0
    have hc : crc ≠ 0 := by
      intro hc
      rw [← h0.1] at ht0
      simp only [rxInit, hc, ne_eq, not_true_eq_false, if_false] at ht0
      exact absurd ht0 (by decide)
    refine Or.inr ⟨0, by decide, Or.inl (by rw [← h0.1]), ?_, by rw [← h0.1]; rfl⟩
    rw [← h0.2]
    simp only [rxInit, hc, ne_eq, not_false_eq_true, if_true]
    rfl

/-- In every run of `xmodemReceive(.., crc)`, a step that changes `crc` is the downgrade of
line 176: all that was written before it is 16 times the letter C, `crc` was still the
argument, and the step sets `crc` to 0 and `trychar` to NAK, restarts the loop of line 149
and writes NAK. -/
theorem rx_downgrade_in_run (destsz crc : Int) (reads : List Int) (s : RxState) (o : List Nat)
    (c : Int) (h : feed rxStep (rxStart destsz crc) reads = .more s o)
    (hch : (rxStep s c).state.crc ≠ s.crc) :
    o = List.replicate 16 CHR_C ∧ s.crc = crc ∧
    rxStep s c = .more { s with trychar := NAK, crc := 0, pc := .sync 0 } [NAK] := by
  rcases rxStep_fields s c with ⟨h1, -⟩ | ⟨htry, ⟨r, hr, hpc⟩, -, -⟩
  · exact absurd h1 hch
  · rcases rx_probing destsz crc reads s o h htry with hf | ⟨r2, hr2, hpc2, ho, hcrc⟩
    · rcases hpc with hpc | hpc <;> rw [hf] at hpc <;> cases hpc
    · have hrr : r2 = r := by
        rcases hpc with hpc | hpc <;> rcases hpc2 with hpc2 | hpc2 <;> rw [hpc] at hpc2 <;>
          cases hpc2 <;> rfl
      subst hrr
      have hr15 : r2 = 15 := by omega
      subst hr15
      refine ⟨ho, hcrc, ?_⟩
      have hn : rxSyncNext s 15 = .more { s with trychar := NAK, crc := 0, pc := .sync 0 } [NAK] := by
        simp only [rxSyncNext, htry, if_true, rxSyncEnter]
        rfl
      rcases hpc with hpc | hpc
      · unfold rxStep at hch ⊢
        rw [hpc] at hch ⊢
        simp only [] at hch ⊢
        by_cases hc : c ≥ 0
        · rw [if_pos hc] at hch ⊢
          by_cases h1 : c = SOH
          · rw [if_pos h1] at hch
            exact absurd rfl hch
          · rw [if_neg h1] at hch ⊢
            by_cases h3 : c = STX
            · rw [if_pos h3] at hch
              exact absurd rfl hch
            · rw [if_neg h3] at hch ⊢
              by_cases h4 : c = EOT
              · rw [if_pos h4] at hch
                exact absurd rfl hch
              · rw [if_neg h4] at hch ⊢
                by_cases h5 : c = CAN
                · rw [if_pos h5] at hch
                  exact absurd rfl hch
                · rw [if_neg h5]
                  exact hn
        · rw [if_neg hc]
          exact hn
      · unfold rxStep at hch ⊢
        rw [hpc] at hch ⊢
        simp only [] at hch ⊢
        by_cases h5 : c = CAN
        · rw [if_pos h5] at hch
          exact absurd rfl hch
        · rw [if_neg h5]
          exact hn

/-- After the downgrade the receiver works in checksum mode: a data session started with
`crc = 1` that saw 16 timeouts accepts block 1 with a checksum trailer. -/
theorem rx_downgraded_accepts :
    ∃ s, feed rxStep (rxStart 256 1) (List.replicate 16 (-1) ++ asReads samplePacket)
        = .more s (List.replicate 16 CHR_C ++ [NAK] ++ [ACK]) ∧ s.crc = 0 ∧ s.packetno = 2 := by
  have h16 := (rx_timeouts_crc_states 256 1 (by decide)).2.1
  have hfeed := rx_feed_packet { rxInit 256 1 with trychar := NAK, crc := 0 } 0 samplePacket
    rfl samplePacket_bytes (Or.inl rfl) (samplePacket_length _ rfl)
  have hacc := samplePacket_accept { rxInit 256 1 with trychar := NAK, crc := 0 } rfl rfl
  rw [rx_accept_new _ hacc rfl rfl (by decide)] at hfeed
  refine ⟨{ rxDeliver (rxHolding { rxInit 256 1 with trychar := NAK, crc := 0 } samplePacket)
      with retrans := MAXRETRANS + 1 - 1, pc := .sync 0 }, ?_, ?_, ?_⟩
  · rw [feed_append rxStep _ _ _ _ _ h16, hfeed]
    rfl
  · show (rxDeliver _).crc = 0
    rw [rxDeliver_crc]
    rfl
  · show (rxDeliver _).packetno = 2
    rw [rxDeliver_packetno]
    rfl

/-- C9. On a transport where every read times out, `xmodemReceive` called with `crc != 0`
writes exactly 16 times the letter C, then exactly 16 NAK, then CAN CAN CAN, and returns -2,
with `crc = 0` and `trychar = NAK` in its final state: after 15 timeouts it is in the sixteenth
iteration of the loop of line 149, still in CRC mode, having written 16 letters C, and the
sixteenth timeout sets `crc` to 0 and `trychar` to NAK and writes the first NAK. Called with
`crc = 0` it writes exactly 16 NAK, then CAN CAN CAN, and returns -2. A step never turns
`trychar` into the letter C; a step changes `crc` only while probing with the letter C in the
sixteenth (or a later) iteration, and a timeout there is the downgrade of line 176. In every
run, on any input: a step that changes `crc` is taken when 16 letters C and nothing else have
been written, `crc` being still the argument, and it sets `crc` to 0 and `trychar` to NAK,
restarts the loop and writes NAK; and in every state `crc` is the argument, or it is 0 and
`trychar` is not the letter C, so the downgrade happens at most once per call. After it the
receiver works in checksum mode: it accepts block 1 with a checksum trailer. -/
theorem receiver_sync_downgrade (destsz crc : Int) (t : Nat) :
    (crc ≠ 0 →
      xmodemReceive destsz crc [] (33 + t)
        = some ({ rxInit destsz crc with trychar := NAK, crc := 0, pc := .flushSync },
            List.replicate 16 CHR_C ++ List.replicate 16 NAK ++ [CAN, CAN, CAN], -2) ∧
      feed rxStep (rxStart destsz crc) (List.replicate 15 (-1))
        = .more { rxInit destsz crc with pc := .sync 15 } (List.replicate 16 CHR_C) ∧
      feed rxStep (rxStart destsz crc) (List.replicate 16 (-1))
        = .more { rxInit destsz crc with trychar := NAK, crc := 0 }
            (List.replicate 16 CHR_C ++ [NAK])) ∧
    (crc = 0 →
      xmodemReceive destsz crc [] (17 + t)
        = some ({ rxInit destsz 0 with pc := .flushSync },
            List.replicate 16 NAK ++ [CAN, CAN, CAN], -2)) ∧
    (∀ (s : RxState) (c : Int), (rxStep s c).state.trychar = CHR_C → s.trychar = CHR_C) ∧
    (∀ (s : RxState) (c : Int), (rxStep s c).state.crc ≠ s.crc →
      s.trychar = CHR_C ∧ (∃ r, 15 ≤ r ∧ (s.pc = .sync r ∨ s.pc = .syncCan r)) ∧
      (rxStep s c).state.crc = 0 ∧ (rxStep s c).state.trychar = NAK) ∧
    (∀ (s : RxState) (r : Nat) (c : Int), s.pc = .sync r → 15 ≤ r → s.trychar = CHR_C → c < 0 →
      rxStep s c = .more { s with trychar := NAK, crc := 0, pc := .sync 0 } [NAK]) ∧
    (∀ (reads : List Int) (s : RxState) (o : List Nat) (c : Int),
      feed rxStep (rxStart destsz crc) reads = .more s o → (rxStep s c).state.crc ≠ s.crc →
      o = List.replicate 16 CHR_C ∧ s.crc = crc ∧
      rxStep s c = .more { s with trychar := NAK, crc := 0, pc := .sync 0 } [NAK]) ∧
    (∀ (reads : List Int) (s : RxState), stepsTo rxStep (rxStart destsz crc) reads = some s →
      s.crc = crc ∨ (s.crc = 0 ∧ s.trychar ≠ CHR_C)) ∧
    (∃ s, feed rxStep (rxStart 256 1) (List.replicate 16 (-1) ++ asReads samplePacket)
        = .more s (List.replicate 16 CHR_C ++ [NAK] ++ [ACK]) ∧ s.crc = 0 ∧ s.packetno = 2) := by
  refine ⟨?_, ?_, ?_, ?_, ?_, ?_, ?_, rx_downgraded_accepts⟩
  · intro hc
    obtain ⟨h15, h16, h33⟩ := rx_timeouts_crc_states destsz crc hc
    refine ⟨?_, h15, h16⟩
    unfold xmodemReceive
    rw [List.nil_append, List.replicate_add]
    exact driveList_append_done rxStep _ _ _ _ _ _ h33
  · intro hc
    subst hc
    unfold xmodemReceive
    rw [List.nil_append, List.replicate_add]
    exact driveList_append_done rxStep _ _ _ _ _ _ (rx_timeouts_cks_states destsz)
  · intro s c h
    rcases rxStep_fields s c with ⟨-, h1 | h1⟩ | ⟨-, -, -, h1⟩
    · rw [← h1]; exact h
    · rw [h1] at h
      exact absurd h (by decide)
    · rw [h1] at h
      exact absurd h (by decide)
  · intro s c h
    rcases rxStep_fields s c with ⟨h1, -⟩ | h1
    · exact absurd h1 h
    · exact h1
  · intro s r c hpc hr htry hc
    exact rx_downgrade_step s r c hpc hr htry hc
  · intro reads s o c h hch
    exact rx_downgrade_in_run destsz crc reads s o c h hch
  · intro reads s hs
    exact rx_crc_run destsz crc reads s hs

/-- C9, instances: `destsz = 128` with `crc = 1` and 33 timeouts, and with `crc = 0` and 17
timeouts. -/
theorem receiver_sync_downgrade_witness :
    (xmodemReceive 128 1 [] (33 + 0)
      = some ({ rxInit 128 1 with trychar := NAK, crc := 0, pc := .flushSync },
          List.replicate 16 CHR_C ++ List.replicate 16 NAK ++ [CAN, CAN, CAN], -2) ∧
      feed rxStep (rxStart 128 1) (List.replicate 15 (-1))
        = .more { rxInit 128 1 with pc := .sync 15 } (List.replicate 16 CHR_C) ∧
      feed rxStep (rxStart 128 1) (List.replicate 16 (-1))
        = .more { rxInit 128 1 with trychar := NAK, crc := 0 }
            (List.replicate 16 CHR_C ++ [NAK])) ∧
    xmodemReceive 128 0 [] (17 + 0)
      = some ({ rxInit 128 0 with pc := .flushSync },
          List.replicate 16 NAK ++ [CAN, CAN, CAN], -2) :=
  ⟨(receiver_sync_downgrade 128 1 0).1 (by decide),
    (receiver_sync_downgrade 128 0 0).2.1 rfl⟩

/-! ## C11: sender retry exhaustion -/

/-- The loop of line 327 on timeouts: from iteration `r`, the packet in `xbuff` is written
again at every further iteration up to the 25th, then CAN CAN CAN. -/
theorem tx_retry_loop : ∀ (k : Nat) (s : TxState) (r : Nat), s.pc = .reply r → r + k = 24 →
    feed txStep (.more s []) (List.replicate (k + 1) (-1))
      = .more { s with pc := .flush (-4) }
          ((List.replicate k
              (s.xbuff.take (s.bufsz + 4 + (if s.crc ≠ 0 then 1 else 0)))).flatten
            ++ [CAN, CAN, CAN]) := by
  intro k
  induction k with
  | zero =>
    intro s r hpc hr
    have hr' : r = 24 := by omega
    subst hr'
    rw [List.replicate_succ, feed_cons]
    have : txStep s (-1) = .more { s with pc := .flush (-4) } [CAN, CAN, CAN] := by
      unfold txStep
      rw [hpc]
      rfl
    rw [this]
    rfl
  | succ k ih =>
    intro s r hpc hr
    rw [List.replicate_succ, feed_cons]
    have hlt : ((r : Int) + 1) < MAXRETRANS := by
      show ((r : Int) + 1) < 25
      omega
    have : txStep s (-1) = .more { s with pc := .reply (r + 1) }
        (s.xbuff.take (s.bufsz + 4 + (if s.crc ≠ 0 then 1 else 0))) := by
      unfold txStep
      rw [hpc]
      simp only [txReplyNext, hlt, if_true, txSend]
      rfl
    rw [this, feed_more_eq, ih { s with pc := .reply (r + 1) } (r + 1) rfl (by omega)]
    simp only [Step.prepend, List.replicate_succ, List.flatten_cons, List.append_assoc]

theorem tx_sync_start (src : List Nat) (srcsz onek binary : Int) (sync : Int)
    (hsync : sync = CHR_C ∨ sync = NAK) :
    txStep (txInit src srcsz onek binary) sync
      = txStartTrans { txInit src srcsz onek binary with crc := if sync = CHR_C then 1 else 0 } := by
  rcases hsync with h | h
  · subst h
    rfl
  · subst h
    rfl

/-- C11. If the peer sends the sync character (the letter C or NAK) and every later read times
out, `xmodemTransmit` with `srcsz > 0` writes the packet of block 1 (leader, block size and
payload as lines 289-300 give them for `len = 0`, sequence number 1) 25 times, byte for byte
the same, then CAN CAN CAN, and returns -4; nothing else is written (no further packet, no
EOT). -/
theorem sender_retry_exhaustion (src : List Nat) (srcsz onek binary : Int) (sync : Int)
    (t : Nat) (hn : 0 < srcsz) (hsync : sync = CHR_C ∨ sync = NAK) :
    ∃ (s : TxState) (pkt : List Nat),
      xmodemTransmit src srcsz onek binary [sync] (26 + t)
        = some (s, (List.replicate 25 pkt).flatten ++ [CAN, CAN, CAN], -4) ∧
      pkt = txPacket src 0 (if onek ≠ 0 ∧ srcsz > 128 then STX else SOH)
              (if onek ≠ 0 ∧ srcsz > 128 then 1024 else 128) 1 binary
              (if sync = CHR_C then 1 else 0)
              (min srcsz (if onek ≠ 0 ∧ srcsz > 128 then 1024 else 128)) ∧
      pkt.length = (if onek ≠ 0 ∧ srcsz > 128 then 1024 else 128) + 4
                    + (if sync = CHR_C then 1 else 0) := by
  have hT : ∃ T0 : TxState,
      T0 = { txInit src srcsz onek binary with crc := if sync = CHR_C then 1 else 0 } :=
    ⟨_, rfl⟩
  obtain ⟨T0, hT0⟩ := hT
  have hbig : txBig T0 = decide (onek ≠ 0 ∧ srcsz > 128) := by
    rw [hT0]
    simp [txBig, txInit]
  have hbuf : txBufsz T0 = if onek ≠ 0 ∧ srcsz > 128 then 1024 else 128 := by
    unfold txBufsz
    rw [hbig]
    simp
  have hlead : txLeader T0 = if onek ≠ 0 ∧ srcsz > 128 then STX else SOH := by
    unfold txLeader
    rw [hbig]
    simp
  have hsz : T0.srcsz = srcsz := by rw [hT0]; rfl
  have hlen : T0.len = 0 := by rw [hT0]; rfl
  have hcnt : txCount T0 = min srcsz (if onek ≠ 0 ∧ srcsz > 128 then 1024 else 128) := by
    rw [txCount_data T0 (by rw [hsz]; omega), hbuf, hsz, hlen, min_comm]
    split <;> simp
  have hpos : txCount T0 > 0 := by
    rw [hcnt]
    split <;> omega
  have hpn : T0.packetno = 1 := by
    rw [hT0]
    have : srcsz ≠ 0 := by omega
    simp [txInit, this]
  have hcrc : T0.crc = if sync = CHR_C then 1 else 0 := by rw [hT0]
  have hcrc' : (if T0.crc ≠ 0 then 1 else 0) = (if sync = (CHR_C : Int) then 1 else 0) := by
    rw [hcrc]
    split <;> simp
  have hstart := tx_start_packet T0 (Or.inl hpos)
  have hpl := txPacket_length T0.src T0.len (txLeader T0) (txBufsz T0) T0.packetno T0.binary
    T0.crc (txCount T0) (txCount_le T0)
  refine ⟨(⟨T0.src, T0.srcsz, T0.onek, T0.binary, T0.crc, T0.packetno, T0.len, txBufsz T0,
      txPacket T0.src T0.len (txLeader T0) (txBufsz T0) T0.packetno T0.binary T0.crc
        (txCount T0), .flush (-4)⟩ : TxState),
    txPacket T0.src T0.len (txLeader T0) (txBufsz T0) T0.packetno T0.binary T0.crc
    (txCount T0), ?_, ?_, ?_⟩
  · unfold xmodemTransmit
    have e : List.replicate (26 + t) (-1 : Int)
        = List.replicate 25 (-1) ++ ([] ++ (-1 : Int) :: List.replicate t (-1)) := by
      rw [List.nil_append, ← List.replicate_succ, ← List.replicate_add]
      congr 1
      omega
    rw [e]
    apply driveList_eq_feed
    show feed txStep (.more (txInit src srcsz onek binary) [])
      (sync :: (List.replicate 25 (-1) ++ ([] ++ (-1 : Int) :: List.replicate t (-1)))) = _
    rw [feed_cons, tx_sync_start src srcsz onek binary sync hsync, ← hT0, hstart, feed_more_eq,
      feed_append txStep _ _ _ _ _ (tx_retry_loop 24 _ 0 rfl rfl),
      tx_flush_return _ (-4) rfl _ [] (-1) _ (by intro x hx; simp at hx) (by decide)]
    simp only [Step.prepend]
    congr 1
    rw [List.take_of_length_le (by rw [hpl])]
    simp [List.replicate_succ]
  · rw [hlead, hbuf, hcnt, hpn, hcrc]
    rw [hT0]
    rfl
  · rw [hpl, hbuf, hcrc']

/-! ## C12: three CANs before an unrecoverable error -/

theorem tx_start_done (s : TxState)
    (h : ¬ (txCount s > 0 ∨ (s.binary = 0 ∧ txCount s = 0))) (hs : s.srcsz = 0) :
    txStartTrans s = .done { s with bufsz := txBufsz s } [] s.len := by
  unfold txStartTrans
  simp only [h, if_false, hs, ne_eq, not_true_eq_false]

theorem txTail_startTrans (T : TxState) (o : List Nat) (h : 0 ≤ T.len) :
    TxTail ((txStartTrans T).prepend o) := by
  by_cases h1 : txCount T > 0 ∨ (T.binary = 0 ∧ txCount T = 0)
  · rw [tx_start_packet T h1]
    exact ⟨h, trivial⟩
  · by_cases hs : T.srcsz ≠ 0
    · rw [tx_start_eot T h1 hs]
      exact ⟨h, o, rfl⟩
    · rw [tx_start_done T h1 (by simpa using hs)]
      refine ⟨?_, ?_⟩
      · intro hr
        exfalso
        omega
      · intro hr
        exfalso
        omega

theorem txTail_step (s : TxState) (o : List Nat) (c : Int) (h : TxTail (.more s o)) :
    TxTail ((txStep s c).prepend o) := by
  obtain ⟨src, srcsz, onek, binary, crc, packetno, len, bufsz, xbuff, pc⟩ := s
  obtain ⟨hlen, hpc⟩ := h
  simp only [] at hlen hpc
  cases pc with
  | sync r =>
    simp only [txStep]
    split
    · split
      · exact txTail_startTrans _ o hlen
      · split
        · exact txTail_startTrans _ o hlen
        · split
          · exact ⟨hlen, trivial⟩
          · unfold txSyncNext
            split
            · exact ⟨hlen, trivial⟩
            · exact ⟨hlen, fun _ => ⟨o, rfl⟩, fun h => absurd h (by decide)⟩
    · unfold txSyncNext
      split
      · exact ⟨hlen, trivial⟩
      · exact ⟨hlen, fun _ => ⟨o, rfl⟩, fun h => absurd h (by decide)⟩
  | syncCan r =>
    simp only [txStep]
    split
    · exact ⟨hlen, fun h => absurd h (by decide), fun h => absurd h (by decide)⟩
    · unfold txSyncNext
      split
      · exact ⟨hlen, trivial⟩
      · exact ⟨hlen, fun _ => ⟨o, rfl⟩, fun h => absurd h (by decide)⟩
  | reply r =>
    simp only [txStep]
    split
    · split
      · exact txTail_startTrans _ o (by show 0 ≤ len + (bufsz : Int); omega)
      · split
        · exact ⟨hlen, trivial⟩
        · unfold txReplyNext
          split
          · exact ⟨hlen, trivial⟩
          · exact ⟨hlen, fun _ => ⟨o, rfl⟩, fun h => absurd h (by decide)⟩
    · unfold txReplyNext
      split
      · exact ⟨hlen, trivial⟩
      · exact ⟨hlen, fun _ => ⟨o, rfl⟩, fun h => absurd h (by decide)⟩
  | replyCan r =>
    simp only [txStep]
    split
    · exact ⟨hlen, fun h => absurd h (by decide), fun h => absurd h (by decide)⟩
    · unfold txReplyNext
      split
      · exact ⟨hlen, trivial⟩
      · exact ⟨hlen, fun _ => ⟨o, rfl⟩, fun h => absurd h (by decide)⟩
  | eot r =>
    obtain ⟨pre, hpre⟩ := hpc
    simp only [txStep]
    split
    · refine ⟨fun hr => ?_, fun hr => ?_⟩
      · exfalso
        have : len = -2 ∨ len = -4 := hr
        omega
      · exfalso
        have : len = -5 := hr
        omega
    · unfold txEotNext
      split
      · refine ⟨hlen, pre, ?_⟩
        show o ++ [EOT] = _
        rw [hpre, List.append_assoc, List.replicate_succ' (r + 1)]
      · rename_i hr
        refine ⟨hlen, fun h => absurd h (by decide), fun _ => ?_⟩
        refine ⟨pre ++ List.replicate (r + 1 - 10) EOT, ?_⟩
        show o ++ [] = _
        rw [hpre, List.append_nil, List.append_assoc, ← List.replicate_add]
        congr 2
        omega
  | flush r =>
    simp only [txStep]
    split
    · refine ⟨hlen, ?_⟩
      show (_ ∧ _)
      simpa using hpc
    · show (_ ∧ _)
      simpa [Step.prepend] using hpc

theorem rx_done_out (s : RxState) (c : Int) (s' : RxState) (o : List Nat) (r : Int)
    (h : rxStep s c = .done s' o r) :
    r = s'.len ∨ r = -1 ∨ ((r = -2 ∨ r = -3) ∧ o = [CAN, CAN, CAN]) := by
  have h0 := rx_ret s c s' o r h
  unfold rxStep at h
  have hnext : ∀ retry, rxSyncNext s retry ≠ .done s' o r := by
    intro retry
    unfold rxSyncNext rxSyncEnter
    split
    · simp
    · split <;> simp
  cases hpc : s.pc with
  | sync retry =>
    rw [hpc] at h
    simp only [rxStartRecv] at h
    split at h
    · split at h
      · simp at h
      · split at h
        · simp at h
        · split at h
          · simp only [Step.done.injEq] at h
            obtain ⟨h1, -, h3⟩ := h
            subst h1
            exact Or.inl h3.symm
          · split at h
            · simp at h
            · exact absurd h (hnext _)
    · exact absurd h (hnext _)
  | syncCan retry =>
    rw [hpc] at h
    simp only [] at h
    split at h
    · simp at h
    · exact absurd h (hnext _)
  | recv i =>
    rw [hpc] at h
    simp only [] at h
    by_cases hneg : c < 0
    · rw [if_pos hneg] at h
      simp at h
    · rw [if_neg hneg] at h
      by_cases hlt : i + 1 < s.bufsz + (if s.crc ≠ 0 then 1 else 0) + 3
      · rw [if_pos hlt] at h
        simp at h
      · rw [if_neg hlt] at h
        exact Or.inl (rxPacket_ret _ _ _ _ h)
  | flushCancel =>
    rw [hpc] at h
    simp only [] at h
    split at h
    · simp at h
    · simp only [Step.done.injEq] at h
      right; left; omega
  | flushSync =>
    rw [hpc] at h
    simp only [] at h
    split at h
    · simp at h
    · simp only [Step.done.injEq] at h
      right; right
      exact ⟨by omega, h.2.1.symm⟩
  | flushRetrans =>
    rw [hpc] at h
    simp only [] at h
    split at h
    · simp at h
    · simp only [Step.done.injEq] at h
      right; right
      exact ⟨by omega, h.2.1.symm⟩
  | flushReject =>
    rw [hpc] at h
    simp only [rxSyncEnter] at h
    split at h <;> simp at h

theorem rxTail_step (destsz : Int) (s : RxState) (o : List Nat) (c : Int)
    (h : RxTail destsz (.more s o)) : RxTail destsz ((rxStep s c).prepend o) := by
  have hinv := rxInv_step destsz s c h
  cases hst : rxStep s c with
  | more s1 o1 =>
    rw [hst] at hinv
    exact hinv
  | done s1 o1 r =>
    rw [hst] at hinv
    intro hr
    show ∃ pre, o ++ o1 = pre ++ [CAN, CAN, CAN]
    rcases rx_done_out s c s1 o1 r hst with h1 | h1 | ⟨-, h1⟩
    · have : 0 ≤ s1.len := hinv.2.1
      exfalso
      omega
    · exfalso
      omega
    · exact ⟨o, by rw [h1]⟩

theorem rxTail_run (destsz crc : Int) (reads : List Int) :
    RxTail destsz (feed rxStep (rxStart destsz crc) reads) :=
  feed_acc_inv rxStep (RxTail destsz) (rxTail_step destsz) reads _ (rxInv_start destsz crc)

theorem txTail_run (src : List Nat) (srcsz onek binary : Int) (reads : List Int) :
    TxTail (feed txStep (txStart src srcsz onek binary) reads) :=
  feed_acc_inv txStep TxTail txTail_step reads _ ⟨le_refl _, trivial⟩

/-- C12 (as amended). Whenever `xmodemReceive` returns -2 or -3, and whenever
`xmodemTransmit` returns -2 or -4, the last three bytes the call has written are CAN CAN CAN.
When `xmodemTransmit` returns -5 (no ACK after EOT) the last ten bytes it has written are
EOT: it writes no CAN after them. -/
theorem three_cans_before_error :
    (∀ (destsz crc : Int) (reads : List Int) (timeouts : Nat) (x : RxState × List Nat × Int),
      xmodemReceive destsz crc reads timeouts = some x → (x.2.2 = -2 ∨ x.2.2 = -3) →
      ∃ pre, x.2.1 = pre ++ [CAN, CAN, CAN]) ∧
    (∀ (src : List Nat) (srcsz onek binary : Int) (reads : List Int) (timeouts : Nat)
        (x : TxState × List Nat × Int),
      xmodemTransmit src srcsz onek binary reads timeouts = some x →
      ((x.2.2 = -2 ∨ x.2.2 = -4) → ∃ pre, x.2.1 = pre ++ [CAN, CAN, CAN]) ∧
      (x.2.2 = -5 → ∃ pre, x.2.1 = pre ++ List.replicate 10 EOT)) := by
  constructor
  · intro destsz crc reads timeouts x hx hr
    have h1 := rxTail_run destsz crc (reads ++ List.replicate timeouts (-1))
    rw [feed_of_driveList rxStep _ _ x hx] at h1
    exact h1 hr
  · intro src srcsz onek binary reads timeouts x hx
    have h1 := txTail_run src srcsz onek binary (reads ++ List.replicate timeouts (-1))
    rw [feed_of_driveList txStep _ _ x hx] at h1
    exact h1

/-- C12, an instance: the receiver on 17 timeouts in checksum mode returns -2 after
CAN CAN CAN. -/
theorem three_cans_before_error_witness :
    xmodemReceive 128 0 [] 17
      = some ({ rxInit 128 0 with pc := .flushSync },
          List.replicate 16 NAK ++ [CAN, CAN, CAN], -2) ∧
    ∃ pre, List.replicate 16 NAK ++ [CAN, CAN, CAN] = pre ++ [CAN, CAN, CAN] :=
  ⟨rfl, three_cans_before_error.1 128 0 [] 17
    ({ rxInit 128 0 with pc := .flushSync }, List.replicate 16 NAK ++ [CAN, CAN, CAN], -2)
    rfl (Or.inl rfl)⟩

set_option maxRecDepth 100000 in
/-- C12 as stated fails. The word hello sent in text mode to a peer that synchronises with
NAK, ACKs the packet and then never answers: `xmodemTransmit` writes the packet and ten EOT,
returns -5, and has written no CAN at all. -/
theorem three_cans_before_error_counterexample :
    ∃ s : TxState,
      xmodemTransmit sampleHello 5 0 0 [(NAK : Int), (ACK : Int)] 11
        = some (s, txPacket sampleHello 0 SOH 128 1 0 0 5 ++ List.replicate 10 EOT, -5) ∧
      CAN ∉ txPacket sampleHello 0 SOH 128 1 0 0 5 ++ List.replicate 10 EOT ∧
      ¬ ∃ pre, txPacket sampleHello 0 SOH 128 1 0 0 5 ++ List.replicate 10 EOT
          = pre ++ [CAN, CAN, CAN] := by
  have hno : CAN ∉ txPacket sampleHello 0 SOH 128 1 0 0 5 ++ List.replicate 10 EOT := by
    decide
  refine ⟨_, rfl, hno, ?_⟩
  rintro ⟨pre, h⟩
  apply hno
  rw [h]
  simp

/-! ## C13: control-block transmit -/

/-- Lines 289-300 in a control-block call (`srcsz = 0`): the block is SOH / 128 and `c` is
`128 - len`. -/
theorem tx_ctl_block (T : TxState) (hs : T.srcsz = 0) (hl : 0 ≤ T.len) :
    txBufsz T = 128 ∧ txLeader T = SOH ∧ txCount T = 128 - T.len := by
  have hbig : txBig T = false := by
    unfold txBig
    rw [hs]
    apply decide_eq_false
    intro h
    omega
  have hb : txBufsz T = 128 := by
    unfold txBufsz
    rw [hbig]
    rfl
  refine ⟨hb, ?_, ?_⟩
  · unfold txLeader
    rw [hbig]
    rfl
  · unfold txCount
    rw [hb, hs]
    simp only [ne_eq, not_true_eq_false, if_false]
    split
    · omega
    · rfl

theorem tx_ctl_first (src : List Nat) (onek binary crc : Int) :
    txStartTrans (⟨src, 0, onek, binary, crc, 0, 0, 0, [], .sync 0⟩ : TxState)
      = .more (⟨src, 0, onek, binary, crc, 0, 0, 128, txPacket src 0 SOH 128 0 binary crc 128,
          .reply 0⟩ : TxState) (txPacket src 0 SOH 128 0 binary crc 128) := by
  obtain ⟨hb, hl, hc⟩ := tx_ctl_block (⟨src, 0, onek, binary, crc, 0, 0, 0, [], .sync 0⟩ : TxState)
    rfl (le_refl _)
  have hc' : txCount (⟨src, 0, onek, binary, crc, 0, 0, 0, [], .sync 0⟩ : TxState) = 128 := by
    rw [hc]
    rfl
  rw [tx_start_packet _ (Or.inl (by rw [hc']; decide)), hb, hl, hc']

theorem tx_ctl_second_binary (src : List Nat) (onek binary crc : Int) (x : List Nat)
    (hbin : binary ≠ 0) :
    txStartTrans (⟨src, 0, onek, binary, crc, 1, 128, 128, x, .reply 0⟩ : TxState)
      = .done (⟨src, 0, onek, binary, crc, 1, 128, 128, x, .reply 0⟩ : TxState) [] 128 := by
  obtain ⟨hb, -, hc⟩ :=
    tx_ctl_block (⟨src, 0, onek, binary, crc, 1, 128, 128, x, .reply 0⟩ : TxState) rfl
      (by show (0 : Int) ≤ 128; decide)
  have hc' : txCount (⟨src, 0, onek, binary, crc, 1, 128, 128, x, .reply 0⟩ : TxState) = 0 := by
    rw [hc]
    rfl
  rw [tx_start_done _ (by rw [hc']; simp [hbin]) rfl, hb]

theorem tx_ctl_second_text (src : List Nat) (onek crc : Int) (x : List Nat) :
    txStartTrans (⟨src, 0, onek, 0, crc, 1, 128, 128, x, .reply 0⟩ : TxState)
      = .more (⟨src, 0, onek, 0, crc, 1, 128, 128, txPacket src 128 SOH 128 1 0 crc 0,
          .reply 0⟩ : TxState) (txPacket src 128 SOH 128 1 0 crc 0) := by
  obtain ⟨hb, hl, hc⟩ :=
    tx_ctl_block (⟨src, 0, onek, 0, crc, 1, 128, 128, x, .reply 0⟩ : TxState) rfl
      (by show (0 : Int) ≤ 128; decide)
  have hc' : txCount (⟨src, 0, onek, 0, crc, 1, 128, 128, x, .reply 0⟩ : TxState) = 0 := by
    rw [hc]
    rfl
  rw [tx_start_packet _ (Or.inr ⟨rfl, hc'⟩), hb, hl, hc']

theorem tx_ctl_third_text (src : List Nat) (onek crc : Int) (x : List Nat) :
    txStartTrans (⟨src, 0, onek, 0, crc, 2, 256, 128, x, .reply 0⟩ : TxState)
      = .done (⟨src, 0, onek, 0, crc, 2, 256, 128, x, .reply 0⟩ : TxState) [] 256 := by
  obtain ⟨hb, -, hc⟩ :=
    tx_ctl_block (⟨src, 0, onek, 0, crc, 2, 256, 128, x, .reply 0⟩ : TxState) rfl
      (by show (0 : Int) ≤ 256; decide)
  have hc' : txCount (⟨src, 0, onek, 0, crc, 2, 256, 128, x, .reply 0⟩ : TxState) = -128 := by
    rw [hc]
    rfl
  rw [tx_start_done _ (by rw [hc']; rintro (h | ⟨-, h⟩) <;> omega) rfl, hb]

set_option maxRecDepth 1000000 in
/-- C13. What `xmodemTransmit` does for `srcsz = 0` against a peer that sends a sync character
and ACKs every packet. In binary mode (`binary != 0`), for every `onek`: one packet (SOH,
seq 0, complement 0xFF, 128 data bytes, trailer) and the return value 128. In text mode
(`binary = 0`): the same packet, then after its ACK a second packet (SOH, seq 1, complement
0xFE, CTRL-Z and 127 zeros, trailer), and after the ACK of that one the return value 256.
Connected back to back with `xmodemReceive(.., 0, 0)` on a block of 128 bytes, the receiver
returns 128, and the transmitter returns 128 in binary mode and -4 in text mode. -/
theorem control_block_transmit (src : List Nat) (onek binary sync : Int) (t : Nat)
    (hsync : sync = CHR_C ∨ sync = NAK) :
    (binary ≠ 0 → ∃ s, xmodemTransmit src 0 onek binary [sync, (ACK : Int)] t
        = some (s, txPacket src 0 SOH 128 0 binary (if sync = CHR_C then 1 else 0) 128, 128)) ∧
    (binary = 0 → ∃ s, xmodemTransmit src 0 onek binary [sync, (ACK : Int), (ACK : Int)] t
        = some (s, txPacket src 0 SOH 128 0 0 (if sync = CHR_C then 1 else 0) 128
                ++ txPacket src 128 SOH 128 1 0 (if sync = CHR_C then 1 else 0) 0, 256)) ∧
    (txPacket src 0 SOH 128 0 binary (if sync = CHR_C then 1 else 0) 128).take 3
      = [SOH, 0, 0xFF] ∧
    txPacket src 128 SOH 128 1 0 (if sync = CHR_C then 1 else 0) 0
      = [SOH, 1, 0xFE] ++ (CTRLZ :: List.replicate 127 0)
          ++ txTrailer (if sync = CHR_C then 1 else 0) (CTRLZ :: List.replicate 127 0) 128 ∧
    (loopRun 161 sampleBlock 0 0 0 0 0).rx.ret = some 128 ∧
    (loopRun 161 sampleBlock 0 0 0 0 0).tx.ret = some (-4) ∧
    (loopRun 135 sampleBlock 0 0 1 0 0).rx.ret = some 128 ∧
    (loopRun 135 sampleBlock 0 0 1 0 0).tx.ret = some 128 := by
  have h1 : txStep (txInit src 0 onek binary) sync
      = .more (⟨src, 0, onek, binary, if sync = CHR_C then 1 else 0, 0, 0, 128,
          txPacket src 0 SOH 128 0 binary (if sync = CHR_C then 1 else 0) 128,
          .reply 0⟩ : TxState)
          (txPacket src 0 SOH 128 0 binary (if sync = CHR_C then 1 else 0) 128) := by
    rw [tx_sync_start src 0 onek binary sync hsync]
    exact tx_ctl_first src onek binary _
  refine ⟨?_, ?_, rfl, rfl, by decide, by decide, by decide, by decide⟩
  · intro hbin
    refine ⟨(⟨src, 0, onek, binary, if sync = CHR_C then 1 else 0, 1, 128, 128,
          txPacket src 0 SOH 128 0 binary (if sync = CHR_C then 1 else 0) 128,
          .reply 0⟩ : TxState),
      driveList_append_done txStep [sync, (ACK : Int)] _ _ _ _ _ ?_⟩
    show feed txStep (.more (txInit src 0 onek binary) []) [sync, (ACK : Int)] = _
    rw [feed_cons, h1, feed_more_eq, feed_cons]
    have h2 : txStep (⟨src, 0, onek, binary, if sync = CHR_C then 1 else 0, 0, 0, 128,
          txPacket src 0 SOH 128 0 binary (if sync = CHR_C then 1 else 0) 128,
          .reply 0⟩ : TxState) (ACK : Int)
        = txStartTrans (⟨src, 0, onek, binary, if sync = CHR_C then 1 else 0, 1, 128, 128,
          txPacket src 0 SOH 128 0 binary (if sync = CHR_C then 1 else 0) 128,
          .reply 0⟩ : TxState) := rfl
    rw [h2, tx_ctl_second_binary src onek binary _ _ hbin, feed_nil]
    simp only [Step.prepend, List.append_nil]
  · intro hbin
    subst hbin
    refine ⟨(⟨src, 0, onek, 0, if sync = CHR_C then 1 else 0, 2, 256, 128,
          txPacket src 128 SOH 128 1 0 (if sync = CHR_C then 1 else 0) 0,
          .reply 0⟩ : TxState),
      driveList_append_done txStep [sync, (ACK : Int), (ACK : Int)] _ _ _ _ _ ?_⟩
    show feed txStep (.more (txInit src 0 onek 0) []) [sync, (ACK : Int), (ACK : Int)] = _
    rw [feed_cons, h1, feed_more_eq, feed_cons]
    have h2 : txStep (⟨src, 0, onek, 0, if sync = CHR_C then 1 else 0, 0, 0, 128,
          txPacket src 0 SOH 128 0 0 (if sync = CHR_C then 1 else 0) 128,
          .reply 0⟩ : TxState) (ACK : Int)
        = txStartTrans (⟨src, 0, onek, 0, if sync = CHR_C then 1 else 0, 1, 128, 128,
          txPacket src 0 SOH 128 0 0 (if sync = CHR_C then 1 else 0) 128,
          .reply 0⟩ : TxState) := rfl
    rw [h2, tx_ctl_second_text, feed_more_eq, feed_cons]
    have h3 : txStep (⟨src, 0, onek, 0, if sync = CHR_C then 1 else 0, 1, 128, 128,
          txPacket src 128 SOH 128 1 0 (if sync = CHR_C then 1 else 0) 0,
          .reply 0⟩ : TxState) (ACK : Int)
        = txStartTrans (⟨src, 0, onek, 0, if sync = CHR_C then 1 else 0, 2, 256, 128,
          txPacket src 128 SOH 128 1 0 (if sync = CHR_C then 1 else 0) 0,
          .reply 0⟩ : TxState) := rfl
    rw [h3, tx_ctl_third_text, feed_nil]
    simp only [Step.prepend, List.append_nil]

set_option maxRecDepth 1000000 in
/-- C13, an instance: a block of 128 bytes, text mode, a peer that synchronises with NAK and
ACKs both packets. -/
theorem control_block_transmit_witness :
    ((NAK : Int) = CHR_C ∨ (NAK : Int) = NAK) ∧
    ∃ s, xmodemTransmit sampleBlock 0 0 0 [(NAK : Int), (ACK : Int), (ACK : Int)] 0
        = some (s, txPacket sampleBlock 0 SOH 128 0 0 (if (NAK : Int) = CHR_C then 1 else 0) 128
                ++ txPacket sampleBlock 128 SOH 128 1 0 (if (NAK : Int) = CHR_C then 1 else 0) 0,
                256) :=
  ⟨Or.inr rfl, (control_block_transmit sampleBlock 0 0 (NAK : Int) 0 (Or.inr rfl)).2.1 rfl⟩

/-! ## C14: text-mode tail padding -/

/-- Lines 302-314 for a payload of `0 <= c < bufsz` bytes: the payload, then in text mode one
CTRL-Z and zeros, in binary mode zeros only. -/
theorem txData_pad (src : List Nat) (len : Int) (bufsz : Nat) (binary c : Int)
    (h0 : 0 ≤ c) (h1 : c < (bufsz : Int)) :
    txData src len bufsz binary c
      = if binary = 0 then
          txFetch src len c.toNat ++ [CTRLZ] ++ List.replicate (bufsz - c.toNat - 1) 0
        else txFetch src len c.toNat ++ List.replicate (bufsz - c.toNat) 0 := by
  obtain ⟨e, rfl⟩ := Int.eq_ofNat_of_zero_le h0
  have he : e < bufsz := by omega
  simp only [Int.toNat_ofNat]
  obtain ⟨m, rfl⟩ : ∃ m, bufsz = e + (m + 1) := ⟨bufsz - e - 1, by omega⟩
  have hset : ∀ l : List Nat, l.length = e →
      (l ++ List.replicate (m + 1) 0).set e CTRLZ = l ++ [CTRLZ] ++ List.replicate m 0 := by
    intro l hl
    rw [List.set_append_right _ _ (by omega), hl, Nat.sub_self, List.replicate_succ,
      List.set_cons_zero, List.append_assoc]
    rfl
  have hd : (List.replicate (e + (m + 1)) 0).drop e = List.replicate (m + 1) (0 : Nat) := by
    rw [List.drop_replicate]
    congr 1
    omega
  have hm : e + (m + 1) - e - 1 = m := by omega
  have hm' : e + (m + 1) - e = m + 1 := by omega
  unfold txData
  simp only [Int.toNat_ofNat, hd, hm, hm']
  by_cases hb : binary = 0
  · simp only [hb, true_and, if_true]
    by_cases hc : (e : Int) = 0
    · have he0 : e = 0 := by omega
      subst he0
      simp only [hc, if_true]
      simp [txFetch, List.replicate_succ]
    · have hlt : (e : Int) < ((e + (m + 1) : Nat) : Int) := by omega
      simp only [hc, if_false, hlt, if_true]
      exact hset _ (txFetch_length _ _ _)
  · simp only [hb, false_and, if_false]

/-- In every run of `xmodemTransmit`, what a step that ends blocked at line 331 has written
is the packet of lines 297-326 for the current `len`. -/
theorem tx_reply_packet (src : List Nat) (srcsz onek binary : Int) (reads : List Int)
    (c : Int) (s s' : TxState) (out : List Nat) (r : Nat)
    (hs : stepsTo txStep (txStart src srcsz onek binary) reads = some s)
    (hstep : txStep s c = .more s' out) (hpc : s'.pc = .reply r) :
    out = txPacket src s'.len (txLeader s') (txBufsz s') s'.packetno binary s'.crc (txCount s')
      ∧ s'.src = src ∧ s'.srcsz = srcsz ∧ s'.onek = onek ∧ s'.binary = binary
      ∧ s'.bufsz = txBufsz s' := by
  have hrun : stepsTo txStep (txStart src srcsz onek binary) (reads ++ [c]) = some s' := by
    rw [stepsTo_snoc txStep reads _ s c hs, hstep]
    rfl
  have hinv := txInv_run src srcsz onek binary (reads ++ [c]) (txInit src srcsz onek binary) []
    0 none s' (txInv_init src srcsz onek binary) hrun
  have hout := tx_reply_out s s' c out r hstep hpc
  obtain ⟨a1, a2, a3, a4, a5, a6⟩ := hinv
  rw [hpc] at a6
  simp only [] at a6
  obtain ⟨-, hbuf, hx⟩ := a6
  have hlen := txPacket_length s'.src s'.len (txLeader s') (txBufsz s') s'.packetno s'.binary
    s'.crc (txCount s') (txCount_le s')
  refine ⟨?_, a1, a2, a3, a4, hbuf⟩
  rw [hout, hx, hbuf, a1, a4]
  apply List.take_of_length_le
  rw [← a1, ← a4, hlen]

theorem txPacket_data (src : List Nat) (len : Int) (leader bufsz packetno : Nat)
    (binary crc c : Int) (hc : c ≤ (bufsz : Int)) :
    ((txPacket src len leader bufsz packetno binary crc c).drop 3).take bufsz
      = txData src len bufsz binary c := by
  unfold txPacket
  simp only [List.cons_append, List.nil_append, List.drop_succ_cons, List.drop_zero]
  rw [List.take_append_of_le_length (by rw [txData_length _ _ _ _ _ hc])]
  apply List.take_of_length_le
  rw [txData_length _ _ _ _ _ hc]

/-- C14. In every run of `xmodemTransmit`, for every packet written whose payload length `e`
(the `c` of lines 299-300) satisfies `0 <= e < B`, with `B` the block size: in text mode the
data region (the `B` bytes after the three header bytes) is the `e` payload bytes taken at
`&ctx[len]`, then one CTRL-Z, then `B - e - 1` zeros; in binary mode it is the `e` payload
bytes, then `B - e` zeros. -/
theorem text_mode_padding (src : List Nat) (srcsz onek binary : Int) (reads : List Int)
    (c : Int) (s s' : TxState) (out : List Nat) (r : Nat)
    (hs : stepsTo txStep (txStart src srcsz onek binary) reads = some s)
    (hstep : txStep s c = .more s' out) (hpc : s'.pc = .reply r)
    (he0 : 0 ≤ txCount s') (he : txCount s' < (txBufsz s' : Int)) :
    (binary = 0 →
      (out.drop 3).take (txBufsz s')
        = txFetch src s'.len (txCount s').toNat ++ [CTRLZ]
            ++ List.replicate (txBufsz s' - (txCount s').toNat - 1) 0) ∧
    (binary ≠ 0 →
      (out.drop 3).take (txBufsz s')
        = txFetch src s'.len (txCount s').toNat
            ++ List.replicate (txBufsz s' - (txCount s').toNat) 0) := by
  obtain ⟨hout, -⟩ := tx_reply_packet src srcsz onek binary reads c s s' out r hs hstep hpc
  rw [hout, txPacket_data _ _ _ _ _ _ _ _ (txCount_le s'), txData_pad _ _ _ _ _ he0 he]
  constructor
  · intro hb
    rw [if_pos hb]
  · intro hb
    rw [if_neg hb]

/-- C14, an instance: the word hello, text mode, 128-byte block: the data region is hello,
then 0x1A, then 122 zeros. -/
theorem text_mode_padding_witness :
    stepsTo txStep (txStart sampleHello 5 0 0) [] = some (txInit sampleHello 5 0 0) ∧
    (0 : Int) ≤ txCount (txStep (txInit sampleHello 5 0 0) (NAK : Int)).state ∧
    txCount (txStep (txInit sampleHello 5 0 0) (NAK : Int)).state < (128 : Int) ∧
    (((txStep (txInit sampleHello 5 0 0) (NAK : Int)).out.drop 3).take 128
      = sampleHello ++ [0x1A] ++ List.replicate 122 0) :=
  ⟨rfl, by decide, by decide,
    (text_mode_padding sampleHello 5 0 0 [] (NAK : Int) (txInit sampleHello 5 0 0)
      (txStep (txInit sampleHello 5 0 0) (NAK : Int)).state
      (txStep (txInit sampleHello 5 0 0) (NAK : Int)).out 0 rfl rfl rfl (by decide)
      (by decide)).1 rfl⟩

/-! ## C15: the wire sequence of scenario R-1 -/

/-- Label `start_trans` when a packet is built, with the values of lines 289-300 given. -/
theorem tx_start_packet_of (T : TxState) (B leader : Nat) (c : Int) (hB : txBufsz T = B)
    (hl : txLeader T = leader) (hc : txCount T = c) (hpos : c > 0 ∨ (T.binary = 0 ∧ c = 0)) :
    txStartTrans T
      = .more (⟨T.src, T.srcsz, T.onek, T.binary, T.crc, T.packetno, T.len, B,
            txPacket T.src T.len leader B T.packetno T.binary T.crc c, .reply 0⟩ : TxState)
          (txPacket T.src T.len leader B T.packetno T.binary T.crc c) := by
  rw [tx_start_packet T (by rw [hc]; exact hpos), hB, hl, hc]

/-- Scenario R-1 on the transmitter: 2500 bytes, `onek = 1`, `binary = 1`, a peer that sends
the letter C and then ACKs everything. -/
theorem tx_r1_run (src : List Nat) (t : Nat) :
    xmodemTransmit src 2500 1 1 [(CHR_C : Int), (ACK : Int), (ACK : Int), (ACK : Int),
        (ACK : Int)] t
      = some ((⟨src, 2500, 1, 1, 1, 4, 3072, 128, txPacket src 2048 STX 1024 3 1 1 452,
                .eot 0⟩ : TxState),
          txPacket src 0 STX 1024 1 1 1 1024 ++ txPacket src 1024 STX 1024 2 1 1 1024
            ++ txPacket src 2048 STX 1024 3 1 1 452 ++ [EOT], 3072) := by
  apply driveList_append_done
  show feed txStep (.more (txInit src 2500 1 1) []) _ = _
  have h1 : txStep (txInit src 2500 1 1) (CHR_C : Int)
      = txStartTrans (⟨src, 2500, 1, 1, 1, 1, 0, 0, [], .sync 0⟩ : TxState) := by
    simp [txStep, txInit, CHR_C]
  have h1' := tx_start_packet_of (⟨src, 2500, 1, 1, 1, 1, 0, 0, [], .sync 0⟩ : TxState)
    1024 STX 1024 (by simp [txBufsz, txBig]) (by simp [txLeader, txBig])
    (by simp [txCount, txBufsz, txBig]) (Or.inl (by decide))
  have h2 : txStep (⟨src, 2500, 1, 1, 1, 1, 0, 1024, txPacket src 0 STX 1024 1 1 1 1024,
        .reply 0⟩ : TxState) (ACK : Int)
      = txStartTrans (⟨src, 2500, 1, 1, 1, 2, 1024, 1024, txPacket src 0 STX 1024 1 1 1 1024,
        .reply 0⟩ : TxState) := by
    simp [txStep, ACK]
  have h2' := tx_start_packet_of (⟨src, 2500, 1, 1, 1, 2, 1024, 1024,
      txPacket src 0 STX 1024 1 1 1 1024, .reply 0⟩ : TxState)
    1024 STX 1024 (by simp [txBufsz, txBig]) (by simp [txLeader, txBig])
    (by simp [txCount, txBufsz, txBig]) (Or.inl (by decide))
  have h3 : txStep (⟨src, 2500, 1, 1, 1, 2, 1024, 1024, txPacket src 1024 STX 1024 2 1 1 1024,
        .reply 0⟩ : TxState) (ACK : Int)
      = txStartTrans (⟨src, 2500, 1, 1, 1, 3, 2048, 1024,
        txPacket src 1024 STX 1024 2 1 1 1024, .reply 0⟩ : TxState) := by
    simp [txStep, ACK]
  have h3' := tx_start_packet_of (⟨src, 2500, 1, 1, 1, 3, 2048, 1024,
      txPacket src 1024 STX 1024 2 1 1 1024, .reply 0⟩ : TxState)
    1024 STX 452 (by simp [txBufsz, txBig]) (by simp [txLeader, txBig])
    (by simp [txCount, txBufsz, txBig]) (Or.inl (by decide))
  have h4 : txStep (⟨src, 2500, 1, 1, 1, 3, 2048, 1024, txPacket src 2048 STX 1024 3 1 1 452,
        .reply 0⟩ : TxState) (ACK : Int)
      = txStartTrans (⟨src, 2500, 1, 1, 1, 4, 3072, 1024,
        txPacket src 2048 STX 1024 3 1 1 452, .reply 0⟩ : TxState) := by
    simp [txStep, ACK]
  have h4' : txStartTrans (⟨src, 2500, 1, 1, 1, 4, 3072, 1024,
        txPacket src 2048 STX 1024 3 1 1 452, .reply 0⟩ : TxState)
      = .more (⟨src, 2500, 1, 1, 1, 4, 3072, 128, txPacket src 2048 STX 1024 3 1 1 452,
                .eot 0⟩ : TxState) [EOT] := by
    have hc : txCount (⟨src, 2500, 1, 1, 1, 4, 3072, 1024,
        txPacket src 2048 STX 1024 3 1 1 452, .reply 0⟩ : TxState) = -572 := by
      simp [txCount, txBufsz, txBig]
    rw [tx_start_eot _ (by rw [hc]; rintro (h | ⟨-, h⟩) <;> omega)
      (by show (2500 : Int) ≠ 0; decide)]
    simp [txBufsz, txBig]
  have h5 : txStep (⟨src, 2500, 1, 1, 1, 4, 3072, 128, txPacket src 2048 STX 1024 3 1 1 452,
                .eot 0⟩ : TxState) (ACK : Int)
      = .done (⟨src, 2500, 1, 1, 1, 4, 3072, 128, txPacket src 2048 STX 1024 3 1 1 452,
                .eot 0⟩ : TxState) [] 3072 := by
    simp [txStep, ACK]
  rw [feed_cons, h1, h1', feed_more_eq, feed_cons, h2, h2', feed_more_eq, feed_cons, h3, h3',
    feed_more_eq, feed_cons, h4, h4', feed_more_eq, feed_cons, h5, feed_nil]
  simp only [Step.prepend, List.append_nil, List.append_assoc]

/-- C15 (as amended). With `srcsz = 2500`, `onek = 1`, `binary = 1` and a peer that
synchronises with the letter C and ACKs every packet and the EOT, `xmodemTransmit` writes
exactly three data packets followed by one EOT; all three have leader STX and 1024 data bytes
(1029 bytes each), their sequence numbers are 1, 2, 3, the third carries the last 452 source
bytes (452 > 128), and the call returns 3072. -/
theorem r1_wire_sequence (src : List Nat) (t : Nat) :
    ∃ (s : TxState) (p1 p2 p3 : List Nat),
      xmodemTransmit src 2500 1 1
          [(CHR_C : Int), (ACK : Int), (ACK : Int), (ACK : Int), (ACK : Int)] t
        = some (s, p1 ++ p2 ++ p3 ++ [EOT], 3072) ∧
      p1 = txPacket src 0 STX 1024 1 1 1 1024 ∧ p2 = txPacket src 1024 STX 1024 2 1 1 1024 ∧
      p3 = txPacket src 2048 STX 1024 3 1 1 452 ∧
      p1.length = 1029 ∧ p2.length = 1029 ∧ p3.length = 1029 ∧
      p1.take 2 = [STX, 1] ∧ p2.take 2 = [STX, 2] ∧ p3.take 2 = [STX, 3] :=
  ⟨_, _, _, _, tx_r1_run src t, rfl, rfl, rfl,
    txPacket_length src 0 STX 1024 1 1 1 1024 (by decide),
    txPacket_length src 1024 STX 1024 2 1 1 1024 (by decide),
    txPacket_length src 2048 STX 1024 3 1 1 452 (by decide), rfl, rfl, rfl⟩

/-- C15 as stated fails: on a source of 2500 bytes the third packet has leader STX, not SOH,
and is 1029 bytes long (a block of 1024 data bytes), not 133. -/
theorem r1_wire_sequence_counterexample :
    ∃ (s : TxState) (p1 p2 p3 : List Nat),
      xmodemTransmit sampleSource 2500 1 1
          [(CHR_C : Int), (ACK : Int), (ACK : Int), (ACK : Int), (ACK : Int)] 0
        = some (s, p1 ++ p2 ++ p3 ++ [EOT], 3072) ∧
      p1.length = 1029 ∧ p2.length = 1029 ∧ p3.length = 1029 ∧
      p3.headD 0 = STX ∧ p3.headD 0 ≠ SOH ∧ p3.getD 1 0 = 3 :=
  ⟨_, _, _, _, tx_r1_run sampleSource 0,
    txPacket_length sampleSource 0 STX 1024 1 1 1 1024 (by decide),
    txPacket_length sampleSource 1024 STX 1024 2 1 1 1024 (by decide),
    txPacket_length sampleSource 2048 STX 1024 3 1 1 452 (by decide), rfl, by decide, rfl⟩

/-! ## C16: transmit byte accounting -/

theorem tx_small_block (T : TxState) (h : T.onek = 0) (hs : T.srcsz ≠ 0) :
    txBufsz T = 128 ∧ txCount T = min 128 (T.srcsz - T.len) := by
  have hbig : txBig T = false := by
    unfold txBig
    rw [h]
    apply decide_eq_false
    intro h
    exact h.1 rfl
  have hb : txBufsz T = 128 := by
    unfold txBufsz
    rw [hbig]
    rfl
  refine ⟨hb, ?_⟩
  rw [txCount_data T hs, hb]
  rfl

theorem txLenInv_startTrans (n binary : Int) (T : TxState) (hn : 0 < n) (h1 : T.srcsz = n)
    (h2 : T.onek = 0) (h3 : T.binary = binary) (h4 : 0 ≤ T.len) (h5 : T.len % 128 = 0)
    (h6 : T.len = 0 ∨ ((binary ≠ 0 → T.len - 128 < n) ∧ (binary = 0 → T.len - 128 ≤ n))) :
    TxLenInv n binary (txStartTrans T).state ∧ ∃ s o, txStartTrans T = .more s o := by
  obtain ⟨hb, hc⟩ := tx_small_block T h2 (by rw [h1]; omega)
  rw [h1] at hc
  by_cases hp : txCount T > 0 ∨ (T.binary = 0 ∧ txCount T = 0)
  · rw [tx_start_packet T hp]
    refine ⟨⟨h1, h2, h3, h4, h5, hb, ?_, ?_⟩, _, _, rfl⟩
    · intro hbin
      rw [h3] at hp
      show T.len < n
      clear * - hp hc hbin
      omega
    · intro hbin
      show T.len ≤ n
      clear * - hp hc hbin
      omega
  · rw [tx_start_eot T hp (by rw [h1]; omega)]
    refine ⟨⟨h1, h2, h3, h4, h5, ?_, ?_⟩, _, _, rfl⟩
    · intro hbin
      show n ≤ T.len ∧ T.len - 128 < n
      rw [h3] at hp
      have := h6
      clear * - hp hc hbin this hn
      omega
    · intro hbin
      show n < T.len ∧ T.len - 128 ≤ n
      rw [h3] at hp
      have := h6
      clear * - hp hc hbin this hn
      omega

theorem txLenInv_step (n binary : Int) (hn : 0 < n) (s : TxState) (c : Int)
    (h : TxLenInv n binary s) : TxLenInv n binary (txStep s c).state := by
  obtain ⟨src, srcsz, onek, binary', crc, packetno, len, bufsz, xbuff, pc⟩ := s
  obtain ⟨h1, h2, h3, h4, h5, h6⟩ := h
  simp only [] at h1 h2 h3 h4 h5 h6
  cases pc with
  | sync r =>
    simp only [] at h6
    have hst : ∀ crc', TxLenInv n binary
        (txStartTrans (⟨src, srcsz, onek, binary', crc', packetno, len, bufsz, xbuff,
          .sync r⟩ : TxState)).state :=
      fun crc' => (txLenInv_startTrans n binary _ hn h1 h2 h3 h4 h5 (Or.inl h6)).1
    have hnx : TxLenInv n binary (txSyncNext (⟨src, srcsz, onek, binary', crc, packetno, len,
        bufsz, xbuff, .sync r⟩ : TxState) r).state := by
      unfold txSyncNext
      split
      · exact ⟨h1, h2, h3, h4, h5, h6⟩
      · exact ⟨h1, h2, h3, h4, h5, (show (-2 : Int) < 0 from by decide)⟩
    simp only [txStep]
    split
    · split
      · exact hst _
      · split
        · exact hst _
        · split
          · exact ⟨h1, h2, h3, h4, h5, h6⟩
          · exact hnx
    · exact hnx
  | syncCan r =>
    simp only [] at h6
    simp only [txStep]
    split
    · exact ⟨h1, h2, h3, h4, h5, (show (-1 : Int) < 0 from by decide)⟩
    · unfold txSyncNext
      split
      · exact ⟨h1, h2, h3, h4, h5, h6⟩
      · exact ⟨h1, h2, h3, h4, h5, (show (-2 : Int) < 0 from by decide)⟩
  | reply r =>
    simp only [] at h6
    obtain ⟨hb, h7, h8⟩ := h6
    have hnx : TxLenInv n binary (txReplyNext (⟨src, srcsz, onek, binary', crc, packetno, len,
        bufsz, xbuff, .reply r⟩ : TxState) r).state := by
      unfold txReplyNext txSend
      split
      · exact ⟨h1, h2, h3, h4, h5, hb, h7, h8⟩
      · exact ⟨h1, h2, h3, h4, h5, (show (-4 : Int) < 0 from by decide)⟩
    simp only [txStep]
    split
    · split
      · refine (txLenInv_startTrans n binary _ hn h1 h2 h3 ?_ ?_ (Or.inr ⟨?_, ?_⟩)).1
        · show 0 ≤ len + (bufsz : Int)
          omega
        · show (len + (bufsz : Int)) % 128 = 0
          rw [hb]
          omega
        · intro hbin
          show len + (bufsz : Int) - 128 < n
          have := h7 hbin
          rw [hb]
          omega
        · intro hbin
          show len + (bufsz : Int) - 128 ≤ n
          have := h8 hbin
          rw [hb]
          omega
      · split
        · exact ⟨h1, h2, h3, h4, h5, hb, h7, h8⟩
        · exact hnx
    · exact hnx
  | replyCan r =>
    simp only [] at h6
    obtain ⟨hb, h7, h8⟩ := h6
    simp only [txStep]
    split
    · exact ⟨h1, h2, h3, h4, h5, (show (-1 : Int) < 0 from by decide)⟩
    · unfold txReplyNext txSend
      split
      · exact ⟨h1, h2, h3, h4, h5, hb, h7, h8⟩
      · exact ⟨h1, h2, h3, h4, h5, (show (-4 : Int) < 0 from by decide)⟩
  | eot r =>
    simp only [] at h6
    simp only [txStep]
    split
    · exact ⟨h1, h2, h3, h4, h5, h6⟩
    · unfold txEotNext
      split
      · exact ⟨h1, h2, h3, h4, h5, h6⟩
      · exact ⟨h1, h2, h3, h4, h5, (show (-5 : Int) < 0 from by decide)⟩
  | flush r =>
    simp only [] at h6
    simp only [txStep]
    split
    · exact ⟨h1, h2, h3, h4, h5, h6⟩
    · exact ⟨h1, h2, h3, h4, h5, h6⟩

theorem txAcct_more (s : TxState) (d : Int) (s' : TxState) (o : List Nat)
    (h1 : s'.len = s.len + d) (h2 : TxFlushNeg s') : TxAcct s d (.more s' o) := by
  refine ⟨h1, ?_, ?_⟩
  · intro s1 o1 e
    simp only [Step.more.injEq] at e
    rw [← e.1]
    exact h2
  · intro s1 o1 r e
    simp at e

theorem txAcct_startTrans (s T : TxState) (d : Int) (h : T.len = s.len + d) :
    TxAcct s d (txStartTrans T) := by
  by_cases hp : txCount T > 0 ∨ (T.binary = 0 ∧ txCount T = 0)
  · rw [tx_start_packet T hp]
    exact txAcct_more s d _ _ h trivial
  · by_cases hs : T.srcsz ≠ 0
    · rw [tx_start_eot T hp hs]
      exact txAcct_more s d _ _ h trivial
    · rw [tx_start_done T hp (by simpa using hs)]
      refine ⟨h, ?_, ?_⟩
      · intro s1 o1 e
        simp at e
      · intro s1 o1 r e
        simp only [Step.done.injEq] at e
        obtain ⟨e1, -, e3⟩ := e
        left
        rw [← e1, ← e3]

theorem txAcct_step (s : TxState) (c : Int) (h : TxFlushNeg s) :
    TxAcct s (txAckedBytesStep s c) (txStep s c) := by
  obtain ⟨src, srcsz, onek, binary, crc, packetno, len, bufsz, xbuff, pc⟩ := s
  cases pc with
  | sync r =>
    have h0 : txAckedBytesStep (⟨src, srcsz, onek, binary, crc, packetno, len, bufsz, xbuff,
        .sync r⟩ : TxState) c = 0 := by
      simp [txAckedBytesStep, TxPc.isReply]
    rw [h0]
    have hnx : TxAcct (⟨src, srcsz, onek, binary, crc, packetno, len, bufsz, xbuff,
        .sync r⟩ : TxState) 0 (txSyncNext (⟨src, srcsz, onek, binary, crc, packetno, len,
        bufsz, xbuff, .sync r⟩ : TxState) r) := by
      unfold txSyncNext
      split
      · exact txAcct_more _ _ _ _ (by simp) trivial
      · exact txAcct_more _ _ _ _ (by simp) (show (-2 : Int) < 0 from by decide)
    simp only [txStep]
    split
    · split
      · exact txAcct_startTrans _ _ _ (by simp)
      · split
        · exact txAcct_startTrans _ _ _ (by simp)
        · split
          · exact txAcct_more _ _ _ _ (by simp) trivial
          · exact hnx
    · exact hnx
  | syncCan r =>
    have h0 : txAckedBytesStep (⟨src, srcsz, onek, binary, crc, packetno, len, bufsz, xbuff,
        .syncCan r⟩ : TxState) c = 0 := by
      simp [txAckedBytesStep, TxPc.isReply]
    rw [h0]
    simp only [txStep]
    split
    · exact txAcct_more _ _ _ _ (by simp) (show (-1 : Int) < 0 from by decide)
    · unfold txSyncNext
      split
      · exact txAcct_more _ _ _ _ (by simp) trivial
      · exact txAcct_more _ _ _ _ (by simp) (show (-2 : Int) < 0 from by decide)
  | reply r =>
    have hnx : TxAcct (⟨src, srcsz, onek, binary, crc, packetno, len, bufsz, xbuff,
        .reply r⟩ : TxState) 0 (txReplyNext (⟨src, srcsz, onek, binary, crc, packetno, len,
        bufsz, xbuff, .reply r⟩ : TxState) r) := by
      unfold txReplyNext txSend
      split
      · exact txAcct_more _ _ _ _ (by simp) trivial
      · exact txAcct_more _ _ _ _ (by simp) (show (-4 : Int) < 0 from by decide)
    by_cases hc : c = ACK
    · have h0 : txAckedBytesStep (⟨src, srcsz, onek, binary, crc, packetno, len, bufsz, xbuff,
          .reply r⟩ : TxState) c = bufsz := by
        simp [txAckedBytesStep, TxPc.isReply, hc]
      rw [h0]
      have hge : c ≥ 0 := by rw [hc]; decide
      simp only [txStep, hge, hc, if_true]
      exact txAcct_startTrans _ _ _ rfl
    · have h0 : txAckedBytesStep (⟨src, srcsz, onek, binary, crc, packetno, len, bufsz, xbuff,
          .reply r⟩ : TxState) c = 0 := by
        simp [txAckedBytesStep, TxPc.isReply, hc]
      rw [h0]
      simp only [txStep, hc, if_false]
      split
      · split
        · exact txAcct_more _ _ _ _ (by simp) trivial
        · exact hnx
      · exact hnx
  | replyCan r =>
    have h0 : txAckedBytesStep (⟨src, srcsz, onek, binary, crc, packetno, len, bufsz, xbuff,
        .replyCan r⟩ : TxState) c = 0 := by
      simp [txAckedBytesStep, TxPc.isReply]
    rw [h0]
    simp only [txStep]
    split
    · exact txAcct_more _ _ _ _ (by simp) (show (-1 : Int) < 0 from by decide)
    · unfold txReplyNext txSend
      split
      · exact txAcct_more _ _ _ _ (by simp) trivial
      · exact txAcct_more _ _ _ _ (by simp) (show (-4 : Int) < 0 from by decide)
  | eot r =>
    have h0 : txAckedBytesStep (⟨src, srcsz, onek, binary, crc, packetno, len, bufsz, xbuff,
        .eot r⟩ : TxState) c = 0 := by
      simp [txAckedBytesStep, TxPc.isReply]
    rw [h0]
    simp only [txStep]
    split
    · refine ⟨by simp [Step.state], ?_, ?_⟩
      · intro s1 o1 e
        simp at e
      · intro s1 o1 r1 e
        simp only [Step.done.injEq] at e
        obtain ⟨e1, -, e3⟩ := e
        left
        rw [← e1, ← e3]
    · unfold txEotNext
      split
      · exact txAcct_more _ _ _ _ (by simp) trivial
      · exact txAcct_more _ _ _ _ (by simp) (show (-5 : Int) < 0 from by decide)
  | flush r =>
    have h0 : txAckedBytesStep (⟨src, srcsz, onek, binary, crc, packetno, len, bufsz, xbuff,
        .flush r⟩ : TxState) c = 0 := by
      simp [txAckedBytesStep, TxPc.isReply]
    rw [h0]
    have hr : r < 0 := h
    simp only [txStep]
    split
    · exact txAcct_more _ _ _ _ (by simp) hr
    · refine ⟨by simp [Step.state], ?_, ?_⟩
      · intro s1 o1 e
        simp at e
      · intro s1 o1 r1 e
        simp only [Step.done.injEq] at e
        right
        rw [← e.2.2]
        exact hr

theorem tx_bytes_run : ∀ (reads : List Int) (s0 : TxState) (o : List Nat)
    (x : TxState × List Nat × Int), TxFlushNeg s0 →
    driveList txStep (.more s0 o) reads = some x → 0 ≤ x.2.2 →
    x.2.2 = s0.len + txAckedBytes (.more s0 o) reads := by
  intro reads
  induction reads with
  | nil =>
    intro s0 o x _ h
    simp [driveList] at h
  | cons c cs ih =>
    intro s0 o x h0 h hx
    obtain ⟨a1, a2, a3⟩ := txAcct_step s0 c h0
    simp only [driveList, Option.map_eq_some'] at h
    obtain ⟨y, hy, hxy⟩ := h
    subst hxy
    show y.2.2 = s0.len + (txAckedBytesStep s0 c + txAckedBytes (txStep s0 c) cs)
    cases hst : txStep s0 c with
    | more s1 o1 =>
      rw [hst] at hy a1
      rw [ih s1 o1 y (a2 s1 o1 hst) hy hx]
      have : s1.len = s0.len + txAckedBytesStep s0 c := a1
      omega
    | done s1 o1 r =>
      rw [hst] at hy a1
      simp only [driveList, Option.some.injEq] at hy
      have e : y.2.2 = r := by rw [← hy]
      have hx' : 0 ≤ y.2.2 := hx
      have : s1.len = s0.len + txAckedBytesStep s0 c := a1
      rcases a3 s1 o1 r hst with h3 | h3
      · simp only [txAckedBytes]
        omega
      · omega

theorem txStartTrans_done (T s' : TxState) (o : List Nat) (r : Int)
    (h : txStartTrans T = .done s' o r) : T.srcsz = 0 := by
  by_cases hp : txCount T > 0 ∨ (T.binary = 0 ∧ txCount T = 0)
  · rw [tx_start_packet T hp] at h
    simp at h
  · by_cases hs : T.srcsz ≠ 0
    · rw [tx_start_eot T hp hs] at h
      simp at h
    · simpa using hs

/-- The places where `xmodemTransmit` returns: line 370 (`srcsz = 0`), line 361 (after the
ACK of an EOT) and after a `flushinput()`. -/
theorem tx_done_cases (s : TxState) (c : Int) (s' : TxState) (o : List Nat) (r : Int)
    (h : txStep s c = .done s' o r) :
    s.srcsz = 0 ∨ (∃ k, s.pc = .eot k ∧ r = s.len) ∨ (∃ q, s.pc = .flush q ∧ r = q) := by
  obtain ⟨src, srcsz, onek, binary, crc, packetno, len, bufsz, xbuff, pc⟩ := s
  cases pc with
  | sync k =>
    left
    simp only [txStep] at h
    have hnx : ∀ t : TxState, txSyncNext t k ≠ .done s' o r := by
      intro t
      unfold txSyncNext
      split <;> simp
    split at h
    · split at h
      · exact (txStartTrans_done _ _ _ _ h :)
      · split at h
        · exact (txStartTrans_done _ _ _ _ h :)
        · split at h
          · simp at h
          · exact absurd h (hnx _)
    · exact absurd h (hnx _)
  | syncCan k =>
    exfalso
    simp only [txStep] at h
    split at h
    · simp at h
    · unfold txSyncNext at h
      split at h <;> simp at h
  | reply k =>
    left
    simp only [txStep] at h
    have hnx : ∀ t : TxState, txReplyNext t k ≠ .done s' o r := by
      intro t
      unfold txReplyNext txSend
      split <;> simp
    split at h
    · split at h
      · exact (txStartTrans_done _ _ _ _ h :)
      · split at h
        · simp at h
        · exact absurd h (hnx _)
    · exact absurd h (hnx _)
  | replyCan k =>
    exfalso
    simp only [txStep] at h
    split at h
    · simp at h
    · unfold txReplyNext txSend at h
      split at h <;> simp at h
  | eot k =>
    right; left
    simp only [txStep] at h
    split at h
    · simp only [Step.done.injEq] at h
      exact ⟨k, rfl, h.2.2.symm⟩
    · unfold txEotNext at h
      split at h <;> simp at h
  | flush q =>
    right; right
    simp only [txStep] at h
    split at h
    · simp at h
    · simp only [Step.done.injEq] at h
      exact ⟨q, rfl, h.2.2.symm⟩

theorem tx_len_final (n binary : Int) (hn : 0 < n) (s : TxState) (c : Int) (s' : TxState)
    (o : List Nat) (r : Int) (h : TxLenInv n binary s) (hst : txStep s c = .done s' o r)
    (hr : 0 ≤ r) :
    (binary ≠ 0 → r = 128 * ((n + 127) / 128)) ∧ (binary = 0 → r = 128 * (n / 128 + 1)) := by
  obtain ⟨h1, h2, h3, h4, h5, h6⟩ := h
  rcases tx_done_cases s c s' o r hst with h0 | ⟨k, hk, hrk⟩ | ⟨q, hq, hrq⟩
  · exfalso
    omega
  · rw [hk] at h6
    simp only [] at h6
    constructor
    · intro hb
      have := h6.1 hb
      omega
    · intro hb
      have := h6.2 hb
      omega
  · rw [hq] at h6
    simp only [] at h6
    exfalso
    omega

theorem txRange_startTrans (n : Int) (T : TxState) (hn : 0 < n) (h1 : T.srcsz = n)
    (h2 : 0 ≤ T.len) (h3 : T.len ≤ n + 1024) : TxRange n (txStartTrans T).state := by
  have hcases : txBufsz T = 128 ∨ txBufsz T = 1024 := by
    rcases txLeader_cases T with ⟨-, h⟩ | ⟨-, h⟩
    · exact Or.inl h
    · exact Or.inr h
  have hc := txCount_data T (by rw [h1]; omega)
  rw [h1] at hc
  by_cases hp : txCount T > 0 ∨ (T.binary = 0 ∧ txCount T = 0)
  · rw [tx_start_packet T hp]
    refine ⟨h1, h2, h3, ?_, hcases⟩
    show T.len ≤ n
    have hge : 0 ≤ txCount T := by
      rcases hp with hp | ⟨-, hp⟩ <;> omega
    clear * - hge hc hcases
    rcases hcases with h | h <;> omega
  · rw [tx_start_eot T hp (by rw [h1]; omega)]
    exact ⟨h1, h2, h3, trivial⟩

theorem txRange_step (n : Int) (hn : 0 < n) (s : TxState) (c : Int) (h : TxRange n s) :
    TxRange n (txStep s c).state := by
  obtain ⟨src, srcsz, onek, binary, crc, packetno, len, bufsz, xbuff, pc⟩ := s
  obtain ⟨h1, h2, h3, h4⟩ := h
  simp only [] at h1 h2 h3 h4
  cases pc with
  | sync r =>
    have hnx : TxRange n (txSyncNext (⟨src, srcsz, onek, binary, crc, packetno, len,
        bufsz, xbuff, .sync r⟩ : TxState) r).state := by
      unfold txSyncNext
      split
      · exact ⟨h1, h2, h3, h4⟩
      · exact ⟨h1, h2, h3, (show (-2 : Int) < 0 from by decide)⟩
    simp only [txStep]
    split
    · split
      · exact txRange_startTrans n _ hn h1 h2 h3
      · split
        · exact txRange_startTrans n _ hn h1 h2 h3
        · split
          · exact ⟨h1, h2, h3, h4⟩
          · exact hnx
    · exact hnx
  | syncCan r =>
    simp only [txStep]
    split
    · exact ⟨h1, h2, h3, (show (-1 : Int) < 0 from by decide)⟩
    · unfold txSyncNext
      split
      · exact ⟨h1, h2, h3, h4⟩
      · exact ⟨h1, h2, h3, (show (-2 : Int) < 0 from by decide)⟩
  | reply r =>
    obtain ⟨h5, h6⟩ := h4
    have hnx : TxRange n (txReplyNext (⟨src, srcsz, onek, binary, crc, packetno, len,
        bufsz, xbuff, .reply r⟩ : TxState) r).state := by
      unfold txReplyNext txSend
      split
      · exact ⟨h1, h2, h3, h5, h6⟩
      · exact ⟨h1, h2, h3, (show (-4 : Int) < 0 from by decide)⟩
    simp only [txStep]
    split
    · split
      · refine txRange_startTrans n _ hn h1 ?_ ?_
        · show 0 ≤ len + (bufsz : Int)
          omega
        · show len + (bufsz : Int) ≤ n + 1024
          rcases h6 with h6 | h6 <;> omega
      · split
        · exact ⟨h1, h2, h3, h5, h6⟩
        · exact hnx
    · exact hnx
  | replyCan r =>
    obtain ⟨h5, h6⟩ := h4
    simp only [txStep]
    split
    · exact ⟨h1, h2, h3, (show (-1 : Int) < 0 from by decide)⟩
    · unfold txReplyNext txSend
      split
      · exact ⟨h1, h2, h3, h5, h6⟩
      · exact ⟨h1, h2, h3, (show (-4 : Int) < 0 from by decide)⟩
  | eot r =>
    simp only [txStep]
    split
    · exact ⟨h1, h2, h3, trivial⟩
    · unfold txEotNext
      split
      · exact ⟨h1, h2, h3, trivial⟩
      · exact ⟨h1, h2, h3, (show (-5 : Int) < 0 from by decide)⟩
  | flush r =>
    simp only [txStep]
    split
    · exact ⟨h1, h2, h3, h4⟩
    · exact ⟨h1, h2, h3, h4⟩

theorem txRange_final (n : Int) (hn : 0 < n) (s : TxState) (c : Int) (s' : TxState)
    (o : List Nat) (r : Int) (h : TxRange n s) (hst : txStep s c = .done s' o r)
    (hr : 0 ≤ r) : r ≤ n + 1024 := by
  obtain ⟨h1, h2, h3, h4⟩ := h
  rcases tx_done_cases s c s' o r hst with h0 | ⟨k, hk, hrk⟩ | ⟨q, hq, hrq⟩
  · omega
  · omega
  · rw [hq] at h4
    simp only [] at h4
    omega

theorem txRange_start (src : List Nat) (n onek binary : Int) (hn : 0 < n) :
    TxRange n (txStart src n onek binary).state :=
  ⟨rfl, le_refl _, by show (0 : Int) ≤ n + 1024; omega, rfl⟩

/-- C16 (as amended). Let `0 < n` and `n + 1024 <= INT_MAX = 2147483647`. On every return of
`xmodemTransmit(.., n, onek, binary)` with a value `>= 0`, the value is the sum of the block
sizes of the ACKed packets; with `onek = 0` it is, in binary mode, the smallest multiple of
128 that is at least `n`, and in text mode the smallest multiple of 128 that is greater than
`n`; and the value is at most `INT_MAX`. No `int` of the call leaves its range: at every call
of `_inbyte`, `len` lies in `0 .. INT_MAX` and `srcsz - len` in `-1024 .. INT_MAX`, and while
a reply is awaited `len + bufsz`, the sum of line 335, is at most `INT_MAX`. -/
theorem transmit_byte_accounting (src : List Nat) (n onek binary : Int) (reads : List Int)
    (timeouts : Nat) (x : TxState × List Nat × Int) (hn : 0 < n)
    (hsmall : n + 1024 ≤ 2147483647)
    (hx : xmodemTransmit src n onek binary reads timeouts = some x) (hok : 0 ≤ x.2.2) :
    x.2.2 = txAckedBytes (txStart src n onek binary) (reads ++ List.replicate timeouts (-1)) ∧
    (onek = 0 →
      (binary ≠ 0 → x.2.2 = 128 * ((n + 127) / 128)) ∧
      (binary = 0 → x.2.2 = 128 * (n / 128 + 1))) ∧
    x.2.2 ≤ 2147483647 ∧
    (∀ (reads2 : List Int) (s : TxState),
      stepsTo txStep (txStart src n onek binary) reads2 = some s →
      0 ≤ s.len ∧ s.len ≤ 2147483647 ∧ -1024 ≤ s.srcsz - s.len ∧ s.srcsz - s.len ≤ 2147483647 ∧
      (∀ r, s.pc = .reply r → s.len + (s.bufsz : Int) ≤ 2147483647)) := by
  refine ⟨?_, ?_, ?_, ?_⟩
  · have h := tx_bytes_run _ (txInit src n onek binary) [] x trivial hx hok
    rw [h]
    show (0 : Int) + _ = _
    rw [Int.zero_add]
    rfl
  · intro h0
    subst h0
    have hinit : TxLenInv n binary (txStart src n 0 binary).state :=
      ⟨rfl, rfl, rfl, le_refl _, rfl, rfl⟩
    have h := driveList_final txStep (TxLenInv n binary)
      (fun _ r => 0 ≤ r →
        (binary ≠ 0 → r = 128 * ((n + 127) / 128)) ∧ (binary = 0 → r = 128 * (n / 128 + 1)))
      (fun s c hs => txLenInv_step n binary hn s c hs)
      (fun s c s' o r hs hst hr => tx_len_final n binary hn s c s' o r hs hst hr)
      _ _ x hinit (fun s o r e => by simp [txStart] at e) hx
    exact h hok
  · have h := driveList_final txStep (TxRange n) (fun _ r => 0 ≤ r → r ≤ n + 1024)
      (fun s c hs => txRange_step n hn s c hs)
      (fun s c s' o r hs hst hr => txRange_final n hn s c s' o r hs hst hr)
      _ _ x (txRange_start src n onek binary hn) (fun s o r e => by simp [txStart] at e) hx
    have := h hok
    omega
  · intro reads2 s hs
    have h := stepsTo_inv txStep (TxRange n) (fun s c hs => txRange_step n hn s c hs) reads2
      (txStart src n onek binary) s (txRange_start src n onek binary hn) hs
    obtain ⟨h1, h2, h3, h4⟩ := h
    refine ⟨h2, by omega, by omega, by omega, ?_⟩
    intro r hr
    rw [hr] at h4
    simp only [] at h4
    obtain ⟨h5, h6⟩ := h4
    clear * - h5 h6 hsmall
    rcases h6 with h6 | h6 <;> omega

set_option maxRecDepth 100000 in
/-- C16, an instance: the word hello, text mode, 128-byte blocks: one block is ACKed and the
call returns 128. -/
theorem transmit_byte_accounting_witness :
    (0 : Int) < 5 ∧ (5 : Int) + 1024 ≤ 2147483647 ∧
    xmodemTransmit sampleHello 5 0 0 [(NAK : Int), (ACK : Int), (ACK : Int)] 0
      = some ((⟨sampleHello, 5, 0, 0, 0, 2, 128, 128, txPacket sampleHello 0 SOH 128 1 0 0 5,
          .eot 0⟩ : TxState), txPacket sampleHello 0 SOH 128 1 0 0 5 ++ [EOT], 128) ∧
    (128 : Int) = txAckedBytes (txStart sampleHello 5 0 0)
        ([(NAK : Int), (ACK : Int), (ACK : Int)] ++ List.replicate 0 (-1)) ∧
    ((0 : Int) = 0 →
      ((0 : Int) ≠ 0 → (128 : Int) = 128 * ((5 + 127) / 128)) ∧
      ((0 : Int) = 0 → (128 : Int) = 128 * (5 / 128 + 1))) ∧
    (128 : Int) ≤ 2147483647 :=
  ⟨by decide, by decide, by decide,
    (transmit_byte_accounting sampleHello 5 0 0 [(NAK : Int), (ACK : Int), (ACK : Int)] 0
      ((⟨sampleHello, 5, 0, 0, 0, 2, 128, 128, txPacket sampleHello 0 SOH 128 1 0 0 5,
          .eot 0⟩ : TxState), txPacket sampleHello 0 SOH 128 1 0 0 5 ++ [EOT], 128)
      (by decide) (by decide) (by decide) (by decide)).1,
    (transmit_byte_accounting sampleHello 5 0 0 [(NAK : Int), (ACK : Int), (ACK : Int)] 0
      ((⟨sampleHello, 5, 0, 0, 0, 2, 128, 128, txPacket sampleHello 0 SOH 128 1 0 0 5,
          .eot 0⟩ : TxState), txPacket sampleHello 0 SOH 128 1 0 0 5 ++ [EOT], 128)
      (by decide) (by decide) (by decide) (by decide)).2.1,
    (transmit_byte_accounting sampleHello 5 0 0 [(NAK : Int), (ACK : Int), (ACK : Int)] 0
      ((⟨sampleHello, 5, 0, 0, 0, 2, 128, 128, txPacket sampleHello 0 SOH 128 1 0 0 5,
          .eot 0⟩ : TxState), txPacket sampleHello 0 SOH 128 1 0 0 5 ++ [EOT], 128)
      (by decide) (by decide) (by decide) (by decide)).2.2.1⟩

set_option maxRecDepth 100000 in
/-- C16 as stated fails in text mode: a source of 128 bytes sent with `onek = 0`,
`binary = 0` to a peer that ACKs everything is followed by a second block (CTRL-Z and
zeros), and the call returns 256, while the smallest multiple of 128 that is at least 128 is
128. -/
theorem transmit_byte_accounting_counterexample :
    (xmodemTransmit sampleBlock 128 0 0 [(NAK : Int), (ACK : Int), (ACK : Int), (ACK : Int)]
        0).map (fun x => x.2.2) = some 256 ∧
    (128 : Int) * ((128 + 127) / 128) = 128 ∧
    txAckedBytes (txStart sampleBlock 128 0 0)
      [(NAK : Int), (ACK : Int), (ACK : Int), (ACK : Int)] = 256 := by
  refine ⟨by decide, by decide, by decide⟩

/-! ## C17: checksum vector -/

set_option maxRecDepth 100000 in
/-- C17 (as amended). The 8-bit arithmetic checksum the code computes over the 128 bytes
0x00, 0x01, ..., 0x7F is 0xC0 (the sum is 8128 = 31 * 256 + 192): `check` in checksum mode
accepts these bytes followed by 0xC0, and the transmitter's trailer loop yields 0xC0. -/
theorem checksum_vector :
    cks_loop (List.range 128) 128 0 = 0xC0 ∧
    check 0 (List.range 128 ++ [0xC0]) 128 = 1 ∧
    txTrailer 0 (List.range 128) 128 = [0xC0] ∧
    (List.range 128).sum = 8128 ∧ 8128 % 256 = 0xC0 := by
  refine ⟨by decide, by decide, by decide, by decide, by decide⟩

set_option maxRecDepth 100000 in
/-- C17 as stated fails: the checksum of the 128 bytes 0x00 .. 0x7F is not 0x40, and
`check` in checksum mode rejects these bytes followed by 0x40. -/
theorem checksum_vector_counterexample :
    cks_loop (List.range 128) 128 0 ≠ 0x40 ∧
    check 0 (List.range 128 ++ [0x40]) 128 = 0 ∧
    txTrailer 0 (List.range 128) 128 ≠ [0x40] := by
  refine ⟨by decide, by decide, by decide⟩

/-! ## C18: receiver retransmit budget -/

theorem samplePacketNo_bytes (seq : Nat) (h : seq < 256) : ∀ b ∈ samplePacketNo seq, b < 256 :=
  txPacket_bytes _ _ _ _ _ _ _ _ sampleBlock_bytes (by decide) h

theorem samplePacketNo_length (seq : Nat) (crc : Int) (hc : crc = 0) :
    (samplePacketNo seq).length = rxPacketLen crc (rxBufszOf ((samplePacketNo seq).headD 0)) := by
  subst hc
  rw [samplePacketNo, txPacket_length _ _ _ _ _ _ _ _ (by decide)]
  rfl

theorem samplePacketNo_accept (seq : Nat) (s : RxState) (h : seq < 256) (hc : s.crc = 0)
    (hp : s.packetno = seq) : rxAccept (rxHolding s (samplePacketNo seq)) = true :=
  (txPacket_accept sampleBlock 0 SOH 128 seq 1 0 128 (rxHolding s (samplePacketNo seq)) h
    (by decide) (by show s.crc ≠ 0 ↔ (0 : Int) ≠ 0; rw [hc]) hp rfl rfl).2.2.2.1

/-- A data session in checksum mode accepts `k` consecutive new blocks: `k` ACKs, the
expected number advances by `k` modulo 256, and the budget is 25 after each. -/
theorem rx_new_many : ∀ (k p : Nat) (s : RxState) (r : Nat), s.pc = .sync r → s.crc = 0 →
    s.destsz ≠ 0 → s.packetno = p % 256 →
    ∃ s', feed rxStep (.more s []) (asReads (sampleBlocks p k))
        = .more s' (List.replicate k ACK) ∧
      (∃ r', s'.pc = .sync r') ∧ s'.crc = 0 ∧ s'.destsz = s.destsz ∧
      s'.packetno = (p + k) % 256 ∧ (0 < k → s'.retrans = 25) := by
  intro k
  induction k with
  | zero =>
    intro p s r hpc hc hd hp
    exact ⟨s, rfl, ⟨r, hpc⟩, hc, rfl, hp, fun h => absurd h (by decide)⟩
  | succ k ih =>
    intro p s r hpc hc hd hp
    have hlt : p % 256 < 256 := Nat.mod_lt _ (by decide)
    have hacc := samplePacketNo_accept (p % 256) s hlt hc hp
    have h1 := rx_feed_packet s r (samplePacketNo (p % 256)) hpc
      (samplePacketNo_bytes _ hlt) (Or.inl rfl) (samplePacketNo_length _ _ hc)
    have hseq : (rxHolding s (samplePacketNo (p % 256))).xbuff.getD 1 0
        = (rxHolding s (samplePacketNo (p % 256))).packetno := by
      show (samplePacketNo (p % 256)).getD 1 0 = s.packetno
      rw [hp]
      rfl
    rw [rx_accept_new _ hacc hseq rfl hd] at h1
    obtain ⟨s', h2, h3, h4, h5, h6, h7⟩ := ih (p + 1)
      { rxDeliver (rxHolding s (samplePacketNo (p % 256))) with
          retrans := MAXRETRANS + 1 - 1, pc := .sync 0 } 0 rfl
      (by show (rxDeliver _).crc = 0; rw [rxDeliver_crc]; exact hc)
      (by show (rxDeliver _).destsz ≠ 0; rw [rxDeliver_destsz]; exact hd)
      (by
        show (rxDeliver _).packetno = (p + 1) % 256
        rw [rxDeliver_packetno]
        show (s.packetno + 1) % 256 = (p + 1) % 256
        rw [hp]
        omega)
    refine ⟨s', ?_, h3, h4, ?_, ?_, ?_⟩
    · show feed rxStep (.more s []) (asReads (samplePacketNo (p % 256) ++ sampleBlocks (p + 1) k))
        = _
      rw [asReads_append, feed_append rxStep _ _ _ _ _ h1, h2]
      rfl
    · rw [h5]
      exact rxDeliver_destsz _
    · rw [h6, Nat.add_assoc, Nat.add_comm 1 k]
    · intro _
      cases k with
      | zero =>
        have e : Step.more _ [] = Step.more s' [] := h2
        simp only [Step.more.injEq, and_true] at e
        rw [← e]
        rfl
      | succ k => exact h7 (Nat.succ_pos k)

/-- The resend of block 255 while the expected number is 0 (after 255 accepted blocks)
fails the test of line 193: seq 255 is neither 0 nor 0 - 1 in `int` arithmetic. -/
theorem samplePacketNo_255_reject (s : RxState) (hp : s.packetno = 0) :
    rxAccept (rxHolding s (samplePacketNo 255)) = false := by
  have h1 : ¬ ((((samplePacketNo 255).getD 1 0 : Nat) : Int) = ((0 : Nat) : Int)) := by decide
  have h2 : ¬ ((((samplePacketNo 255).getD 1 0 : Nat) : Int) = ((0 : Nat) : Int) - 1) := by
    decide
  unfold rxAccept
  simp only [Bool.and_eq_false_iff, Bool.or_eq_false_iff, decide_eq_false_iff_not]
  refine Or.inl (Or.inr ⟨?_, ?_⟩)
  · show ¬ ((((samplePacketNo 255).getD 1 0 : Nat) : Int) = (s.packetno : Int))
    rw [hp]
    exact h1
  · show ¬ ((((samplePacketNo 255).getD 1 0 : Nat) : Int) = (s.packetno : Int) - 1)
    rw [hp]
    exact h2

/-- Blocks 1 .. 255 of a data session in checksum mode, then block 255 again and a timeout:
255 ACKs, then NAK for the resend, with the budget still 25. -/
theorem rx_block255_resend :
    ∃ s, feed rxStep (rxStart 32768 0)
        (asReads (sampleBlocks 1 255) ++ (asReads (samplePacketNo 255) ++ [-1]))
      = .more s ([NAK] ++ List.replicate 255 ACK ++ [NAK]) ∧
      s.packetno = 0 ∧ s.retrans = 25 := by
  have h0 : rxStart 32768 0 = .more (rxInit 32768 0) [NAK] := rfl
  obtain ⟨s1, h1, ⟨r1, h2⟩, h3, h4, h5, h6⟩ :=
    rx_new_many 255 1 (rxInit 32768 0) 0 rfl rfl (by decide) rfl
  have hfeed := rx_feed_packet s1 r1 (samplePacketNo 255) h2
    (samplePacketNo_bytes 255 (by decide)) (Or.inl rfl) (samplePacketNo_length 255 _ h3)
  have hacc := samplePacketNo_255_reject s1 h5
  have hmore : rxPacket (rxHolding s1 (samplePacketNo 255))
      = .more { rxHolding s1 (samplePacketNo 255) with pc := .flushReject } [] := by
    unfold rxPacket
    simp [hacc]
  have hrej := rx_reject (rxHolding s1 (samplePacketNo 255)) [] (-1) hacc
    (by intro x hx; simp at hx) (by decide) rfl
  rw [List.nil_append] at hrej
  refine ⟨{ rxHolding s1 (samplePacketNo 255) with pc := .sync 0 }, ?_, h5, h6 (by decide)⟩
  rw [h0, feed_more_eq, feed_append rxStep _ _ _ _ _ h1,
    feed_append rxStep _ _ _ _ _ (hfeed.trans hmore), prepend_nil, ← hmore, hrej]
  simp only [Step.prepend, List.append_assoc]

/-- C18. The retransmit budget of `xmodemReceive`, for a whole packet read at line 151. When
the packet passes the acceptance test of lines 192-194: a new block (seq = expected) is
answered with ACK, leaves the budget at 25, and the call goes on or returns `len` (not -3); a
duplicate (seq != expected) takes one off the budget, and from a budget of 25 in a data
session 24 resends are ACKed and the 25th is answered, once the input is drained, with
CAN CAN CAN and -3. A packet that fails the test is answered with NAK and leaves the budget as
it was. And the resend of block 255 fails the test: after the blocks 1 .. 255 of a data
session were accepted (expected number 0), block 255 sent again is answered with NAK and the
budget stays 25. -/
theorem retransmit_budget :
    (∀ (s : RxState) (r : Nat) (pkt : List Nat), s.pc = .sync r → (∀ b ∈ pkt, b < 256) →
      (pkt.headD 0 = SOH ∨ pkt.headD 0 = STX) →
      pkt.length = rxPacketLen s.crc (rxBufszOf (pkt.headD 0)) →
      rxAccept (rxHolding s pkt) = true →
      (pkt.getD 1 0 = s.packetno →
        (feed rxStep (.more s []) (asReads pkt)).out = [ACK] ∧
        (feed rxStep (.more s []) (asReads pkt)).state.retrans = 25 ∧
        ((feed rxStep (.more s []) (asReads pkt)).ret = none ∨
          (feed rxStep (.more s []) (asReads pkt)).ret
            = some (feed rxStep (.more s []) (asReads pkt)).state.len)) ∧
      (pkt.getD 1 0 ≠ s.packetno →
        (feed rxStep (.more s []) (asReads pkt)).state.retrans = s.retrans - 1 ∧
        (s.retrans = 25 → s.destsz ≠ 0 → ∀ t : Int, t < 0 →
          ∃ s', feed rxStep (.more s [])
              (asReads (List.replicate 24 pkt).flatten ++ (asReads pkt ++ [t]))
            = .done s' (List.replicate 24 ACK ++ [CAN, CAN, CAN]) (-3)))) ∧
    (∀ (s : RxState) (r : Nat) (pkt : List Nat) (junk : List Int) (t : Int), s.pc = .sync r →
      (∀ b ∈ pkt, b < 256) → (pkt.headD 0 = SOH ∨ pkt.headD 0 = STX) →
      pkt.length = rxPacketLen s.crc (rxBufszOf (pkt.headD 0)) →
      rxAccept (rxHolding s pkt) = false → (∀ x ∈ junk, (0 : Int) ≤ x) → t < 0 →
      ∃ s', feed rxStep (.more s []) (asReads pkt ++ (junk ++ [t])) = .more s' [NAK] ∧
        s'.retrans = s.retrans) ∧
    (∃ s, feed rxStep (rxStart 32768 0)
        (asReads (sampleBlocks 1 255) ++ (asReads (samplePacketNo 255) ++ [-1]))
      = .more s ([NAK] ++ List.replicate 255 ACK ++ [NAK]) ∧
      s.packetno = 0 ∧ s.retrans = 25) := by
  refine ⟨?_, ?_, rx_block255_resend⟩
  · intro s r pkt hpc hb hlead hlen hacc
    have hfeed := rx_feed_packet s r pkt hpc hb hlead hlen
    constructor
    · intro hseq
      rw [hfeed]
      by_cases hd : s.destsz ≠ 0
      · rw [rx_accept_new _ hacc hseq rfl hd]
        exact ⟨rfl, rfl, Or.inl rfl⟩
      · rw [rx_accept_new_ctl _ hacc hseq (by simpa using hd)]
        exact ⟨rfl, rfl, Or.inr rfl⟩
    · intro hseq
      constructor
      · rw [hfeed]
        by_cases hret : 1 < s.retrans
        · rw [rx_accept_dup _ hacc hseq rfl hret]
          split <;> rfl
        · rw [rx_accept_dup_exhausted _ hacc hseq (by show s.retrans ≤ 1; omega)]
          rfl
      · intro hret hd t ht
        obtain ⟨s', hs', ⟨r', hpc'⟩, hr', hd', hc', hp', hl', hk'⟩ :=
          rx_dup_many pkt hb hlead 24 s r hpc hlen hacc hseq hd (by rw [hret]; decide)
        have hlast := rx_dup_exhausted s' r' pkt t hpc' hb hlead (by rw [hc']; exact hlen)
          ((rxAccept_holding_congr s s' pkt hc' hp').trans hacc) (by rw [hp']; exact hseq)
          (by rw [hr', hret]; decide) ht
        refine ⟨{ rxHolding s' pkt with retrans := s'.retrans - 1, pc := .flushRetrans }, ?_⟩
        rw [feed_append rxStep _ _ _ _ _ hs', hlast]
        rfl
  · intro s r pkt junk t hpc hb hlead hlen hacc hjunk ht
    have hfeed := rx_feed_packet s r pkt hpc hb hlead hlen
    have hmore : rxPacket (rxHolding s pkt) = .more { rxHolding s pkt with pc := .flushReject } [] := by
      unfold rxPacket
      simp [hacc]
    have hrej := rx_reject (rxHolding s pkt) junk t hacc hjunk ht rfl
    refine ⟨{ rxHolding s pkt with pc := .sync 0 }, ?_, rfl⟩
    rw [feed_append rxStep _ _ _ _ _ (hfeed.trans hmore), prepend_nil, ← hmore, hrej]

/-! ## C19: frame-buffer bounds -/

/-- A property of the blocked states that every step to a blocked state keeps holds in every
state a run is blocked in. -/
theorem stepsTo_inv_more {σ : Type} (step : σ → Int → Step σ) (P : σ → Prop)
    (hstep : ∀ s c s' o, P s → step s c = .more s' o → P s') :
    ∀ (reads : List Int) (st : Step σ) (s : σ),
      (∀ s0 o, st = .more s0 o → P s0) → stepsTo step st reads = some s → P s := by
  intro reads
  induction reads with
  | nil =>
    intro st s h0 h
    cases st with
    | more s0 o =>
      simp only [stepsTo, Option.some.injEq] at h
      rw [← h]
      exact h0 s0 o rfl
    | done s0 o r => simp [stepsTo] at h
  | cons c cs ih =>
    intro st s h0 h
    cases st with
    | more s0 o =>
      simp only [stepsTo] at h
      exact ih (step s0 c) s (fun s1 o1 e => hstep s0 c s1 o1 (h0 s0 o rfl) e) h
    | done s0 o r => simp [stepsTo] at h

theorem rxPacket_more_pc (q s' : RxState) (o : List Nat) (h : rxPacket q = .more s' o) :
    s'.pc = .flushRetrans ∨ s'.pc = .sync 0 ∨ s'.pc = .flushReject := by
  by_cases hacc : rxAccept q = true
  · generalize hq1 : (if q.xbuff.getD 1 0 = q.packetno then rxDeliver q else q) = q1
    have e : rxPacket q =
        (if q1.retrans - 1 ≤ 0 then
          Step.more { q1 with retrans := q1.retrans - 1, pc := .flushRetrans } []
        else if q1.destsz ≠ 0 then rxSyncEnter { q1 with retrans := q1.retrans - 1 } 0 [ACK]
        else .done { q1 with retrans := q1.retrans - 1 } [ACK] q1.len) := by
      unfold rxPacket
      rw [if_pos hacc]
      subst hq1
      rfl
    rw [e] at h
    by_cases h1 : q1.retrans - 1 ≤ 0
    · rw [if_pos h1] at h
      simp only [Step.more.injEq] at h
      left
      rw [← h.1]
    · rw [if_neg h1] at h
      by_cases h2 : q1.destsz ≠ 0
      · rw [if_pos h2] at h
        simp only [rxSyncEnter, Step.more.injEq] at h
        right; left
        rw [← h.1]
      · rw [if_neg h2] at h
        simp at h
  · have e : rxPacket q = .more { q with pc := .flushReject } [] := by
      unfold rxPacket
      rw [if_neg hacc]
    rw [e] at h
    simp only [Step.more.injEq] at h
    right; right
    rw [← h.1]

theorem rxBufInv_step (s : RxState) (c : Int) (s' : RxState) (o : List Nat)
    (h : RxBufInv s) (hst : rxStep s c = .more s' o) : RxBufInv s' := by
  obtain ⟨destsz, crc, trychar, packetno, len, retrans, bufsz, xbuff, sink, pc⟩ := s
  have hnext : ∀ (t : RxState) (r : Nat), rxSyncNext t r = .more s' o → RxBufInv s' := by
    intro t r e
    unfold rxSyncNext rxSyncEnter at e
    split at e
    · simp only [Step.more.injEq] at e
      rw [← e.1]
      trivial
    · split at e
      · simp only [Step.more.injEq] at e
        rw [← e.1]
        trivial
      · simp only [Step.more.injEq] at e
        rw [← e.1]
        trivial
  cases pc with
  | sync r =>
    simp only [rxStep, rxStartRecv] at hst
    split at hst
    · split at hst
      · simp only [Step.more.injEq] at hst
        rw [← hst.1]
        refine ⟨rfl, Or.inl rfl, ?_⟩
        show 0 < 128 + _ + 3
        omega
      · split at hst
        · simp only [Step.more.injEq] at hst
          rw [← hst.1]
          refine ⟨rfl, Or.inr rfl, ?_⟩
          show 0 < 1024 + _ + 3
          omega
        · split at hst
          · simp at hst
          · split at hst
            · simp only [Step.more.injEq] at hst
              rw [← hst.1]
              trivial
            · exact hnext _ _ hst
    · exact hnext _ _ hst
  | syncCan r =>
    simp only [rxStep] at hst
    split at hst
    · simp only [Step.more.injEq] at hst
      rw [← hst.1]
      trivial
    · exact hnext _ _ hst
  | recv i =>
    obtain ⟨h1, h2, h3⟩ := h
    simp only [] at h1 h2 h3
    simp only [rxStep] at hst
    by_cases hneg : c < 0
    · rw [if_pos hneg] at hst
      simp only [Step.more.injEq] at hst
      rw [← hst.1]
      trivial
    · rw [if_neg hneg] at hst
      by_cases hlt : i + 1 < bufsz + (if crc ≠ 0 then 1 else 0) + 3
      · rw [if_pos hlt] at hst
        simp only [Step.more.injEq] at hst
        rw [← hst.1]
        refine ⟨?_, h2, hlt⟩
        show (xbuff ++ [(c % 256).toNat]).length = i + 1 + 1
        rw [List.length_append, h1]
        rfl
      · rw [if_neg hlt] at hst
        rcases rxPacket_more_pc _ _ _ hst with e | e | e <;>
          · unfold RxBufInv
            rw [e]
            trivial
  | flushCancel =>
    simp only [rxStep] at hst
    split at hst
    · simp only [Step.more.injEq] at hst
      rw [← hst.1]
      trivial
    · simp at hst
  | flushSync =>
    simp only [rxStep] at hst
    split at hst
    · simp only [Step.more.injEq] at hst
      rw [← hst.1]
      trivial
    · simp at hst
  | flushRetrans =>
    simp only [rxStep] at hst
    split at hst
    · simp only [Step.more.injEq] at hst
      rw [← hst.1]
      trivial
    · simp at hst
  | flushReject =>
    simp only [rxStep, rxSyncEnter] at hst
    split at hst
    · simp only [Step.more.injEq] at hst
      rw [← hst.1]
      trivial
    · simp only [Step.more.injEq] at hst
      rw [← hst.1]
      trivial

theorem checkTouched_bound (crc : Int) (sz j : Nat) (h : j ∈ checkTouched crc sz) :
    j ≤ sz + 4 ∧ (j = sz + 4 → crc ≠ 0) := by
  unfold checkTouched at h
  rw [List.mem_append] at h
  rcases h with h | h
  · simp only [List.mem_map, List.mem_range] at h
    obtain ⟨i, hi, rfl⟩ := h
    constructor
    · omega
    · intro e
      omega
  · by_cases hc : crc ≠ 0
    · rw [if_pos hc] at h
      simp only [List.mem_cons, List.mem_singleton, List.not_mem_nil, or_false] at h
      exact ⟨by omega, fun _ => hc⟩
    · rw [if_neg hc] at h
      simp only [List.mem_singleton] at h
      constructor
      · omega
      · intro e
        omega

theorem rxPacketTouched_bound (q : RxState) (j : Nat) (hq : 128 ≤ q.bufsz)
    (h : j ∈ rxPacketTouched q) : j ≤ q.bufsz + 4 ∧ (j = q.bufsz + 4 → q.crc ≠ 0) := by
  unfold rxPacketTouched at h
  simp only [List.mem_append] at h
  rcases h with (h | h) | h
  · simp only [List.mem_cons, List.mem_singleton, List.not_mem_nil, or_false] at h
    constructor
    · omega
    · intro e
      omega
  · split at h
    · simp only [List.mem_append, List.mem_singleton] at h
      rcases h with h | h
      · constructor
        · omega
        · intro e
          omega
      · split at h
        · exact checkTouched_bound _ _ _ h
        · simp at h
    · simp at h
  · split at h
    · simp only [List.mem_map, List.mem_range] at h
      obtain ⟨i, hi, rfl⟩ := h
      have := rxCount_le q
      constructor
      · omega
      · intro e
        omega
    · simp at h

theorem rxTouched_bound (s : RxState) (c : Int) (j : Nat) (h : RxBufInv s)
    (hj : j ∈ rxTouched s c) : j < XBUF_SIZE ∧ (j = 1028 → s.bufsz = 1024 ∧ s.crc ≠ 0) := by
  obtain ⟨destsz, crc, trychar, packetno, len, retrans, bufsz, xbuff, sink, pc⟩ := s
  cases pc with
  | sync r =>
    simp only [rxTouched] at hj
    split at hj
    · simp only [List.mem_singleton] at hj
      subst hj
      exact ⟨by decide, fun e => absurd e (by decide)⟩
    · simp at hj
  | recv i =>
    obtain ⟨h1, h2, h3⟩ := h
    simp only [] at h1 h2 h3
    simp only [rxTouched] at hj
    by_cases hneg : c < 0
    · rw [if_pos hneg] at hj
      simp at hj
    · rw [if_neg hneg] at hj
      rw [List.mem_append, List.mem_singleton] at hj
      have hcb : (if crc ≠ 0 then 1 else 0) ≤ 1 := by split <;> omega
      rcases hj with hj | hj
      · subst hj
        rw [h1]
        constructor
        · show i + 1 < 1029
          rcases h2 with h2 | h2 <;> omega
        · intro e
          show bufsz = 1024 ∧ crc ≠ 0
          by_cases hc : crc ≠ 0
          · rw [if_pos hc] at h3
            exact ⟨by rcases h2 with h2 | h2 <;> omega, hc⟩
          · rw [if_neg hc] at h3
            exfalso
            rcases h2 with h2 | h2 <;> omega
      · by_cases hlt : i + 1 < bufsz + (if crc ≠ 0 then 1 else 0) + 3
        · rw [if_pos hlt] at hj
          simp at hj
        · rw [if_neg hlt] at hj
          have hb := rxPacketTouched_bound _ j
              (by show 128 ≤ bufsz; rcases h2 with h2 | h2 <;> omega) hj
          have hb1 : j ≤ bufsz + 4 := hb.1
          have hb2 : j = bufsz + 4 → crc ≠ 0 := hb.2
          constructor
          · show j < 1029
            rcases h2 with h2 | h2 <;> omega
          · intro e
            show bufsz = 1024 ∧ crc ≠ 0
            have hbz : bufsz = 1024 := by rcases h2 with h2 | h2 <;> omega
            exact ⟨hbz, hb2 (by omega)⟩
  | syncCan r => simp [rxTouched] at hj
  | flushCancel => simp [rxTouched] at hj
  | flushSync => simp [rxTouched] at hj
  | flushRetrans => simp [rxTouched] at hj
  | flushReject => simp [rxTouched] at hj

theorem txStartTrans_bufsz (T : TxState) :
    (txStartTrans T).state.bufsz = txBufsz T ∧ (txStartTrans T).state.crc = T.crc := by
  by_cases hp : txCount T > 0 ∨ (T.binary = 0 ∧ txCount T = 0)
  · rw [tx_start_packet T hp]
    exact ⟨rfl, rfl⟩
  · by_cases hs : T.srcsz ≠ 0
    · rw [tx_start_eot T hp hs]
      exact ⟨rfl, rfl⟩
    · rw [tx_start_done T hp (by simpa using hs)]
      exact ⟨rfl, rfl⟩

theorem txBuildTouched_bound (T : TxState) (j : Nat) (h : j ∈ txBuildTouched T) :
    j < XBUF_SIZE ∧ (j = 1028 → txBufsz T = 1024 ∧ T.crc ≠ 0) := by
  have hle := txCount_le T
  have hcases : txBufsz T = 128 ∨ txBufsz T = 1024 := by
    rcases txLeader_cases T with ⟨-, h1⟩ | ⟨-, h1⟩
    · exact Or.inl h1
    · exact Or.inr h1
  have key : j ≤ txBufsz T + 4 ∧ (j = txBufsz T + 4 → T.crc ≠ 0) := by
    unfold txBuildTouched at h
    simp only [List.mem_append] at h
    rcases h with h | h
    · simp only [List.mem_cons, List.mem_singleton, List.not_mem_nil, or_false] at h
      constructor
      · omega
      · intro e
        omega
    · by_cases hp : txCount T > 0 ∨ (T.binary = 0 ∧ txCount T = 0)
      · rw [if_pos hp] at h
        simp only [List.mem_append] at h
        rcases h with (((h | h) | h) | h) | h
        · simp only [List.mem_map, List.mem_range] at h
          obtain ⟨i, hi, rfl⟩ := h
          constructor
          · omega
          · intro e
            omega
        · by_cases hz : T.binary = 0 ∧ txCount T = 0
          · rw [if_pos hz] at h
            simp only [List.mem_singleton] at h
            constructor
            · omega
            · intro e
              omega
          · rw [if_neg hz] at h
            simp only [List.mem_append] at h
            rcases h with h | h
            · simp only [List.mem_map, List.mem_range] at h
              obtain ⟨i, hi, rfl⟩ := h
              constructor
              · omega
              · intro e
                omega
            · by_cases hc : T.binary = 0 ∧ txCount T < (txBufsz T : Int)
              · rw [if_pos hc] at h
                simp only [List.mem_singleton] at h
                have := hc.2
                constructor
                · omega
                · intro e
                  omega
              · rw [if_neg hc] at h
                simp at h
        · simp only [List.mem_map, List.mem_range] at h
          obtain ⟨i, hi, rfl⟩ := h
          constructor
          · omega
          · intro e
            omega
        · by_cases hc : T.crc ≠ 0
          · rw [if_pos hc] at h
            simp only [List.mem_cons, List.mem_singleton, List.not_mem_nil, or_false] at h
            exact ⟨by omega, fun _ => hc⟩
          · rw [if_neg hc] at h
            simp only [List.mem_singleton] at h
            constructor
            · omega
            · intro e
              omega
        · by_cases hc : T.crc ≠ 0
          · rw [if_pos hc, List.mem_range] at h
            exact ⟨by omega, fun _ => hc⟩
          · rw [if_neg hc, List.mem_range] at h
            constructor
            · omega
            · intro e
              omega
      · rw [if_neg hp] at h
        simp at h
  obtain ⟨k1, k2⟩ := key
  constructor
  · show j < 1029
    rcases hcases with h1 | h1 <;> omega
  · intro e
    have hb : txBufsz T = 1024 := by rcases hcases with h1 | h1 <;> omega
    exact ⟨hb, k2 (by omega)⟩

theorem txReplyTouched_bound (s : TxState) (r j : Nat) (hb : s.bufsz = 128 ∨ s.bufsz = 1024)
    (h : j ∈ txReplyTouched s r) : j < XBUF_SIZE ∧ (j = 1028 → s.bufsz = 1024 ∧ s.crc ≠ 0) := by
  unfold txReplyTouched txSendTouched at h
  by_cases hr : ((r : Int) + 1) < MAXRETRANS
  · rw [if_pos hr] at h
    by_cases hc : s.crc ≠ 0
    · rw [if_pos hc, List.mem_range] at h
      constructor
      · show j < 1029
        rcases hb with h1 | h1 <;> omega
      · intro e
        exact ⟨by rcases hb with h1 | h1 <;> omega, hc⟩
    · rw [if_neg hc, List.mem_range] at h
      constructor
      · show j < 1029
        rcases hb with h1 | h1 <;> omega
      · intro e
        exfalso
        rcases hb with h1 | h1 <;> omega
  · rw [if_neg hr] at h
    simp at h

theorem txReplyNext_bufsz (s : TxState) (r : Nat) :
    (txReplyNext s r).state.bufsz = s.bufsz ∧ (txReplyNext s r).state.crc = s.crc := by
  unfold txReplyNext txSend
  split <;> exact ⟨rfl, rfl⟩

theorem txTouched_bound (s : TxState) (c : Int) (j : Nat)
    (hb : ∀ r, (s.pc = .reply r ∨ s.pc = .replyCan r) → (s.bufsz = 128 ∨ s.bufsz = 1024))
    (hj : j ∈ txTouched s c) :
    j < XBUF_SIZE ∧
      (j = 1028 → (txStep s c).state.bufsz = 1024 ∧ (txStep s c).state.crc ≠ 0) := by
  obtain ⟨src, srcsz, onek, binary, crc, packetno, len, bufsz, xbuff, pc⟩ := s
  have hbuild : ∀ T : TxState, j ∈ txBuildTouched T →
      j < XBUF_SIZE ∧
        (j = 1028 → (txStartTrans T).state.bufsz = 1024 ∧ (txStartTrans T).state.crc ≠ 0) := by
    intro T hT
    obtain ⟨b1, b2⟩ := txBuildTouched_bound T j hT
    obtain ⟨e1, e2⟩ := txStartTrans_bufsz T
    rw [e1, e2]
    exact ⟨b1, b2⟩
  cases pc with
  | sync r =>
    by_cases hge : c ≥ 0
    · by_cases hC : c = CHR_C
      · simp only [txTouched, hge, hC, if_true] at hj
        simp only [txStep, hge, hC, if_true]
        exact hbuild _ hj
      · by_cases hN : c = NAK
        · simp only [txTouched, hge, hC, hN, if_true, if_false] at hj
          simp only [txStep, hge, hC, hN, if_true, if_false]
          exact hbuild _ hj
        · simp only [txTouched, hge, hC, hN, if_true, if_false] at hj
          simp at hj
    · simp only [txTouched, hge, if_false] at hj
      simp at hj
  | reply r =>
    have hb' := hb r (Or.inl rfl)
    simp only [] at hb'
    have hre : j ∈ txReplyTouched (⟨src, srcsz, onek, binary, crc, packetno, len, bufsz, xbuff,
        .reply r⟩ : TxState) r →
        j < XBUF_SIZE ∧ (j = 1028 → (txReplyNext (⟨src, srcsz, onek, binary, crc, packetno, len,
          bufsz, xbuff, .reply r⟩ : TxState) r).state.bufsz = 1024 ∧
          (txReplyNext (⟨src, srcsz, onek, binary, crc, packetno, len,
          bufsz, xbuff, .reply r⟩ : TxState) r).state.crc ≠ 0) := by
      intro h
      obtain ⟨e1, e2⟩ := txReplyNext_bufsz (⟨src, srcsz, onek, binary, crc, packetno, len,
          bufsz, xbuff, .reply r⟩ : TxState) r
      rw [e1, e2]
      exact txReplyTouched_bound _ r j hb' h
    by_cases hge : c ≥ 0
    · by_cases hA : c = ACK
      · simp only [txTouched, hge, hA, if_true] at hj
        simp only [txStep, hge, hA, if_true]
        exact hbuild _ hj
      · by_cases hN : c = CAN
        · subst hN
          simp only [txTouched, hge, hA, if_true, if_false] at hj
          simp at hj
        · simp only [txTouched, hge, hA, hN, if_true, if_false] at hj
          simp only [txStep, hge, hA, hN, if_true, if_false]
          exact hre hj
    · simp only [txTouched, hge, if_false] at hj
      simp only [txStep, hge, if_false]
      exact hre hj
  | replyCan r =>
    have hb' := hb r (Or.inr rfl)
    simp only [] at hb'
    by_cases hN : c = CAN
    · simp only [txTouched, hN, if_true] at hj
      simp at hj
    · simp only [txTouched, hN, if_false] at hj
      simp only [txStep, hN, if_false]
      obtain ⟨e1, e2⟩ := txReplyNext_bufsz (⟨src, srcsz, onek, binary, crc, packetno, len,
          bufsz, xbuff, .replyCan r⟩ : TxState) r
      rw [e1, e2]
      exact txReplyTouched_bound _ r j hb' hj
  | syncCan r => simp [txTouched] at hj
  | eot r => simp [txTouched] at hj
  | flush r => simp [txTouched] at hj

theorem rxBufInv_run (destsz crc : Int) (reads : List Int) (s : RxState)
    (hs : stepsTo rxStep (rxStart destsz crc) reads = some s) : RxBufInv s := by
  refine stepsTo_inv_more rxStep RxBufInv (fun s c s' o h e => rxBufInv_step s c s' o h e)
    reads _ s ?_ hs
  intro s0 o e
  simp only [rxStart, rxSyncEnter, Step.more.injEq] at e
  rw [← e.1]
  trivial

theorem tx_reply_bufsz (src : List Nat) (srcsz onek binary : Int) (reads : List Int)
    (s : TxState) (hs : stepsTo txStep (txStart src srcsz onek binary) reads = some s) :
    ∀ r, (s.pc = .reply r ∨ s.pc = .replyCan r) → (s.bufsz = 128 ∨ s.bufsz = 1024) := by
  have hinv := txInv_run src srcsz onek binary reads (txInit src srcsz onek binary) []
    0 none s (txInv_init src srcsz onek binary) hs
  obtain ⟨-, -, -, -, -, a6⟩ := hinv
  have hcases : txBufsz s = 128 ∨ txBufsz s = 1024 := by
    rcases txLeader_cases s with ⟨-, h1⟩ | ⟨-, h1⟩
    · exact Or.inl h1
    · exact Or.inr h1
  intro r hr
  rcases hr with hr | hr
  · rw [hr] at a6
    simp only [] at a6
    rw [a6.2.1]
    exact hcases
  · rw [hr] at a6
    simp only [] at a6
    rw [a6.2.1]
    exact hcases

set_option maxRecDepth 100000 in
/-- C19. In every run of `xmodemReceive` and of `xmodemTransmit`, every index at which a step
reads or writes `xbuff` (the stores of lines 186 and 189, the reads of lines 192-206 with
those of `check`, the construction of lines 290-326 and the output loop of line 328) is
below `XBUF_SIZE = 1029`; the index 1028 = 3 + 1024 + 1 is touched only with a block of 1024
bytes in CRC mode, and it is touched by the first packet of a 2500-byte source sent in 1K
blocks with CRC. -/
theorem frame_buffer_bounds :
    (∀ (destsz crc : Int) (reads : List Int) (s : RxState) (c : Int) (j : Nat),
      stepsTo rxStep (rxStart destsz crc) reads = some s → j ∈ rxTouched s c →
      j < XBUF_SIZE ∧ (j = 1028 → s.bufsz = 1024 ∧ s.crc ≠ 0)) ∧
    (∀ (src : List Nat) (srcsz onek binary : Int) (reads : List Int) (s : TxState) (c : Int)
        (j : Nat),
      stepsTo txStep (txStart src srcsz onek binary) reads = some s → j ∈ txTouched s c →
      j < XBUF_SIZE ∧
        (j = 1028 → (txStep s c).state.bufsz = 1024 ∧ (txStep s c).state.crc ≠ 0)) ∧
    XBUF_SIZE - 1 = 1028 ∧ 3 + 1024 + 1 = 1028 ∧
    1028 ∈ txTouched (txInit sampleSource 2500 1 1) (CHR_C : Int) := by
  refine ⟨?_, ?_, by decide, by decide, by decide⟩
  · intro destsz crc reads s c j hs hj
    exact rxTouched_bound s c j (rxBufInv_run destsz crc reads s hs) hj
  · intro src srcsz onek binary reads s c j hs hj
    exact txTouched_bound s c j (tx_reply_bufsz src srcsz onek binary reads s hs) hj

/-! ## C20: termination on finite input -/

/-- If every step on a timeout either returns or lowers a positive measure, then enough
timeouts make the function return. -/
theorem feed_timeouts_done {σ : Type} (step : σ → Int → Step σ) (m : σ → Nat)
    (hdec : ∀ s, 0 < m s ∧ ((∃ s' o r, step s (-1) = .done s' o r) ∨
      (∃ s' o, step s (-1) = .more s' o ∧ m s' < m s))) :
    ∀ (n : Nat) (s : σ) (o : List Nat), m s ≤ n →
      ∃ s' o' r, ∀ t, n ≤ t → feed step (.more s o) (List.replicate t (-1)) = .done s' o' r := by
  intro n
  induction n with
  | zero =>
    intro s o h
    have := (hdec s).1
    omega
  | succ n ih =>
    intro s o h
    rcases (hdec s).2 with ⟨s', o', r, h1⟩ | ⟨s', o', h1, h2⟩
    · refine ⟨s', o ++ o', r, ?_⟩
      intro t ht
      obtain ⟨t', rfl⟩ : ∃ t', t = t' + 1 := ⟨t - 1, by omega⟩
      rw [List.replicate_succ]
      show (feed step (step s (-1)) (List.replicate t' (-1))).prepend o = _
      rw [h1, feed_done]
      rfl
    · obtain ⟨s2, o2, r2, h3⟩ := ih s' o' (by omega)
      refine ⟨s2, o ++ o2, r2, ?_⟩
      intro t ht
      obtain ⟨t', rfl⟩ : ∃ t', t = t' + 1 := ⟨t - 1, by omega⟩
      rw [List.replicate_succ]
      show (feed step (step s (-1)) (List.replicate t' (-1))).prepend o = _
      rw [h1, h3 t' (by omega)]
      rfl

/-- A run on finitely many reads followed by enough timeouts returns, and what it returns
does not depend on how many timeouts follow. -/
theorem driveList_timeouts {σ : Type} (step : σ → Int → Step σ) (m : σ → Nat) (N : Nat)
    (hdec : ∀ s, 0 < m s ∧ ((∃ s' o r, step s (-1) = .done s' o r) ∨
      (∃ s' o, step s (-1) = .more s' o ∧ m s' < m s)))
    (hN : ∀ s, m s ≤ N) (st : Step σ) (reads : List Int) :
    ∃ x, ∀ t, N ≤ t → driveList step st (reads ++ List.replicate t (-1)) = some x := by
  cases hf : feed step st reads with
  | more s o =>
    obtain ⟨s', o', r, h⟩ := feed_timeouts_done step m hdec N s [] (hN s)
    refine ⟨(s', o ++ o', r), ?_⟩
    intro t ht
    apply driveList_eq_feed
    rw [feed_append step reads st s o _ hf, h t ht]
    rfl
  | done s o r =>
    exact ⟨(s, o, r), fun t _ => driveList_append_done step reads _ st s o r hf⟩

theorem rx_timeout_dec (s : RxState) :
    0 < rxTimeoutsLeft s ∧ ((∃ s' o r, rxStep s (-1) = .done s' o r) ∨
      (∃ s' o, rxStep s (-1) = .more s' o ∧ rxTimeoutsLeft s' < rxTimeoutsLeft s)) := by
  obtain ⟨destsz, crc, trychar, packetno, len, retrans, bufsz, xbuff, sink, pc⟩ := s
  have hnext : ∀ (pc0 : RxPc) (r : Nat),
      ∃ s' o, rxSyncNext (⟨destsz, crc, trychar, packetno, len, retrans, bufsz, xbuff, sink,
          pc0⟩ : RxState) r = .more s' o ∧
        rxTimeoutsLeft s' < (15 - r) + 1 + (if trychar = CHR_C then 16 else 0) + 1 := by
    intro pc0 r
    unfold rxSyncNext rxSyncEnter
    by_cases h1 : r + 1 < 16
    · rw [if_pos h1]
      refine ⟨_, _, rfl, ?_⟩
      simp only [rxTimeoutsLeft]
      omega
    · rw [if_neg h1]
      by_cases h2 : trychar = CHR_C
      · simp only [h2, if_true]
        refine ⟨_, _, rfl, ?_⟩
        simp only [rxTimeoutsLeft]
        have : ¬ (NAK = CHR_C) := by decide
        simp only [this, if_false]
        omega
      · simp only [h2, if_false]
        refine ⟨_, _, rfl, ?_⟩
        simp only [rxTimeoutsLeft]
        omega
  cases pc with
  | sync r =>
    refine ⟨by simp only [rxTimeoutsLeft]; omega, Or.inr ?_⟩
    have e : rxStep (⟨destsz, crc, trychar, packetno, len, retrans, bufsz, xbuff, sink,
        .sync r⟩ : RxState) (-1) = rxSyncNext _ r := rfl
    rw [e]
    exact hnext _ r
  | syncCan r =>
    refine ⟨by simp only [rxTimeoutsLeft]; omega, Or.inr ?_⟩
    have e : rxStep (⟨destsz, crc, trychar, packetno, len, retrans, bufsz, xbuff, sink,
        .syncCan r⟩ : RxState) (-1) = rxSyncNext _ r := rfl
    rw [e]
    exact hnext _ r
  | recv i =>
    refine ⟨by simp only [rxTimeoutsLeft]; omega, Or.inr ⟨_, _, rfl, ?_⟩⟩
    simp only [rxTimeoutsLeft]
    omega
  | flushCancel => exact ⟨Nat.zero_lt_one, Or.inl ⟨_, _, _, rfl⟩⟩
  | flushSync => exact ⟨Nat.zero_lt_one, Or.inl ⟨_, _, _, rfl⟩⟩
  | flushRetrans => exact ⟨Nat.zero_lt_one, Or.inl ⟨_, _, _, rfl⟩⟩
  | flushReject =>
    refine ⟨by simp only [rxTimeoutsLeft]; omega, Or.inr ⟨_, _, rfl, ?_⟩⟩
    simp only [rxTimeoutsLeft]
    omega

theorem rxTimeoutsLeft_le (s : RxState) : rxTimeoutsLeft s ≤ 35 := by
  unfold rxTimeoutsLeft
  split <;> first | omega | (split <;> omega)

theorem tx_timeout_dec (s : TxState) :
    0 < txTimeoutsLeft s ∧ ((∃ s' o r, txStep s (-1) = .done s' o r) ∨
      (∃ s' o, txStep s (-1) = .more s' o ∧ txTimeoutsLeft s' < txTimeoutsLeft s)) := by
  obtain ⟨src, srcsz, onek, binary, crc, packetno, len, bufsz, xbuff, pc⟩ := s
  cases pc with
  | sync r =>
    refine ⟨by simp only [txTimeoutsLeft]; omega, Or.inr ?_⟩
    have e : txStep (⟨src, srcsz, onek, binary, crc, packetno, len, bufsz, xbuff,
        .sync r⟩ : TxState) (-1) = txSyncNext _ r := rfl
    rw [e]
    unfold txSyncNext
    split
    · refine ⟨_, _, rfl, ?_⟩
      simp only [txTimeoutsLeft]
      omega
    · refine ⟨_, _, rfl, ?_⟩
      simp only [txTimeoutsLeft]
      omega
  | syncCan r =>
    refine ⟨by simp only [txTimeoutsLeft]; omega, Or.inr ?_⟩
    have e : txStep (⟨src, srcsz, onek, binary, crc, packetno, len, bufsz, xbuff,
        .syncCan r⟩ : TxState) (-1) = txSyncNext _ r := rfl
    rw [e]
    unfold txSyncNext
    split
    · refine ⟨_, _, rfl, ?_⟩
      simp only [txTimeoutsLeft]
      omega
    · refine ⟨_, _, rfl, ?_⟩
      simp only [txTimeoutsLeft]
      omega
  | reply r =>
    refine ⟨by simp only [txTimeoutsLeft]; omega, Or.inr ?_⟩
    have e : txStep (⟨src, srcsz, onek, binary, crc, packetno, len, bufsz, xbuff,
        .reply r⟩ : TxState) (-1) = txReplyNext _ r := rfl
    rw [e]
    unfold txReplyNext txSend
    by_cases h : ((r : Int) + 1) < MAXRETRANS
    · rw [if_pos h]
      refine ⟨_, _, rfl, ?_⟩
      have h' : ((r : Int) + 1) < 25 := h
      simp only [txTimeoutsLeft]
      omega
    · rw [if_neg h]
      refine ⟨_, _, rfl, ?_⟩
      simp only [txTimeoutsLeft]
      omega
  | replyCan r =>
    refine ⟨by simp only [txTimeoutsLeft]; omega, Or.inr ?_⟩
    have e : txStep (⟨src, srcsz, onek, binary, crc, packetno, len, bufsz, xbuff,
        .replyCan r⟩ : TxState) (-1) = txReplyNext _ r := rfl
    rw [e]
    unfold txReplyNext txSend
    by_cases h : ((r : Int) + 1) < MAXRETRANS
    · rw [if_pos h]
      refine ⟨_, _, rfl, ?_⟩
      have h' : ((r : Int) + 1) < 25 := h
      simp only [txTimeoutsLeft]
      omega
    · rw [if_neg h]
      refine ⟨_, _, rfl, ?_⟩
      simp only [txTimeoutsLeft]
      omega
  | eot r =>
    refine ⟨by simp only [txTimeoutsLeft]; omega, Or.inr ?_⟩
    have e : txStep (⟨src, srcsz, onek, binary, crc, packetno, len, bufsz, xbuff,
        .eot r⟩ : TxState) (-1) = txEotNext _ r := rfl
    rw [e]
    unfold txEotNext
    split
    · refine ⟨_, _, rfl, ?_⟩
      simp only [txTimeoutsLeft]
      omega
    · refine ⟨_, _, rfl, ?_⟩
      simp only [txTimeoutsLeft]
      omega
  | flush r => exact ⟨Nat.zero_lt_one, Or.inl ⟨_, _, _, rfl⟩⟩

theorem txTimeoutsLeft_le (s : TxState) : txTimeoutsLeft s ≤ 26 := by
  unfold txTimeoutsLeft
  split <;> omega

/-- C20. For all arguments and every finite list of read results (bytes, and timeouts in
between) followed by timeouts only: `xmodemReceive` returns once 35 timeouts have followed,
and `xmodemTransmit` once 26 have, with a final state, a finite list of bytes written and a
return value that do not depend on how many more timeouts follow. -/
theorem termination_on_finite_input :
    (∀ (destsz crc : Int) (reads : List Int),
      ∃ x, ∀ t, 35 ≤ t → xmodemReceive destsz crc reads t = some x) ∧
    (∀ (src : List Nat) (srcsz onek binary : Int) (reads : List Int),
      ∃ x, ∀ t, 26 ≤ t → xmodemTransmit src srcsz onek binary reads t = some x) :=
  ⟨fun destsz crc reads =>
      driveList_timeouts rxStep rxTimeoutsLeft 35 rx_timeout_dec rxTimeoutsLeft_le
        (rxStart destsz crc) reads,
    fun src srcsz onek binary reads =>
      driveList_timeouts txStep txTimeoutsLeft 26 tx_timeout_dec txTimeoutsLeft_le
        (txStart src srcsz onek binary) reads⟩

/-! ## Further instances -/

/-- C11, an instance: the word hello in text mode, a peer that sends NAK once and then
nothing. -/
theorem sender_retry_exhaustion_witness :
    (0 : Int) < 5 ∧ ((NAK : Int) = CHR_C ∨ (NAK : Int) = NAK) ∧
    ∃ (s : TxState) (pkt : List Nat),
      xmodemTransmit sampleHello 5 0 0 [(NAK : Int)] (26 + 0)
        = some (s, (List.replicate 25 pkt).flatten ++ [CAN, CAN, CAN], -4) ∧
      pkt = txPacket sampleHello 0 (if (0 : Int) ≠ 0 ∧ (5 : Int) > 128 then STX else SOH)
              (if (0 : Int) ≠ 0 ∧ (5 : Int) > 128 then 1024 else 128) 1 0
              (if (NAK : Int) = CHR_C then 1 else 0)
              (min 5 (if (0 : Int) ≠ 0 ∧ (5 : Int) > 128 then 1024 else 128)) ∧
      pkt.length = (if (0 : Int) ≠ 0 ∧ (5 : Int) > 128 then 1024 else 128) + 4
                    + (if (NAK : Int) = CHR_C then 1 else 0) :=
  ⟨by decide, Or.inr rfl,
    sender_retry_exhaustion sampleHello 5 0 0 (NAK : Int) 0 (by decide) (Or.inr rfl)⟩

/-- C18, an instance: block 1 resent 25 times while block 2 is expected, right after block 1
was accepted. -/
theorem retransmit_budget_witness :
    sampleRxAfterBlock1.pc = .sync 0 ∧
    rxAccept (rxHolding sampleRxAfterBlock1 samplePacket) = true ∧
    samplePacket.getD 1 0 ≠ sampleRxAfterBlock1.packetno ∧ sampleRxAfterBlock1.retrans = 25 ∧
    ∃ s', feed rxStep (.more sampleRxAfterBlock1 [])
        (asReads (List.replicate 24 samplePacket).flatten ++ (asReads samplePacket ++ [-1]))
      = .done s' (List.replicate 24 ACK ++ [CAN, CAN, CAN]) (-3) :=
  ⟨rfl, sampleRxAfterBlock1_accept, by decide, rfl,
    ((retransmit_budget.1 sampleRxAfterBlock1 0 samplePacket rfl samplePacket_bytes (Or.inl rfl)
      (samplePacket_length _ rfl) sampleRxAfterBlock1_accept).2 (by decide)).2 rfl (by decide)
      (-1) (by decide)⟩

set_option maxRecDepth 100000 in
/-- C19, an instance: the first packet of a 2500-byte source sent in 1K blocks with CRC
touches index 1028. -/
theorem frame_buffer_bounds_witness :
    stepsTo txStep (txStart sampleSource 2500 1 1) [] = some (txInit sampleSource 2500 1 1) ∧
    1028 ∈ txTouched (txInit sampleSource 2500 1 1) (CHR_C : Int) ∧
    1028 < XBUF_SIZE ∧
    ((1028 : Nat) = 1028 →
      (txStep (txInit sampleSource 2500 1 1) (CHR_C : Int)).state.bufsz = 1024 ∧
      (txStep (txInit sampleSource 2500 1 1) (CHR_C : Int)).state.crc ≠ 0) :=
  ⟨rfl, by decide,
    frame_buffer_bounds.2.1 sampleSource 2500 1 1 [] (txInit sampleSource 2500 1 1)
      (CHR_C : Int) 1028 rfl (by decide)⟩

/-- C20, an instance: the receiver in CRC mode after the two bytes SOH, 0x01. -/
theorem termination_on_finite_input_witness :
    ∃ x, ∀ t, 35 ≤ t → xmodemReceive 128 1 [(SOH : Int), 1] t = some x :=
  termination_on_finite_input.1 128 1 [(SOH : Int), 1]

end Xmodem
